import Mathlib

/-!
# Verification of the cf-worker-ws-dev data plane

A shallow embedding of the tunnelling worker's data-plane code:

* `src/utils/websocket.js` — the from-scratch `sha224`, base64/UUID helpers;
* `src/protocol/trojan.js` — `isTrojanProtocol`, `processTrojanHeader`;
* `src/protocol/vless.js` (part_001) — `processProtocolHeader`, `isValidUUID`;
* `src/proxy/vless.js` — `makeVlessRequestHeader`, `expandIPv6`;
* `src/handlers/websocket.js` — the per-message dispatch of the WebSocket
  handler;
* `src/protocol/dns.js` (part_002) — `handleDNSQuery`;
* `src/proxy/stream.js` (part_003) — `remoteSocketToWS`;
* `src/proxy/tcp.js` — the one-shot retry wiring of `handleTCPOutBound`;
* UDP framing (part_004) — `makeReadableUDPStream` / `makeWritableUDPStream`;
* the proxy resolver (part_000) — `resolveProxyAddresses`,
  `connectWithRotation`.

Buffers (`ArrayBuffer`/`Uint8Array`) are `List Nat` with every element a
byte value.  JavaScript numeric quirks that the code can actually hit are
modelled explicitly: `DataView` accessors throw `RangeError` when out of
range (so functions using them live in `Except String`), while `Uint8Array`
indexing yields `undefined` (`Option`).  32-bit coercions (`| 0`, `>>>`,
`&`) are `% 2 ^ 32` arithmetic on `Nat`.
-/

/-! ## JavaScript numeric and buffer primitives -/

/-- JS `ToUint32` / `| 0` seen as an unsigned bit pattern: reduce mod `2^32`. -/
def w32 (n : Nat) : Nat := n % 4294967296

/-- JS `~x` on a 32-bit word: bitwise complement, i.e. `2^32 - 1 - x`. -/
def not32 (x : Nat) : Nat := 4294967295 - w32 x

/-- `rightRotate(value, amount)` from `sha224`:
`(value >>> amount) | (value << (32 - amount))`.  Both JS shifts coerce the
operand to 32 bits first, and the result is only ever consumed through
further 32-bit operations, so this is rotation of the low 32 bits. -/
def rotr32 (x n : Nat) : Nat := w32 ((w32 x >>> n) ||| (w32 x <<< (32 - n)))

/-- `Uint8Array` / plain array indexing: out-of-range reads give `undefined`. -/
def jsIndex (b : List Nat) (i : Nat) : Option Nat := b.get? i

/-- `DataView.getUint8`: throws `RangeError` when out of range. -/
def dvGetUint8 (b : List Nat) (i : Nat) : Except String Nat :=
  match b.get? i with
  | some v => .ok v
  | none => .error "RangeError"

/-- `DataView.getUint16` (big-endian default): throws when out of range. -/
def dvGetUint16 (b : List Nat) (i : Nat) : Except String Nat :=
  match b.get? i, b.get? (i + 1) with
  | some hi, some lo => .ok (hi * 256 + lo)
  | _, _ => .error "RangeError"

/-- `ArrayBuffer.slice(start, stop)` / `Uint8Array.slice`: clamps, never
throws. -/
def uaSlice (b : List Nat) (start stop : Nat) : List Nat :=
  (b.take stop).drop start

/-! ## `sha224` (src/utils/websocket.js lines 32–130)

The hand-rolled SHA-224.  Words are `Nat`s; every place the source forces a
32-bit result (`| 0`, the shifts inside `rightRotate`, the `& 0xf` nibble
extraction) is a `w32`/mask here.  The source leaves the two length words
and the intermediate `temp1`/`temp2` sums unreduced, and so do we (JS floats
are exact for every string a Worker can hold).  The `if (j >> 8) return;`
ASCII guard makes the function return `undefined` — `none` — as soon as any
code unit exceeds 255. -/

/-- SHA-224 initial hash values (source lines 45–48). -/
def sha224InitHash : List Nat :=
  [3238371032, 914150663, 812702999, 4144912697,
   4290775857, 1750603025, 1694076839, 3204075428]

/-- SHA-2 round constants `k` (source lines 51–60). -/
def sha2K : List Nat :=
  [1116352408, 1899447441, 3049323471, 3921009573, 961987163, 1508970993,
   2453635748, 2870763221, 3624381080, 310598401, 607225278, 1426881987,
   1925078388, 2162078206, 2614888103, 3248222580, 3835390401, 4022224774,
   264347078, 604807628, 770255983, 1249150122, 1555081692, 1996064986,
   2554220882, 2821834349, 2952996808, 3210313671, 3336571891, 3584528711,
   113926993, 338241895, 666307205, 773529912, 1294757372, 1396182291,
   1695183700, 1986661051, 2177026350, 2456956037, 2730485921, 2820302411,
   3259730800, 3345764771, 3516065817, 3600352804, 4094571909, 275423344,
   430227734, 506948616, 659060556, 883997877, 958139571, 1322822218,
   1537002063, 1747873779, 1955562222, 2024104815, 2227730452, 2361852424,
   2428436474, 2756734187, 3204031479, 3329325298]

/-- `str += '\x80'; while (str.length % 64 - 56) str += '\x00';`
(source lines 64–65): append `0x80`, then zeros until the length is
`56 mod 64`. -/
def sha224Pad (msg : List Nat) : List Nat :=
  let m := msg ++ [128]
  m ++ List.replicate ((120 - m.length % 64) % 64) 0

/-- The big-endian word packing `words[i >> 2] |= j << ((3 - i) % 4) * 8`
(source line 70; the negative shift counts wrap mod 32 back to the
big-endian byte positions). -/
def sha224PackWords : List Nat → List Nat
  | a :: b :: c :: d :: rest =>
      (a * 16777216 + b * 65536 + c * 256 + d) :: sha224PackWords rest
  | [a, b, c] => [a * 16777216 + b * 65536 + c * 256]
  | [a, b] => [a * 16777216 + b * 65536]
  | [a] => [a * 16777216]
  | [] => []

/-- σ₀ of the message schedule (source line 86). -/
def sha2Sigma0 (x : Nat) : Nat :=
  rotr32 x 7 ^^^ rotr32 x 18 ^^^ (w32 x >>> 3)

/-- σ₁ of the message schedule (source line 88). -/
def sha2Sigma1 (x : Nat) : Nat :=
  rotr32 x 17 ^^^ rotr32 x 19 ^^^ (w32 x >>> 10)

/-- One extension step of the message schedule: append
`(w[i-16] + σ₀(w[i-15]) + w[i-7] + σ₁(w[i-2])) | 0` (source lines 82–89). -/
def sha2ExtendStep (ws : List Nat) : List Nat :=
  let L := ws.length
  ws ++ [w32 (ws.getD (L - 16) 0 + sha2Sigma0 (ws.getD (L - 15) 0) +
              ws.getD (L - 7) 0 + sha2Sigma1 (ws.getD (L - 2) 0))]

/-- Extend the 16-word chunk to the 64-word schedule. -/
def sha2Extend : Nat → List Nat → List Nat
  | 0, ws => ws
  | n + 1, ws => sha2Extend n (sha2ExtendStep ws)

/-- The eight working variables of the compression loop. -/
structure Sha2State where
  a : Nat
  b : Nat
  c : Nat
  d : Nat
  e : Nat
  f : Nat
  g : Nat
  h : Nat
deriving Repr, DecidableEq

/-- One compression round (source lines 92–108): the
`hash = [(temp1 + temp2) | 0].concat(hash); hash[4] = (hash[4] + temp1) | 0;
hash.pop()` state rotation. -/
def sha2Round (st : Sha2State) (ki wi : Nat) : Sha2State :=
  let temp1 := st.h + (rotr32 st.e 6 ^^^ rotr32 st.e 11 ^^^ rotr32 st.e 25) +
    ((st.e &&& st.f) ^^^ (not32 st.e &&& st.g)) + ki + wi
  let temp2 := (rotr32 st.a 2 ^^^ rotr32 st.a 13 ^^^ rotr32 st.a 22) +
    ((st.a &&& st.b) ^^^ (st.a &&& st.c) ^^^ (st.b &&& st.c))
  { a := w32 (temp1 + temp2), b := st.a, c := st.b, d := st.c,
    e := w32 (st.d + temp1), f := st.e, g := st.f, h := st.g }

/-- Process one 16-word chunk: run the 64 rounds, then add the old hash
words back mod `2^32` (source lines 76–114). -/
def sha2Chunk (hs : List Nat) (chunk : List Nat) : List Nat :=
  let ws := sha2Extend 48 chunk
  let init : Sha2State :=
    { a := hs.getD 0 0, b := hs.getD 1 0, c := hs.getD 2 0, d := hs.getD 3 0,
      e := hs.getD 4 0, f := hs.getD 5 0, g := hs.getD 6 0, h := hs.getD 7 0 }
  let fin := (List.range 64).foldl
    (fun st i => sha2Round st (sha2K.getD i 0) (ws.getD i 0)) init
  [w32 (fin.a + hs.getD 0 0), w32 (fin.b + hs.getD 1 0),
   w32 (fin.c + hs.getD 2 0), w32 (fin.d + hs.getD 3 0),
   w32 (fin.e + hs.getD 4 0), w32 (fin.f + hs.getD 5 0),
   w32 (fin.g + hs.getD 6 0), w32 (fin.h + hs.getD 7 0)]

/-- Split the word list into 16-word chunks (the
`for (i = 0; i < words.length; i += 16)` loop).  The first argument is
fuel — each iteration drops at least one word, so the list length bounds the
iteration count — making the recursion structural. -/
def sha2Chunks16Go : Nat → List Nat → List (List Nat)
  | _, [] => []
  | 0, _ :: _ => []
  | fuel + 1, wd :: ws => ((wd :: ws).take 16) :: sha2Chunks16Go fuel ((wd :: ws).drop 16)

/-- Split the word list into 16-word chunks. -/
def sha2Chunks16 (l : List Nat) : List (List Nat) := sha2Chunks16Go l.length l

/-- Lowercase hex digit, as produced by `Number.toString(16)`. -/
def hexCharOfNibble (n : Nat) : Char :=
  if n < 10 then Char.ofNat (48 + n) else Char.ofNat (87 + n)

/-- Render one hash word as eight hex nibbles (source lines 117–127). -/
def sha224RenderWord (x : Nat) : List Char :=
  [hexCharOfNibble ((x >>> 28) &&& 15), hexCharOfNibble ((x >>> 24) &&& 15),
   hexCharOfNibble ((x >>> 20) &&& 15), hexCharOfNibble ((x >>> 16) &&& 15),
   hexCharOfNibble ((x >>> 12) &&& 15), hexCharOfNibble ((x >>> 8) &&& 15),
   hexCharOfNibble ((x >>> 4) &&& 15), hexCharOfNibble (x &&& 15)]

/-- `sha224(str)` (source lines 32–130).  Returns `none` — the JS
`undefined` — when any UTF-16 code unit of the input exceeds 255 (the
`if (j >> 8) return;` guard); otherwise the 56-hex-character digest. -/
def sha224 (str : String) : Option String :=
  let codes := str.data.map Char.toNat
  if codes.all (· < 256) then
    let bitLen := codes.length * 8
    let words := sha224PackWords (sha224Pad codes) ++
      [w32 (bitLen / 4294967296), bitLen]
    let final := (sha2Chunks16 words).foldl sha2Chunk sha224InitHash
    some ⟨(final.take 7).flatMap sha224RenderWord⟩
  else
    none

/-! ## Text primitives: UTF-8 (`TextEncoder`/`TextDecoder`), digits, parseInt -/

/-- A UTF-8 continuation byte `10xxxxxx`. -/
def utf8Cont (c : Nat) : Bool := 128 ≤ c && c < 192

/-- The U+FFFD replacement character emitted by a non-fatal `TextDecoder`. -/
def uRepl : Char := Char.ofNat 0xfffd

/-- Decode one scalar ("character") of non-fatal UTF-8 from a lead byte
and the bytes after it: the decoded character (U+FFFD for ill-formed
input — overlong forms, surrogates and values above U+10FFFF are rejected
as WHATWG prescribes) and the not-yet-consumed bytes. -/
def utf8DecodeStep (b : Nat) (rest : List Nat) : Char × List Nat :=
  if b < 128 then (Char.ofNat b, rest)
  else if b < 194 then (uRepl, rest)
  else if b < 224 then
    match rest with
    | c1 :: rest2 =>
      if utf8Cont c1 then (Char.ofNat ((b - 192) * 64 + (c1 - 128)), rest2)
      else (uRepl, c1 :: rest2)
    | [] => (uRepl, [])
  else if b < 240 then
    match rest with
    | c1 :: c2 :: rest3 =>
      if utf8Cont c1 && utf8Cont c2 && !(b == 224 && c1 < 160) &&
          !(b == 237 && 160 ≤ c1) then
        (Char.ofNat ((b - 224) * 4096 + (c1 - 128) * 64 + (c2 - 128)), rest3)
      else (uRepl, c1 :: c2 :: rest3)
    | _ => (uRepl, [])
  else if b < 245 then
    match rest with
    | c1 :: c2 :: c3 :: rest4 =>
      if utf8Cont c1 && utf8Cont c2 && utf8Cont c3 &&
          !(b == 240 && c1 < 144) && !(b == 244 && 144 ≤ c1) then
        (Char.ofNat ((b - 240) * 262144 + (c1 - 128) * 4096 +
          (c2 - 128) * 64 + (c3 - 128)), rest4)
      else (uRepl, c1 :: c2 :: c3 :: rest4)
    | _ => (uRepl, [])
  else (uRepl, rest)

/-- Decoding one scalar consumes no byte of `rest` it does not have. -/
theorem utf8DecodeStep_rest_le (b : Nat) (rest : List Nat) :
    (utf8DecodeStep b rest).2.length ≤ rest.length := by
  unfold utf8DecodeStep
  repeat' split
  all_goals simp_all
  all_goals omega

/-- `TextDecoder().decode` (default non-fatal UTF-8), one scalar at a
time. -/
def utf8DecodeChars : List Nat → List Char
  | [] => []
  | b :: rest =>
    (utf8DecodeStep b rest).1 :: utf8DecodeChars (utf8DecodeStep b rest).2
termination_by l => l.length
decreasing_by
  simp_wf
  exact Nat.lt_succ_of_le (utf8DecodeStep_rest_le _ _)

/-- `TextDecoder().decode` as a `String`. -/
def textDecode (b : List Nat) : String := ⟨utf8DecodeChars b⟩

/-- `TextEncoder().encode` of one scalar value. -/
def utf8EncodeChar (c : Char) : List Nat :=
  let n := c.toNat
  if n < 128 then [n]
  else if n < 2048 then [192 + n / 64, 128 + n % 64]
  else if n < 65536 then [224 + n / 4096, 128 + n / 64 % 64, 128 + n % 64]
  else [240 + n / 262144, 128 + n / 4096 % 64, 128 + n / 64 % 64, 128 + n % 64]

/-- `TextEncoder().encode`. -/
def utf8Encode (s : String) : List Nat := s.data.flatMap utf8EncodeChar

/-- The code units of an ASCII string, for byte-level comparisons. -/
def asciiBytes (s : String) : List Nat := s.data.map Char.toNat

/-- `Number.prototype.toString(16)` digits of `n`, least significant
first. -/
def hexDigitsRevGo : Nat → Nat → List Char
  | _, 0 => []
  | 0, _ => []
  | fuel + 1, n + 1 => hexCharOfNibble ((n + 1) % 16) :: hexDigitsRevGo fuel ((n + 1) / 16)

/-- Hex digits of `n`, least significant first (`n` itself bounds the digit
count, so it doubles as structural fuel). -/
def hexDigitsRev (n : Nat) : List Char := hexDigitsRevGo n n

/-- `Number.prototype.toString(16)`: lowercase, no leading zeros. -/
def renderHexNat (n : Nat) : String :=
  if n = 0 then "0" else ⟨(hexDigitsRev n).reverse⟩

/-- Decimal digits of `n`, least significant first. -/
def decDigitsRevGo : Nat → Nat → List Char
  | _, 0 => []
  | 0, _ => []
  | fuel + 1, n + 1 => Char.ofNat (48 + (n + 1) % 10) :: decDigitsRevGo fuel ((n + 1) / 10)

/-- Decimal digits of `n`, least significant first (`n` bounds the digit
count, so it doubles as structural fuel). -/
def decDigitsRev (n : Nat) : List Char := decDigitsRevGo n n

/-- `Number.prototype.toString()`: the default decimal rendering used by
`Array.prototype.join`. -/
def renderDecNat (n : Nat) : String :=
  if n = 0 then "0" else ⟨(decDigitsRev n).reverse⟩

/-- Value of one hex digit (either case), `none` for a non-digit. -/
def hexDigitVal (c : Char) : Option Nat :=
  if '0' ≤ c && c ≤ '9' then some (c.toNat - 48)
  else if 'a' ≤ c && c ≤ 'f' then some (c.toNat - 87)
  else if 'A' ≤ c && c ≤ 'F' then some (c.toNat - 55)
  else none

/-- Value of one decimal digit, `none` for a non-digit. -/
def decDigitVal (c : Char) : Option Nat :=
  if '0' ≤ c && c ≤ '9' then some (c.toNat - 48) else none

/-- `parseInt` accumulation: consume digits until the first non-digit. -/
def parseDigitsAcc (digit : Char → Option Nat) (base : Nat) :
    Nat → List Char → Nat
  | acc, [] => acc
  | acc, c :: cs =>
    match digit c with
    | some d => parseDigitsAcc digit base (acc * base + d) cs
    | none => acc

/-- `parseInt(s, base)` on a digit-led string: `none` is JS `NaN` (no
leading digit).  Call sites in this codebase pass strings with no leading
whitespace or sign. -/
def jsParseInt (digit : Char → Option Nat) (base : Nat) (s : String) :
    Option Nat :=
  match s.data with
  | c :: rest =>
    match digit c with
    | some d => some (parseDigitsAcc digit base d rest)
    | none => none
  | [] => none

/-- `parseInt(s, 16)`. -/
def jsParseIntHex (s : String) : Option Nat := jsParseInt hexDigitVal 16 s

/-- `parseInt(s, 10)` / `parseInt(s)` on the decimal strings this code
feeds it. -/
def jsParseIntDec (s : String) : Option Nat := jsParseInt decDigitVal 10 s

/-- `String.prototype.substr(start, len)`. -/
def jsSubstr (s : String) (start len : Nat) : String :=
  ⟨(s.data.drop start).take len⟩

/-- Split a character list at every occurrence of the separator character:
`String.prototype.split` with a one-character separator. -/
def splitOnCharList (sep : Char) : List Char → List (List Char)
  | [] => [[]]
  | c :: cs =>
    let rest := splitOnCharList sep cs
    if c = sep then [] :: rest
    else
      match rest with
      | r :: rs => (c :: r) :: rs
      | [] => [[c]]

/-- `String.prototype.split` with a one-character separator. -/
def jsSplitChar (sep : Char) (s : String) : List String :=
  (splitOnCharList sep s.data).map (fun l => ⟨l⟩)

/-- Join character lists with a separator character. -/
def joinWithChar (sep : Char) : List (List Char) → List Char
  | [] => []
  | [x] => x
  | x :: y :: xs => x ++ sep :: joinWithChar sep (y :: xs)

/-- `Array.prototype.join(sep)` / `[...].join(sep)` over strings. -/
def jsJoin (sep : Char) (parts : List String) : String :=
  ⟨joinWithChar sep (parts.map String.data)⟩

/-! ## UUID helpers (src/utils/websocket.js lines 145–219, part_001 lines 11–14) -/

/-- `byteToHex[b]` — `(b + 0x100).toString(16).slice(1)`: two lowercase hex
digits (all call sites index with byte values). -/
def byteToHexStr (b : Nat) : List Char :=
  [hexCharOfNibble (b / 16 % 16), hexCharOfNibble (b % 16)]

/-- The unchecked UUID rendering from `encoding.js` (source name has the
`Stringify` helper prefixed with the word for "not safe"): sixteen
`byteToHex` lookups joined with dashes, then `toLowerCase` (a no-op here,
`byteToHex` is already lowercase).  Call sites always pass ≥ 16 bytes from
`offset`. -/
def rawStringify (arr : List Nat) (offset : Nat) : String :=
  ⟨byteToHexStr (arr.getD offset 0) ++ byteToHexStr (arr.getD (offset + 1) 0) ++
   byteToHexStr (arr.getD (offset + 2) 0) ++ byteToHexStr (arr.getD (offset + 3) 0) ++
   ['-'] ++
   byteToHexStr (arr.getD (offset + 4) 0) ++ byteToHexStr (arr.getD (offset + 5) 0) ++
   ['-'] ++
   byteToHexStr (arr.getD (offset + 6) 0) ++ byteToHexStr (arr.getD (offset + 7) 0) ++
   ['-'] ++
   byteToHexStr (arr.getD (offset + 8) 0) ++ byteToHexStr (arr.getD (offset + 9) 0) ++
   ['-'] ++
   byteToHexStr (arr.getD (offset + 10) 0) ++ byteToHexStr (arr.getD (offset + 11) 0) ++
   byteToHexStr (arr.getD (offset + 12) 0) ++ byteToHexStr (arr.getD (offset + 13) 0) ++
   byteToHexStr (arr.getD (offset + 14) 0) ++ byteToHexStr (arr.getD (offset + 15) 0)⟩

/-- One hex digit of the UUID regex (`[0-9a-f]` with the `i` flag). -/
def isHexDigitCI (c : Char) : Bool :=
  ('0' ≤ c && c ≤ '9') || ('a' ≤ c && c ≤ 'f') || ('A' ≤ c && c ≤ 'F')

/-- `isValidUUID` (part_001 lines 11–14): the regex
`/^[0-9a-f]{8}-[0-9a-f]{4}-[1-5][0-9a-f]{3}-[89ab][0-9a-f]{3}-[0-9a-f]{12}$/i`
as a character-level check: 8-4-4-4-12 hex groups, dashes at positions
8/13/18/23, version nibble (index 14) in `1..5`, variant nibble (index 19)
in `89ab` (either case). -/
def isValidUUID (s : String) : Bool :=
  s.data.length == 36 &&
  (List.range 36).all (fun i =>
    let c := s.data.getD i ' '
    if i == 8 || i == 13 || i == 18 || i == 23 then c == '-'
    else if i == 14 then '1' ≤ c && c ≤ '5'
    else if i == 19 then
      c == '8' || c == '9' || c == 'a' || c == 'b' || c == 'A' || c == 'B'
    else isHexDigitCI c)

/-- `stringify` (src/utils/websocket.js lines 213–219): render, then throw
`TypeError` unless the result passes `isValidUUID`. -/
def stringify (arr : List Nat) (offset : Nat) : Except String String :=
  let uuid := rawStringify arr offset
  if isValidUUID uuid then .ok uuid
  else .error "TypeError: Stringified UUID is invalid"

/-! ## Trojan protocol (src/protocol/trojan.js)

`TROJAN_CMD_TCP = 0x01`, `TROJAN_CMD_UDP = 0x03` (src/config/constants.js).
Both functions live in `Except String`: the `DataView` reads can throw —
the totality proofs below show that in `processTrojanHeader` they never
do. -/

/-- `isTrojanProtocol(buffer, password)` (trojan.js lines 17–36). -/
def isTrojanProtocol (buffer : List Nat) (password : String) : Bool :=
  if buffer.length < 58 then false
  else if !(buffer.getD 56 0 == 13) || !(buffer.getD 57 0 == 10) then false
  else
    -- `receivedPasswordHash === sha224(password)`; when `sha224` returns
    -- `undefined` (non-latin1 password) the strict comparison is false.
    match sha224 password with
    | some expected => textDecode (uaSlice buffer 0 56) == expected
    | none => false

/-- The success payload of `processTrojanHeader`. -/
structure TrojanOk where
  addressRemote : String
  addressType : Nat
  portRemote : Nat
  rawDataIndex : Nat
  isUDP : Bool
deriving Repr, DecidableEq

/-- The result object of `processTrojanHeader`: either
`{hasError: true, message}` or the parsed header. -/
inductive TrojanResult
  | err (message : String)
  | ok (r : TrojanOk)
deriving Repr, DecidableEq

/-- The tail of `processTrojanHeader` after the address switch (trojan.js
lines 117–149): port, final CRLF, empty-address check, and the renumbering
of Trojan domain type 3 to VLESS's type 2. -/
def finishTrojanHeader (buffer : List Nat) (addressType : Nat)
    (addressValue : String) (portIndex : Nat) (isUDP : Bool) :
    Except String TrojanResult :=
  if buffer.length < portIndex + 2 then
    .ok (.err "Invalid Trojan header: port truncated")
  else
    match dvGetUint16 buffer portIndex with
    | .error e => .error e
    | .ok portRemote =>
      let crlfIndex := portIndex + 2
      if buffer.length < crlfIndex + 2 then
        .ok (.err "Invalid Trojan header: missing final CRLF")
      else if !(buffer.getD crlfIndex 0 == 13) || !(buffer.getD (crlfIndex + 1) 0 == 10) then
        .ok (.err "Invalid Trojan header: invalid final CRLF")
      else if addressValue == "" then
        .ok (.err s!"Address value is empty, address type is {addressType}")
      else
        .ok (.ok ⟨addressValue, if addressType == 3 then 2 else addressType,
          portRemote, crlfIndex + 2, isUDP⟩)

/-- `processTrojanHeader(buffer, password)` (trojan.js lines 52–150). -/
def processTrojanHeader (buffer : List Nat) (password : String) :
    Except String TrojanResult :=
  if buffer.length < 58 then
    .ok (.err "Invalid Trojan data: too short")
  else
    let receivedPasswordHash := textDecode (uaSlice buffer 0 56)
    let passwordOk := match sha224 password with
      | some expected => receivedPasswordHash == expected
      | none => false   -- `received !== undefined` makes the comparison false
    if !passwordOk then
      .ok (.err "Invalid Trojan password")
    else if !(buffer.getD 56 0 == 13) || !(buffer.getD 57 0 == 10) then
      .ok (.err "Invalid Trojan header: missing CRLF")
    else
      let command := jsIndex buffer 58
      if !(command == some 1 || command == some 3) then
        .ok (.err "Unsupported Trojan command")
      else
        let isUDP := command == some 3
        match jsIndex buffer 59 with
        | some 1 =>      -- IPv4: 4 raw bytes at 60
          if buffer.length < 60 + 4 + 2 then
            .ok (.err "Invalid Trojan header: IPv4 address truncated")
          else
            finishTrojanHeader buffer 1
              (jsJoin '.' ((uaSlice buffer 60 64).map renderDecNat)) 64 isUDP
        | some 3 =>      -- Domain: length byte at 60, name at 61
          match jsIndex buffer 60 with
          | none =>
            -- Reached only when `buffer.length = 60`: `bytes[60]` is
            -- `undefined`.  The JS then computes `addressLength = undefined`,
            -- every subsequent bound check compares against `NaN` (false),
            -- the slice end clamps to 0 giving an empty string,
            -- `getUint16(NaN)` reads offset 0 via `ToIndex`, and the
            -- final-CRLF test reads `bytes[NaN] = undefined`, so the
            -- function returns this error object.
            .ok (.err "Invalid Trojan header: invalid final CRLF")
          | some addressLength =>
            if buffer.length < 61 + addressLength + 2 then
              .ok (.err "Invalid Trojan header: domain name truncated")
            else
              finishTrojanHeader buffer 3
                (textDecode (uaSlice buffer 61 (61 + addressLength)))
                (61 + addressLength) isUDP
        | some 4 =>      -- IPv6: 8 big-endian groups at 60
          if buffer.length < 60 + 16 + 2 then
            .ok (.err "Invalid Trojan header: IPv6 address truncated")
          else
            match (List.range 8).mapM (fun i => dvGetUint16 buffer (60 + i * 2)) with
            | .error e => .error e
            | .ok groups =>
              finishTrojanHeader buffer 4
                (jsJoin ':' (groups.map renderHexNat)) (60 + 16) isUDP
        | _ =>
          .ok (.err "Invalid Trojan address type")

/-! ## String helpers used by the VLESS code -/

/-- JS whitespace for `String.prototype.trim` (the code points its inputs —
UUID lists from configuration — can contain). -/
def isJsSpace (c : Char) : Bool :=
  c == ' ' || c == '\t' || c == '\n' || c == '\r' ||
  c == Char.ofNat 11 || c == Char.ofNat 12

/-- `String.prototype.trim`. -/
def jsTrim (s : String) : String :=
  ⟨((s.data.dropWhile isJsSpace).reverse.dropWhile isJsSpace).reverse⟩

/-- Does the first list lead the second (`String.prototype.startsWith`,
list form)? -/
def leadsWith : List Char → List Char → Bool
  | [], _ => true
  | _ :: _, [] => false
  | a :: as, b :: bs => a == b && leadsWith as bs

/-- Find the first occurrence of (non-empty) `sep`: the part before it and
the part after it. -/
def splitFirstSub (sep : List Char) : List Char → Option (List Char × List Char)
  | [] => none
  | c :: cs =>
    if leadsWith sep (c :: cs) then some ([], (c :: cs).drop sep.length)
    else
      match splitFirstSub sep cs with
      | some (pre, post) => some (c :: pre, post)
      | none => none

/-- `String.prototype.split` with a multi-character separator (fuelled scan;
the wrapper supplies enough fuel for any input). -/
def jsSplitListAux (sep : List Char) : Nat → List Char → List (List Char)
  | 0, l => [l]
  | fuel + 1, l =>
    match splitFirstSub sep l with
    | some (pre, post) => pre :: jsSplitListAux sep fuel post
    | none => [l]

/-- `String.prototype.split(sep)` for a non-empty separator string. -/
def jsSplitStr (sep : String) (s : String) : List String :=
  (jsSplitListAux sep.data (s.data.length + 1) s.data).map (fun l => ⟨l⟩)

/-- `String.prototype.includes`. -/
def jsIncludes (needle : String) (s : String) : Bool :=
  (splitFirstSub needle.data s.data).isSome || needle.data.isEmpty

/-- `String.prototype.padStart(n, c)`. -/
def padStartChars (n : Nat) (c : Char) (l : List Char) : List Char :=
  List.replicate (n - l.length) c ++ l

/-! ## VLESS header parsing (part_001 lines 60–124) -/

/-- The success payload of `processProtocolHeader`. -/
structure VlessOk where
  addressRemote : String
  addressType : Nat
  portRemote : Nat
  rawDataIndex : Nat
  protocolVersion : List Nat
  isUDP : Bool
deriving Repr, DecidableEq

/-- The result object of `processProtocolHeader`: `{hasError: true,
message}` or the parsed header. -/
inductive VlessResult
  | err (message : String)
  | ok (r : VlessOk)
deriving Repr, DecidableEq

/-- The tail shared by the three address arms (part_001 lines 111–123):
empty-address check, then the result object. -/
def vlessFinish (addressType : Nat) (addressValue : String)
    (addressValueIndex addressLength version command portRemote : Nat) :
    Except String VlessResult :=
  if addressValue == "" then
    .ok (.err s!"addressValue is empty, addressType is {addressType}")
  else
    .ok (.ok ⟨addressValue, addressType, portRemote,
      addressValueIndex + addressLength, [version], command == 2⟩)

/-- `processProtocolHeader(protocolBuffer, userID)` (part_001 lines
60–124).  A thrown JS exception is `.error`: `stringify` throws `TypeError`
on a rendering that fails `isValidUUID`, and the `DataView` reads throw
`RangeError` past the end of the buffer. -/
def processProtocolHeader (protocolBuffer : List Nat) (userID : String) :
    Except String VlessResult :=
  if protocolBuffer.length < 24 then
    .ok (.err "invalid data")
  else
    match dvGetUint8 protocolBuffer 0 with
    | .error e => .error e
    | .ok version =>
      match stringify (uaSlice protocolBuffer 1 17) 0 with
      | .error e => .error e
      | .ok slicedBufferString =>
        -- `userID.includes(',') ? userID.split(",") : [userID]` — identical
        -- to unconditional split, which yields `[userID]` without a comma.
        let uuids := jsSplitChar ',' userID
        let isValidUser :=
          uuids.any (fun uuid => slicedBufferString == jsTrim uuid) ||
          (uuids.length == 1 && slicedBufferString == jsTrim (uuids.getD 0 ""))
        if !isValidUser then
          .ok (.err "invalid user")
        else
          match dvGetUint8 protocolBuffer 17 with
          | .error e => .error e
          | .ok optLength =>
            match dvGetUint8 protocolBuffer (18 + optLength) with
            | .error e => .error e
            | .ok command =>
              if !(command == 1 || command == 2) then
                .ok (.err s!"command {command} is not supported, command 01-tcp,02-udp,03-mux")
              else
                let portIndex := 18 + optLength + 1
                match dvGetUint16 protocolBuffer portIndex with
                | .error e => .error e
                | .ok portRemote =>
                  match dvGetUint8 protocolBuffer (portIndex + 2) with
                  | .error e => .error e
                  | .ok addressType =>
                    match addressType with
                    | 1 =>      -- IPv4: `join('.')` of the (clamped) slice
                      vlessFinish 1
                        (jsJoin '.'
                          ((uaSlice protocolBuffer (portIndex + 3) (portIndex + 3 + 4)).map
                            renderDecNat))
                        (portIndex + 3) 4 version command portRemote
                    | 2 =>      -- Domain: length byte, then UTF-8 name
                      match dvGetUint8 protocolBuffer (portIndex + 3) with
                      | .error e => .error e
                      | .ok addressLength =>
                        vlessFinish 2
                          (textDecode
                            (uaSlice protocolBuffer (portIndex + 4)
                              (portIndex + 4 + addressLength)))
                          (portIndex + 4) addressLength version command portRemote
                    | 3 =>      -- IPv6: 8 big-endian 16-bit groups
                      match (List.range 8).mapM
                          (fun i => dvGetUint16 protocolBuffer (portIndex + 3 + i * 2)) with
                      | .error e => .error e
                      | .ok groups =>
                        vlessFinish 3 (jsJoin ':' (groups.map renderHexNat))
                          (portIndex + 3) 16 version command portRemote
                    | _ =>
                      .ok (.err s!"invalid addressType: {addressType}")

/-! ## VLESS request header generation (src/proxy/vless.js lines 36–129) -/

/-- Strip one leading `[` and one trailing `]`:
`ipv6.replace(/^\[|\]$/g, '')`. -/
def stripBrackets (s : String) : String :=
  let l := if s.data.headD ' ' == '[' then s.data.tail else s.data
  ⟨if l.getLast? == some ']' then l.dropLast else l⟩

/-- `expandIPv6` (vless.js lines 111–129): expand `::` compression and
zero-pad every group to 4 digits.  (When the address has more than 8 groups
around a `::` the JS `Array(missing)` would throw; the truncated `Nat`
subtraction stands in for that unreachable-by-contract case.) -/
def expandIPv6 (ipv6 : String) : String :=
  let s := stripBrackets ipv6
  if jsIncludes "::" s then
    let parts := jsSplitStr "::" s
    let left := if (parts.getD 0 "") == "" then [] else jsSplitChar ':' (parts.getD 0 "")
    let right := if (parts.getD 1 "") == "" then [] else jsSplitChar ':' (parts.getD 1 "")
    let missing := 8 - left.length - right.length
    let middle := List.replicate missing "0"
    jsJoin ':'
      ((left ++ middle ++ right).map (fun g => (⟨padStartChars 4 '0' g.data⟩ : String)))
  else
    jsJoin ':'
      ((jsSplitChar ':' s).map (fun g => (⟨padStartChars 4 '0' g.data⟩ : String)))

/-- The sixteen UUID bytes the generation loop writes:
`parseInt(uuidString.substr(i, 2), 16)` for `i = 0, 2, …` (vless.js lines
62–64).  Positions past the end of the string keep the `Uint8Array`'s zero
fill (`parseInt('')` is `NaN`, never written). -/
def uuidFieldBytes (s : List Char) : List Nat :=
  (List.range 16).map (fun p => (jsParseIntHex ⟨(s.drop (2 * p)).take 2⟩).getD 0 % 256)

/-- `makeVlessRequestHeader(command, addressType, addressRemote, portRemote,
uuid)` (vless.js lines 36–104).  The source fills a zeroed
`Uint8Array(22 + addressFieldLength)` at fixed disjoint offsets (0 version,
1–16 UUID, 17 addons, 18 command, 19–20 port, 21 type, 22… address); for
UUID strings of at most 32 hex digits — every canonical UUID — those writes
produce exactly this concatenation.  The `default` arm of the address
switch throws. -/
def makeVlessRequestHeader (command addressType : Nat) (addressRemote : String)
    (portRemote : Nat) (uuid : String) : Except String (List Nat) := do
  let encoded := utf8Encode addressRemote
  if !(addressType == 1 || addressType == 2 || addressType == 3) then
    throw s!"Unknown address type: {addressType}"
  let uuidString := uuid.data.filter (fun c => c ≠ '-')   -- uuid.replace(/-/g, '')
  let addrBytes : List Nat :=
    match addressType with
    | 1 =>
      let octets := jsSplitChar '.' addressRemote
      (List.range 4).map (fun i => (jsParseIntDec (octets.getD i "")).getD 0 % 256)
    | 2 => encoded.length % 256 :: encoded
    | _ =>
      let groups := jsSplitChar ':' (expandIPv6 addressRemote)
      (List.range 8).flatMap (fun i =>
        let hexGroup := (jsParseIntHex (groups.getD i "")).getD 0
        [hexGroup / 256 % 256, hexGroup % 256])
  return 0 :: uuidFieldBytes uuidString ++ 0 :: command % 256 ::
    (portRemote >>> 8) % 256 :: portRemote % 256 :: addressType % 256 :: addrBytes

/-! ## WebSocket handler dispatch (src/handlers/websocket.js lines 44–134)

The `write` callback of the inbound pipe, as a state transformer.  The
external world (whether `handleUDPOutbound`/`handleTCPOutBound` produced a
socket, which is stored in `remoteSocketWrapper` asynchronously) enters
through `WsEnv`.  A thrown error — from a parser or the explicit
`throw new Error(...)` — aborts the pipe and is recorded as `.raise`. -/

/-- The request configuration fields this handler consults. -/
structure WsConfig where
  userID : String
  trojanPassword : String
  proxyType : String
  parsedVlessOutbound : Bool
deriving Repr, DecidableEq

/-- `canHandleUDP(config)` (src/proxy/tcp.js lines 215–223). -/
def canHandleUDP (config : WsConfig) : Bool :=
  config.proxyType == "vless" && config.parsedVlessOutbound

/-- The JS destructuring of the parse result (websocket.js lines 68–77)
with its defaults: `portRemote = 443`, `addressRemote = ''`,
`protocolVersion = new Uint8Array([0, 0])`; fields left `undefined` on the
error path are never read before the `throw`. -/
structure ParsedHeader where
  hasError : Bool
  message : String
  addressType : Nat
  portRemote : Nat
  addressRemote : String
  rawDataIndex : Nat
  protocolVersion : List Nat
  isUDP : Bool
deriving Repr, DecidableEq

/-- View a VLESS parse result through the handler's destructuring. -/
def vlessParsedView : VlessResult → ParsedHeader
  | .err m => ⟨true, m, 0, 443, "", 0, [0, 0], false⟩
  | .ok r => ⟨false, "", r.addressType, r.portRemote, r.addressRemote,
      r.rawDataIndex, r.protocolVersion, r.isUDP⟩

/-- View a Trojan parse result through the handler's destructuring (no
`protocolVersion` field, so the `[0, 0]` default applies). -/
def trojanParsedView : TrojanResult → ParsedHeader
  | .err m => ⟨true, m, 0, 443, "", 0, [0, 0], false⟩
  | .ok r => ⟨false, "", r.addressType, r.portRemote, r.addressRemote,
      r.rawDataIndex, [0, 0], r.isUDP⟩

/-- `protocolType` detection (websocket.js lines 58–66): Trojan wins when
`isTrojanProtocol` matches, otherwise the chunk is parsed as VLESS. -/
def detectProtocolType (chunk : List Nat) (trojanPassword : String) : String :=
  if isTrojanProtocol chunk trojanPassword then "trojan" else "vless"

/-- The protocol response header (websocket.js lines 88–90 and 115–118):
`null` for Trojan, `[protocolVersion[0], 0]` for VLESS. -/
def protocolResponseHeaderFor (protocolType : String) (protocolVersion : List Nat) :
    Option (List Nat) :=
  if protocolType == "trojan" then none else some [protocolVersion.getD 0 0, 0]

/-- What the handler does with one message. -/
inductive WsAction
  | dnsQuery (payload : List Nat) (responseHeader : Option (List Nat))
  | writeToRemote (chunk : List Nat)
  | udpOutbound (responseHeader : Option (List Nat)) (addressType : Nat)
      (address : String) (port : Nat) (payload : List Nat)
  | tcpOutbound (addressType : Nat) (address : String) (port : Nat)
      (payload : List Nat) (responseHeader : Option (List Nat))
  | raise (msg : String)
deriving Repr, DecidableEq

/-- The per-session mutable state of the handler: `isDns` and whether
`remoteSocketWrapper.value` holds a stream. -/
structure WsState where
  isDns : Bool
  hasRemote : Bool
deriving Repr, DecidableEq

/-- Outcomes of the asynchronous outbound setups. -/
structure WsEnv where
  udpOutboundOk : Bool
  tcpConnected : Bool
deriving Repr, DecidableEq

/-- The `write(chunk)` callback (websocket.js lines 45–125). -/
def wsWrite (config : WsConfig) (env : WsEnv) (st : WsState)
    (chunk : List Nat) : WsState × List WsAction :=
  if st.isDns then
    -- line 47: `handleDNSQuery(chunk, webSocket, null, log, connect)`
    (st, [.dnsQuery chunk none])
  else if st.hasRemote then
    (st, [.writeToRemote chunk])
  else
    let protocolType := detectProtocolType chunk config.trojanPassword
    let parsed : Except String ParsedHeader :=
      if isTrojanProtocol chunk config.trojanPassword then
        (processTrojanHeader chunk config.trojanPassword).map trojanParsedView
      else
        (processProtocolHeader chunk config.userID).map vlessParsedView
    match parsed with
    | .error m => (st, [.raise m])
    | .ok p =>
      if p.hasError then (st, [.raise p.message])
      else if p.isUDP then
        if canHandleUDP config then
          let protocolResponseHeader := protocolResponseHeaderFor protocolType p.protocolVersion
          ({ st with hasRemote := env.udpOutboundOk },
           [.udpOutbound protocolResponseHeader p.addressType p.addressRemote
             p.portRemote (chunk.drop p.rawDataIndex)])
        else if p.portRemote == 53 then
          -- lines 107–113: only `isDns = true` happens; the early `return`
          -- discards this chunk's payload without forwarding it.
          ({ st with isDns := true }, [])
        else
          (st, [.raise "UDP proxy requires VLESS outbound configuration"])
      else
        let protocolResponseHeader := protocolResponseHeaderFor protocolType p.protocolVersion
        let rawClientData := chunk.drop p.rawDataIndex
        if st.isDns then
          -- lines 121–123 as written; unreachable, `isDns` is false here.
          (st, [.dnsQuery rawClientData protocolResponseHeader])
        else
          ({ st with hasRemote := env.tcpConnected },
           [.tcpOutbound p.addressType p.addressRemote p.portRemote
             rawClientData protocolResponseHeader])

/-! ## DNS over TCP (part_002, `handleDNSQuery`) -/

/-- The WebSocket sends of `handleDNSQuery`'s pipe (part_002 lines 34–51):
the `vlessHeader` local is spliced onto the first response chunk and then
set to `null`. -/
def dnsInjectSends (vlessHeader : Option (List Nat)) :
    List (List Nat) → List (List Nat)
  | [] => []
  | chunk :: rest =>
    match vlessHeader with
    | some h => (h ++ chunk) :: dnsInjectSends none rest
    | none => chunk :: dnsInjectSends none rest

/-- One run of `handleDNSQuery(udpChunk, …, protocolResponseHeader, …)`
(part_002 lines 16–57), as the observable I/O: the fixed resolver address,
the single socket write of the payload, and the WebSocket sends produced
from the resolver's response chunks. -/
structure DnsRun where
  resolver : String × Nat
  socketWrites : List (List Nat)
  wsSends : List (List Nat)
deriving Repr, DecidableEq

/-- `handleDNSQuery` forwards `udpChunk` as one write to `8.8.4.4:53` and
relays responses with first-chunk header injection. -/
def handleDNSQuery (udpChunk : List Nat) (protocolResponseHeader : Option (List Nat))
    (responses : List (List Nat)) : DnsRun :=
  ⟨("8.8.4.4", 53), [udpChunk], dnsInjectSends protocolResponseHeader responses⟩

/-! ## Stream relay (part_003, `remoteSocketToWS`) and the one-shot retry
(src/proxy/tcp.js) -/

/-- The WebSocket sends of `remoteSocketToWS` (part_003 lines 75–108) for
the chunks the outbound readable delivers while the socket is open: the
first chunk has `protocolResponseHeader` prepended (after which the
variable is nulled), the rest pass through unchanged. -/
def remoteSocketToWSSends (protocolResponseHeader : Option (List Nat)) :
    List (List Nat) → List (List Nat)
  | [] => []
  | chunk :: rest =>
    match protocolResponseHeader with
    | some header => (header ++ chunk) :: remoteSocketToWSSends none rest
    | none => chunk :: remoteSocketToWSSends none rest

/-- How many times `remoteSocketToWS` invokes the retry argument (part_003
lines 116–119): once when no chunk was ever received and a retry function
was supplied; `retry` carries the number of retry invocations the supplied
function itself performs when called. -/
def remoteSocketToWSRetryCalls (hasIncomingData : Bool) (retry : Option Nat) : Nat :=
  match retry with
  | none => 0
  | some innerCalls => if hasIncomingData then 0 else 1 + innerCalls

/-- `retry()` from `handleTCPOutBound` (tcp.js lines 130–156): connects a
fresh socket and relays it via `remoteSocketToWS(tcpSocket, webSocket,
protocolResponseHeader, null, log)` — a `null` retry argument.
`retriedHasData` is whether that second connection delivers any data. -/
def retryRelayCalls (retriedHasData : Bool) : Nat :=
  remoteSocketToWSRetryCalls retriedHasData none

/-- Retry invocations in one standard-mode session of `handleTCPOutBound`
(tcp.js lines 187–198): on a successful direct connect the relay gets the
`retry` function; if the direct connect throws, the `catch` arm calls
`retry()` itself. -/
def handleTCPOutBoundRetryCalls (directConnectOk firstHasData retriedHasData : Bool) : Nat :=
  if directConnectOk then
    remoteSocketToWSRetryCalls firstHasData (some (retryRelayCalls retriedHasData))
  else
    1 + retryRelayCalls retriedHasData

/-! ## UDP datagram framing (part_004) -/

/-- `joinUint8Array` (part_004 lines 12–17). -/
def joinUint8Array (arr1 arr2 : List Nat) : List Nat := arr1 ++ arr2

/-- The encoded chunk `makeReadableUDPStream` enqueues for one datagram
(part_004 lines 29–34): a 2-byte big-endian length header (`info.size`,
the byte length of `message`) followed by the datagram. -/
def encodeUDPDatagram (message : List Nat) : List Nat :=
  joinUint8Array [(message.length >>> 8) &&& 255, message.length &&& 255] message

/-- `makeReadableUDPStream`'s output stream for a sequence of received
datagrams. -/
def makeReadableUDPStreamChunks (datagrams : List (List Nat)) : List (List Nat) :=
  datagrams.map encodeUDPDatagram

/-- The `while` loop of `makeWritableUDPStream.write` (part_004 lines
73–100): extract every complete length-prefixed datagram, returning the
datagrams sent and the leftover bytes. -/
def drainDatagrams : List Nat → List (List Nat) × List Nat
  | [] => ([], [])
  | [b] => ([], [b])
  | b0 :: b1 :: rest =>
    let datagramLen := (b0 <<< 8) ||| b1
    if 2 + datagramLen > (b0 :: b1 :: rest).length then
      ([], b0 :: b1 :: rest)
    else
      let next := drainDatagrams (rest.drop datagramLen)
      (rest.take datagramLen :: next.1, next.2)
termination_by l => l.length
decreasing_by
  simp_wf
  have := List.length_drop datagramLen rest
  omega

/-- One `write(chunk)` call of `makeWritableUDPStream` (part_004 lines
64–101): merge the leftover from the previous chunk, then drain. -/
def makeWritableUDPStreamWrite (leftoverData chunk : List Nat) :
    List (List Nat) × List Nat :=
  drainDatagrams (joinUint8Array leftoverData chunk)

/-- Feed a whole sequence of chunks through `makeWritableUDPStream`,
collecting every datagram sent to the UDP client and the final leftover. -/
def makeWritableUDPStreamRun (chunks : List (List Nat)) :
    List (List Nat) × List Nat :=
  chunks.foldl
    (fun acc chunk =>
      let step := makeWritableUDPStreamWrite acc.2 chunk
      (acc.1 ++ step.1, step.2))
    ([], [])

/-! ## Proxy resolution and rotation (part_000)

DNS-over-HTTPS answers arrive through a `DohOracle`; the module-level cache
(`cachedProxyIP` / `cachedProxyAddresses` / `cachedProxyIndex`) is threaded
explicitly.  `seededShuffle` sorts with an impure LCG comparator, whose
outcome `Array.prototype.sort` leaves implementation-defined; the embedding
therefore takes the shuffle as a parameter — the claims proved below hold
for every reordering function, in particular for whatever permutation the
host produces. -/

/-- `String.prototype.toLowerCase` (ASCII range; proxy specs are
hostnames). -/
def jsToLower (s : String) : String := ⟨s.data.map Char.toLower⟩

/-- `str.lastIndexOf(c)` for a character known to occur. -/
def lastIdxOfChar (c : Char) (l : List Char) : Nat :=
  l.length - 1 - l.reverse.indexOf c

/-- `parseAddressPort(str)` (part_000 lines 37–54).  `parseInt(..., 10) ||
port` keeps 443 for `NaN` and for 0. -/
def parseAddressPort (str : String) : String × Nat :=
  if jsIncludes "]:" str then
    let parts := jsSplitStr "]:" str
    let port := match jsParseIntDec (parts.getD 1 "") with
      | some p => if p = 0 then 443 else p
      | none => 443
    (parts.getD 0 "" ++ "]", port)
  else if jsIncludes ":" str && !(leadsWith ['['] str.data) then
    let colonIndex := lastIdxOfChar ':' str.data
    let port := match jsParseIntDec ⟨str.data.drop (colonIndex + 1)⟩ with
      | some p => if p = 0 then 443 else p
      | none => 443
    (⟨str.data.take colonIndex⟩, port)
  else
    (str, 443)

/-- Maximal leading run of decimal digits. -/
def digitRun : List Char → List Char
  | [] => []
  | c :: cs => if '0' ≤ c && c ≤ '9' then c :: digitRun cs else []

/-- The `/\.tp(\d+)/` match (part_000 lines 133–136): the digits after the
first `.tp` that is followed by at least one digit. -/
def tpMatchNum : List Char → Option Nat
  | [] => none
  | c :: cs =>
    if c == '.' && leadsWith ['t', 'p'] cs && !(digitRun (cs.drop 2)).isEmpty then
      jsParseIntDec ⟨digitRun (cs.drop 2)⟩
    else tpMatchNum cs

/-- One octet of the literal-IPv4 regex:
`(25[0-5]|2[0-4]\d|[01]?\d\d?)`. -/
def isIpv4OctetStr : List Char → Bool
  | [a] => '0' ≤ a && a ≤ '9'
  | [a, b] => '0' ≤ a && a ≤ '9' && '0' ≤ b && b ≤ '9'
  | [a, b, c] =>
    (a == '2' && b == '5' && '0' ≤ c && c ≤ '5') ||
    (a == '2' && '0' ≤ b && b ≤ '4' && '0' ≤ c && c ≤ '9') ||
    ((a == '0' || a == '1') && '0' ≤ b && b ≤ '9' && '0' ≤ c && c ≤ '9')
  | _ => false

/-- The anchored literal-IPv4 regex test (part_000 line 139). -/
def ipv4RegexTest (s : String) : Bool :=
  match splitOnCharList '.' s.data with
  | [a, b, c, d] =>
    isIpv4OctetStr a && isIpv4OctetStr b && isIpv4OctetStr c && isIpv4OctetStr d
  | _ => false

/-- `/^\[?([a-fA-F0-9:]+)\]?$/` (part_000 line 140). -/
def ipv6RegexTest (s : String) : Bool :=
  let l := if s.data.headD ' ' == '[' then s.data.tail else s.data
  let l2 := if l.getLast? == some ']' then l.dropLast else l
  !l2.isEmpty && l2.all (fun c => isHexDigitCI c || c == ':')

/-- Strip a surrounding pair of double quotes (part_000 lines 113–115). -/
def stripTxtQuotes (s : String) : String :=
  if leadsWith ['"'] s.data && s.data.getLast? == some '"' then
    ⟨s.data.tail.dropLast⟩
  else s

/-- One DNS-over-HTTPS answer record `{type, data}`. -/
structure DohAnswer where
  rtype : Nat
  data : String
deriving Repr, DecidableEq

/-- The answers the two DoH queries of a resolution would return. -/
structure DohOracle where
  txt : List DohAnswer
  a : List DohAnswer
  aaaa : List DohAnswer
deriving Repr, DecidableEq

/-- The module-level cache (part_000 lines 7–9). -/
structure ProxyCache where
  cachedProxyIP : Option String
  cachedProxyAddresses : Option (List (String × Nat))
  cachedProxyIndex : Nat
deriving Repr, DecidableEq

/-- The cache-miss body of `resolveProxyAddresses` (part_000 lines
101–175): TXT indirection for `.william` specs, otherwise `host[:port]`
with DoH A/AAAA resolution for non-literal hosts; sort, shuffle, cap at 8,
cache. -/
def resolveProxyFresh (shuffle : List (String × Nat) → List (String × Nat))
    (cache : ProxyCache) (proxyIP : String) (oracle : DohOracle) :
    List (String × Nat) × ProxyCache :=
  let normalized := jsToLower proxyIP
  let proxyAddresses : List (String × Nat) :=
    if jsIncludes ".william" normalized then
      match (oracle.txt.filter (fun r => r.rtype == 16)).map (fun r => r.data) with
      | [] => []
      | d0 :: _ =>
        let d1 := stripTxtQuotes d0
        let d2 := String.intercalate "," (jsSplitStr "\\010" d1)
        let d3 := String.intercalate "," (jsSplitChar '\n' d2)
        let addresses := ((jsSplitChar ',' d3).map jsTrim).filter (fun t => t ≠ "")
        addresses.map parseAddressPort
    else
      let ap := parseAddressPort normalized
      let port := match tpMatchNum normalized.data with
        | some p => p
        | none => ap.2
      if !ipv4RegexTest ap.1 && !ipv6RegexTest ap.1 then
        let ipv4List := (oracle.a.filter (fun r => r.rtype == 1)).map (fun r => r.data)
        let ipv6List := (oracle.aaaa.filter (fun r => r.rtype == 28)).map
          (fun r => "[" ++ r.data ++ "]")
        match ipv4List ++ ipv6List with
        | [] => [(ap.1, port)]
        | ips => ips.map (fun ip => (ip, port))
      else
        [(ap.1, port)]
  -- `.sort((a, b) => a[0].localeCompare(b[0]))` — a total order on the
  -- address strings (locale differences only permute, which the quantified
  -- shuffle absorbs).
  let sortedAddresses := proxyAddresses.mergeSort (fun x y => decide (x.1 ≤ y.1))
  let shuffled := shuffle sortedAddresses
  let pool := shuffled.take 8
  (pool, ⟨some proxyIP, some pool, cache.cachedProxyIndex⟩)

/-- `resolveProxyAddresses(proxyIP, targetDomain, userID)` (part_000 lines
94–176) with the cache explicit: a hit on the same (truthy) spec string
returns the cached pool unchanged. -/
def resolveProxyAddresses (shuffle : List (String × Nat) → List (String × Nat))
    (cache : ProxyCache) (proxyIP : String) (oracle : DohOracle) :
    List (String × Nat) × ProxyCache :=
  match cache.cachedProxyIP, cache.cachedProxyAddresses with
  | some ip, some addrs =>
    if ip ≠ "" && ip == proxyIP then (addrs, cache)
    else resolveProxyFresh shuffle cache proxyIP oracle
  | _, _ => resolveProxyFresh shuffle cache proxyIP oracle

/-- One call of `connectWithRotation` (part_000 lines 212–252), observed as
the candidate indices attempted in order, the indices where the
initial-payload write was attempted (those whose connect opened in time),
the successful index, and the cursor after the call. -/
structure RotationRun where
  attempts : List Nat
  writes : List Nat
  result : Option Nat
  cursorAfter : Nat
deriving Repr, DecidableEq

/-- The `for` loop of `connectWithRotation`: iteration `i` attempts
candidate `(startIndex + i) % len`; `connOk` is whether `socket.opened`
won its race against the timeout, `writeOk` whether the initial-payload
write succeeded; any failure falls into the `catch` and continues. -/
def rotationGo (len : Nat) (connOk writeOk : Nat → Bool) (startIndex : Nat) :
    Nat → Nat → List Nat × List Nat × Option Nat
  | _, 0 => ([], [], none)
  | i, remaining + 1 =>
    let index := (startIndex + i) % len
    if connOk index then
      if writeOk index then ([index], [index], some index)
      else
        let next := rotationGo len connOk writeOk startIndex (i + 1) remaining
        (index :: next.1, index :: next.2.1, next.2.2)
    else
      let next := rotationGo len connOk writeOk startIndex (i + 1) remaining
      (index :: next.1, next.2.1, next.2.2)

/-- `connectWithRotation(proxyAddresses, initialData, connect, log,
timeout)` with the persisted cursor explicit.  On success the cursor
becomes the successful index (`cachedProxyIndex = index` before the
return); on failure the loop ends with `return null` and the cursor is
untouched. -/
def connectWithRotation (proxyAddresses : List (String × Nat))
    (connOk writeOk : Nat → Bool) (cachedProxyIndex : Nat) : RotationRun :=
  let go := rotationGo proxyAddresses.length connOk writeOk cachedProxyIndex 0
    proxyAddresses.length
  { attempts := go.1, writes := go.2.1, result := go.2.2,
    cursorAfter := match go.2.2 with
      | some index => index
      | none => cachedProxyIndex }

/-! # Theorems -/

/-! ## C5: the relay prepends the response header to exactly the first
chunk -/

/-- With no (remaining) header, every chunk passes through unchanged. -/
theorem remoteSocketToWSSends_none (chunks : List (List Nat)) :
    remoteSocketToWSSends none chunks = chunks := by
  induction chunks with
  | nil => rfl
  | cons c rest ih => simp [remoteSocketToWSSends, ih]

/-- C5: for every outbound stream relayed to the inbound WebSocket, exactly
the first forwarded chunk is prefixed with the protocol response header —
`[protocolVersion, 0]` for a VLESS session, nothing for a Trojan session —
and every subsequent chunk is sent byte-for-byte unmodified. -/
theorem relay_first_chunk_header_only (version : Nat) (first : List Nat)
    (rest chunks : List (List Nat)) :
    remoteSocketToWSSends (protocolResponseHeaderFor "vless" [version])
        (first :: rest) = ([version, 0] ++ first) :: rest ∧
    remoteSocketToWSSends (protocolResponseHeaderFor "trojan" [version])
        chunks = chunks := by
  constructor
  · simp [protocolResponseHeaderFor, remoteSocketToWSSends,
      remoteSocketToWSSends_none]
  · simp [protocolResponseHeaderFor, remoteSocketToWSSends_none]

/-! ## C4: the retry strategy is invoked at most once per session -/

/-- C4: in every standard-mode session the retry strategy is invoked at
most once; `remoteSocketToWS` invokes it exactly when the outbound side
delivered no data and a retry function was supplied; and the relay run by
`retry()` itself (whose retry argument is `null`) never invokes a retry
again. -/
theorem retry_invoked_at_most_once (directConnectOk firstHasData retriedHasData : Bool) :
    handleTCPOutBoundRetryCalls directConnectOk firstHasData retriedHasData ≤ 1 ∧
    remoteSocketToWSRetryCalls firstHasData (some (retryRelayCalls retriedHasData)) =
      (if firstHasData then 0 else 1) ∧
    retryRelayCalls retriedHasData = 0 := by
  cases directConnectOk <;> cases firstHasData <;> cases retriedHasData <;>
    simp [handleTCPOutBoundRetryCalls, remoteSocketToWSRetryCalls,
      retryRelayCalls]

/-! ## C9: resolved candidate pools never exceed 8 entries -/

/-- The pool cached by the resolver (when one is cached) has at most 8
entries. -/
def poolCacheBounded (cache : ProxyCache) : Prop :=
  ∀ pool, cache.cachedProxyAddresses = some pool → pool.length ≤ 8

/-- C9: for every proxy spec, DoH outcome and shuffle, the pool returned by
`resolveProxyAddresses` — and the pool it caches for reuse — has at most 8
entries, on the TXT-indirection path and on the host[:port]/DNS path
alike. -/
theorem resolved_pool_at_most_eight
    (shuffle : List (String × Nat) → List (String × Nat)) (cache : ProxyCache)
    (proxyIP : String) (oracle : DohOracle) (hcache : poolCacheBounded cache) :
    (resolveProxyAddresses shuffle cache proxyIP oracle).1.length ≤ 8 ∧
    poolCacheBounded (resolveProxyAddresses shuffle cache proxyIP oracle).2 := by
  have fresh : (resolveProxyFresh shuffle cache proxyIP oracle).1.length ≤ 8 ∧
      poolCacheBounded (resolveProxyFresh shuffle cache proxyIP oracle).2 := by
    constructor
    · simp [resolveProxyFresh]
    · intro pool hpool
      simp [resolveProxyFresh] at hpool
      simp [← hpool]
  unfold resolveProxyAddresses
  split
  · next ip addrs h1 h2 =>
    split
    · exact ⟨hcache addrs h2, hcache⟩
    · exact fresh
  · exact fresh

/-- C9 witness: a concrete resolution (literal IPv4 spec, empty cache). -/
theorem resolved_pool_at_most_eight_witness :
    (resolveProxyAddresses id ⟨none, none, 0⟩ "1.2.3.4:443" ⟨[], [], []⟩).1.length ≤ 8 ∧
    poolCacheBounded (resolveProxyAddresses id ⟨none, none, 0⟩ "1.2.3.4:443" ⟨[], [], []⟩).2 :=
  resolved_pool_at_most_eight id ⟨none, none, 0⟩ "1.2.3.4:443" ⟨[], [], []⟩
    (fun pool h => by simp at h)

/-! ## C3: rotation order, cursor persistence -/

/-- Prepending the current index to the shifted attempt sequence gives the
unshifted sequence, one longer. -/
theorem rotation_cons_list (len start i n : Nat) :
    (start + i) % len ::
        (List.range n).map (fun j => (start + (i + 1) + j) % len) =
      (List.range (n + 1)).map (fun j => (start + i + j) % len) := by
  rw [List.range_succ_eq_map, List.map_cons, List.map_map]
  refine congrArg₂ _ (by simp) ?_
  apply List.map_congr_left
  intro j _
  simp only [Function.comp]
  congr 1
  omega

/-- Behaviour of the rotation loop from iteration `i` with `remaining`
iterations left: at most `remaining` attempts, attempted indices follow the
wrapped sequence, a success is the first success and is written to, and
exhaustion means every attempted candidate failed. -/
theorem rotationGo_spec (len : Nat) (connOk writeOk : Nat → Bool) (start : Nat) :
    ∀ (remaining i : Nat),
      (rotationGo len connOk writeOk start i remaining).1.length ≤ remaining ∧
      (rotationGo len connOk writeOk start i remaining).1 =
        (List.range (rotationGo len connOk writeOk start i remaining).1.length).map
          (fun j => (start + i + j) % len) ∧
      (∀ idx, (rotationGo len connOk writeOk start i remaining).2.2 = some idx →
        connOk idx = true ∧ writeOk idx = true ∧
        idx ∈ (rotationGo len connOk writeOk start i remaining).2.1 ∧
        ∃ pre, (rotationGo len connOk writeOk start i remaining).1 = pre ++ [idx] ∧
          ∀ p ∈ pre, ¬(connOk p = true ∧ writeOk p = true)) ∧
      ((rotationGo len connOk writeOk start i remaining).2.2 = none →
        (rotationGo len connOk writeOk start i remaining).1.length = remaining ∧
        ∀ a ∈ (rotationGo len connOk writeOk start i remaining).1,
          ¬(connOk a = true ∧ writeOk a = true)) := by
  intro remaining
  induction remaining with
  | zero => intro i; simp [rotationGo]
  | succ rem ih =>
    intro i
    obtain ⟨ihLen, ihList, ihSome, ihNone⟩ := ih (i + 1)
    by_cases hc : connOk ((start + i) % len) = true
    · by_cases hw : writeOk ((start + i) % len) = true
      · have hstep : rotationGo len connOk writeOk start i (rem + 1) =
            ([(start + i) % len], [(start + i) % len], some ((start + i) % len)) := by
          simp [rotationGo, hc, hw]
        rw [hstep]
        refine ⟨by simp, by simpa using rotation_cons_list len start i 0, ?_, by simp⟩
        intro idx hidx
        simp only [Option.some.injEq] at hidx
        subst hidx
        exact ⟨hc, hw, by simp, [], by simp, by simp⟩
      · have hstep : rotationGo len connOk writeOk start i (rem + 1) =
            ((start + i) % len :: (rotationGo len connOk writeOk start (i + 1) rem).1,
             (start + i) % len :: (rotationGo len connOk writeOk start (i + 1) rem).2.1,
             (rotationGo len connOk writeOk start (i + 1) rem).2.2) := by
          simp [rotationGo, hc, hw]
        rw [hstep]
        refine ⟨by simpa using ihLen, ?_, ?_, ?_⟩
        · rw [List.length_cons]
          conv_lhs => rw [ihList]
          exact rotation_cons_list len start i _
        · intro idx hidx
          obtain ⟨h1, h2, h3, pre, hpre, hfail⟩ := ihSome idx hidx
          refine ⟨h1, h2, List.mem_cons_of_mem _ h3,
            (start + i) % len :: pre, by simp [hpre], ?_⟩
          intro p hp
          rcases List.mem_cons.mp hp with rfl | hp
          · exact fun h => hw h.2
          · exact hfail p hp
        · intro hnone
          obtain ⟨hl, hall⟩ := ihNone hnone
          refine ⟨by simp [hl], ?_⟩
          intro a ha
          rcases List.mem_cons.mp ha with rfl | ha
          · exact fun h => hw h.2
          · exact hall a ha
    · have hstep : rotationGo len connOk writeOk start i (rem + 1) =
          ((start + i) % len :: (rotationGo len connOk writeOk start (i + 1) rem).1,
           (rotationGo len connOk writeOk start (i + 1) rem).2.1,
           (rotationGo len connOk writeOk start (i + 1) rem).2.2) := by
        simp [rotationGo, hc]
      rw [hstep]
      refine ⟨by simpa using ihLen, ?_, ?_, ?_⟩
      · rw [List.length_cons]
        conv_lhs => rw [ihList]
        exact rotation_cons_list len start i _
      · intro idx hidx
        obtain ⟨h1, h2, h3, pre, hpre, hfail⟩ := ihSome idx hidx
        refine ⟨h1, h2, h3, (start + i) % len :: pre, by simp [hpre], ?_⟩
        intro p hp
        rcases List.mem_cons.mp hp with rfl | hp
        · exact fun h => hc h.1
        · exact hfail p hp
      · intro hnone
        obtain ⟨hl, hall⟩ := ihNone hnone
        refine ⟨by simp [hl], ?_⟩
        intro a ha
        rcases List.mem_cons.mp ha with rfl | ha
        · exact fun h => hc h.1
        · exact hall a ha

/-- Distinct loop offsets below `len` give distinct wrapped candidate
indices. -/
theorem rotation_mod_inj (len start j1 j2 : Nat) (h1 : j1 < len) (h2 : j2 < len)
    (h : (start + j1) % len = (start + j2) % len) : j1 = j2 := by
  rcases Nat.le_total j1 j2 with hle | hle
  · have hdvd : len ∣ (start + j2) - (start + j1) :=
      (Nat.modEq_iff_dvd' (by omega)).mp h
    have heq : (start + j2) - (start + j1) = j2 - j1 := by omega
    rw [heq] at hdvd
    rcases Nat.eq_zero_or_pos (j2 - j1) with hz | hpos
    · omega
    · have := Nat.le_of_dvd hpos hdvd
      omega
  · have hdvd : len ∣ (start + j1) - (start + j2) :=
      (Nat.modEq_iff_dvd' (by omega)).mp h.symm
    have heq : (start + j1) - (start + j2) = j1 - j2 := by omega
    rw [heq] at hdvd
    rcases Nat.eq_zero_or_pos (j1 - j2) with hz | hpos
    · omega
    · have := Nat.le_of_dvd hpos hdvd
      omega

/-- C3: for every non-empty candidate pool and persisted cursor,
`connectWithRotation` makes at most `pool.length` attempts, visiting
`(cursor + j) % pool.length` for `j = 0, 1, …` in order (so no candidate
twice — the attempt list is duplicate-free); on the first attempt whose
connect and initial-payload write both succeed it writes the payload, sets
the cursor to that index and returns it, every earlier attempt having
failed; if every candidate fails it returns `null` and leaves the cursor
unchanged. -/
theorem connectWithRotation_rotates_and_persists_cursor
    (pool : List (String × Nat)) (connOk writeOk : Nat → Bool) (cursor : Nat)
    (hpool : pool ≠ []) :
    (connectWithRotation pool connOk writeOk cursor).attempts.length ≤ pool.length ∧
    (connectWithRotation pool connOk writeOk cursor).attempts =
      (List.range (connectWithRotation pool connOk writeOk cursor).attempts.length).map
        (fun j => (cursor + j) % pool.length) ∧
    (connectWithRotation pool connOk writeOk cursor).attempts.Nodup ∧
    (∀ idx, (connectWithRotation pool connOk writeOk cursor).result = some idx →
      connOk idx = true ∧ writeOk idx = true ∧
      idx ∈ (connectWithRotation pool connOk writeOk cursor).writes ∧
      (connectWithRotation pool connOk writeOk cursor).cursorAfter = idx ∧
      ∃ pre, (connectWithRotation pool connOk writeOk cursor).attempts = pre ++ [idx] ∧
        ∀ p ∈ pre, ¬(connOk p = true ∧ writeOk p = true)) ∧
    ((connectWithRotation pool connOk writeOk cursor).result = none →
      (connectWithRotation pool connOk writeOk cursor).cursorAfter = cursor ∧
      (connectWithRotation pool connOk writeOk cursor).attempts.length = pool.length ∧
      ∀ a ∈ (connectWithRotation pool connOk writeOk cursor).attempts,
        ¬(connOk a = true ∧ writeOk a = true)) := by
  obtain ⟨hLen, hList, hSome, hNone⟩ :=
    rotationGo_spec pool.length connOk writeOk cursor pool.length 0
  have hf : (fun j => (cursor + 0 + j) % pool.length) =
      (fun j => (cursor + j) % pool.length) := by
    funext j
    simp
  rw [hf] at hList
  refine ⟨?_, ?_, ?_, ?_, ?_⟩
  · simpa [connectWithRotation] using hLen
  · simpa [connectWithRotation] using hList
  · have hkle : (rotationGo pool.length connOk writeOk cursor 0 pool.length).1.length
        ≤ pool.length := hLen
    have : (connectWithRotation pool connOk writeOk cursor).attempts =
        (List.range (rotationGo pool.length connOk writeOk cursor 0 pool.length).1.length).map
          (fun j => (cursor + j) % pool.length) := by
      simpa [connectWithRotation] using hList
    rw [this]
    apply List.Nodup.map_on ?_ (List.nodup_range _)
    intro j1 hj1 j2 hj2 hjeq
    rw [List.mem_range] at hj1 hj2
    exact rotation_mod_inj pool.length cursor j1 j2 (by omega) (by omega) hjeq
  · intro idx hidx
    have hidx' : (rotationGo pool.length connOk writeOk cursor 0 pool.length).2.2
        = some idx := by
      simpa [connectWithRotation] using hidx
    obtain ⟨h1, h2, h3, pre, hpre, hfail⟩ := hSome idx hidx'
    refine ⟨h1, h2, by simpa [connectWithRotation] using h3, ?_,
      pre, by simpa [connectWithRotation] using hpre, hfail⟩
    simp [connectWithRotation, hidx']
  · intro hres
    have hres' : (rotationGo pool.length connOk writeOk cursor 0 pool.length).2.2
        = none := by
      simpa [connectWithRotation] using hres
    obtain ⟨hl, hall⟩ := hNone hres'
    exact ⟨by simp [connectWithRotation, hres'], by simpa [connectWithRotation] using hl,
      by simpa [connectWithRotation] using hall⟩

/-- C3 witness: a three-candidate pool whose second candidate (in cursor
order) succeeds. -/
theorem connectWithRotation_witness :
    (connectWithRotation [("a", 1), ("b", 2), ("c", 3)]
        (fun i => i == 1) (fun _ => true) 2).attempts.length ≤ 3 ∧
    (connectWithRotation [("a", 1), ("b", 2), ("c", 3)]
        (fun i => i == 1) (fun _ => true) 2).attempts.Nodup := by
  have h := connectWithRotation_rotates_and_persists_cursor
    [("a", 1), ("b", 2), ("c", 3)] (fun i => i == 1) (fun _ => true) 2
    (by simp)
  exact ⟨h.1, h.2.2.1⟩

/-! ## C6: UDP framing round-trip -/

/-- Bit-packing identity behind the length header: OR-ing a shifted value
with bits that fit below the shift is addition. -/
theorem lor_shiftLeft_eq_add (a b n : Nat) (h : b < 2 ^ n) :
    (a <<< n) ||| b = a * 2 ^ n + b := by
  apply Nat.eq_of_testBit_eq
  intro k
  rw [Nat.testBit_lor, Nat.shiftLeft_eq, Nat.mul_comm a (2 ^ n),
    Nat.testBit_mul_pow_two_add a h k]
  by_cases hk : k < n
  · simp [hk, Nat.testBit_mul_pow_two, Nat.not_le_of_lt hk]
  · have hbk : b.testBit k = false := by
      apply Nat.testBit_lt_two_pow
      calc b < 2 ^ n := h
        _ ≤ 2 ^ k := Nat.pow_le_pow_right (by omega) (by omega)
    simp [hk, hbk, Nat.testBit_mul_pow_two, Nat.le_of_not_lt hk]

/-- Reading the 2-byte big-endian header written for a datagram shorter
than `2^16` recovers its length. -/
theorem udp_header_length_roundtrip (n : Nat) (h : n < 65536) :
    (((n >>> 8) &&& 255) <<< 8) ||| (n &&& 255) = n := by
  have h8 : n >>> 8 = n / 256 := by
    rw [Nat.shiftRight_eq_div_pow]
  have hmod : ∀ x : Nat, x &&& 255 = x % 256 := fun x => by
    simpa using Nat.and_pow_two_sub_one_eq_mod x 8
  rw [h8, hmod, hmod, Nat.mod_eq_of_lt (by omega : n / 256 < 256),
    lor_shiftLeft_eq_add _ _ 8 (by simpa using Nat.mod_lt n (by omega))]
  simp
  omega

/-- Draining the concatenated encoding of a datagram sequence (every
datagram shorter than `2^16`) yields the sequence and no leftover. -/
theorem drainDatagrams_encode (datagrams : List (List Nat))
    (hlen : ∀ d ∈ datagrams, d.length < 65536) :
    drainDatagrams (makeReadableUDPStreamChunks datagrams).flatten =
      (datagrams, []) := by
  induction datagrams with
  | nil => simp [makeReadableUDPStreamChunks, drainDatagrams]
  | cons d rest ih =>
    have hd : d.length < 65536 := hlen d (List.mem_cons_self d rest)
    have hrest := fun x hx => hlen x (List.mem_cons_of_mem d hx)
    have hflat : (makeReadableUDPStreamChunks (d :: rest)).flatten =
        ((d.length >>> 8) &&& 255) :: (d.length &&& 255) ::
          (d ++ (makeReadableUDPStreamChunks rest).flatten) := by
      simp [makeReadableUDPStreamChunks, encodeUDPDatagram, joinUint8Array]
    rw [hflat, drainDatagrams]
    rw [udp_header_length_roundtrip d.length hd]
    have hle : d.length ≤ (d ++ (makeReadableUDPStreamChunks rest).flatten).length := by
      simp
    rw [if_neg (by simp; omega)]
    rw [List.take_append_of_le_length (le_refl _), List.take_length,
      List.drop_append_of_le_length (le_refl _), List.drop_length,
      List.nil_append, ih hrest]

/-- Unfolding: the empty byte list drains to nothing. -/
theorem drainDatagrams_nil : drainDatagrams [] = ([], []) := by
  rw [drainDatagrams]

/-- Unfolding: a single byte cannot carry a length header and is kept. -/
theorem drainDatagrams_single (b : Nat) : drainDatagrams [b] = ([], [b]) := by
  rw [drainDatagrams]

/-- The decoder is online: draining `b1 ++ b2` drains `b1` first, then
continues from `b1`'s leftover with `b2` appended. -/
theorem drainDatagrams_append (b1 b2 : List Nat) :
    drainDatagrams (b1 ++ b2) =
      ((drainDatagrams b1).1 ++ (drainDatagrams ((drainDatagrams b1).2 ++ b2)).1,
       (drainDatagrams ((drainDatagrams b1).2 ++ b2)).2) := by
  induction b1 using drainDatagrams.induct with
  | case1 => simp [drainDatagrams_nil]
  | case2 b => simp [drainDatagrams_single]
  | case3 b0 b1 rest dlen hgt =>
    have h1 : drainDatagrams (b0 :: b1 :: rest) = ([], b0 :: b1 :: rest) := by
      rw [drainDatagrams]
      exact if_pos hgt
    rw [h1]
    simp
  | case4 b0 b1 rest dlen hnot ih =>
    have h1 : drainDatagrams (b0 :: b1 :: rest) =
        ((rest.take dlen) :: (drainDatagrams (rest.drop dlen)).1,
         (drainDatagrams (rest.drop dlen)).2) := by
      rw [drainDatagrams]
      exact if_neg hnot
    have hlen' : dlen ≤ rest.length := by
      simp only [List.length_cons] at hnot
      omega
    have h2 : drainDatagrams ((b0 :: b1 :: rest) ++ b2) =
        ((rest.take dlen) :: (drainDatagrams (rest.drop dlen ++ b2)).1,
         (drainDatagrams (rest.drop dlen ++ b2)).2) := by
      rw [show (b0 :: b1 :: rest) ++ b2 = b0 :: b1 :: (rest ++ b2) from rfl,
        drainDatagrams]
      rw [if_neg (by simp only [List.length_cons, List.length_append]; omega)]
      rw [List.take_append_of_le_length hlen', List.drop_append_of_le_length hlen']
    rw [h2, h1, ih]
    simp

/-- The leftover the drain loop keeps is itself undrainable: feeding it
back alone produces no datagram. -/
theorem drainDatagrams_leftover_blocked (b : List Nat) :
    drainDatagrams (drainDatagrams b).2 = ([], (drainDatagrams b).2) := by
  induction b using drainDatagrams.induct with
  | case1 => rw [drainDatagrams_nil]; exact drainDatagrams_nil
  | case2 b => rw [drainDatagrams_single]; exact drainDatagrams_single b
  | case3 b0 b1 rest dlen hgt =>
    have h1 : drainDatagrams (b0 :: b1 :: rest) = ([], b0 :: b1 :: rest) := by
      rw [drainDatagrams]
      exact if_pos hgt
    rw [h1, h1]
  | case4 b0 b1 rest dlen hnot ih =>
    have h1 : drainDatagrams (b0 :: b1 :: rest) =
        ((rest.take dlen) :: (drainDatagrams (rest.drop dlen)).1,
         (drainDatagrams (rest.drop dlen)).2) := by
      rw [drainDatagrams]
      exact if_neg hnot
    rw [h1]
    exact ih

/-- Folding the decoder over chunks, starting from an undrainable
leftover, equals draining the leftover followed by all remaining bytes at
once. -/
theorem makeWritableUDPStreamRun_foldFrom (chunks : List (List Nat)) :
    ∀ (acc : List (List Nat)) (leftover : List Nat),
      drainDatagrams leftover = ([], leftover) →
      chunks.foldl
        (fun acc chunk =>
          let step := makeWritableUDPStreamWrite acc.2 chunk
          (acc.1 ++ step.1, step.2)) (acc, leftover) =
      (acc ++ (drainDatagrams (leftover ++ chunks.flatten)).1,
       (drainDatagrams (leftover ++ chunks.flatten)).2) := by
  induction chunks with
  | nil =>
    intro acc leftover hblocked
    simp [hblocked]
  | cons c cs ih =>
    intro acc leftover hblocked
    rw [List.foldl_cons]
    have hstep : makeWritableUDPStreamWrite leftover c = drainDatagrams (leftover ++ c) :=
      rfl
    rw [ih (acc ++ (makeWritableUDPStreamWrite leftover c).1)
      (makeWritableUDPStreamWrite leftover c).2
      (by rw [hstep]; exact drainDatagrams_leftover_blocked (leftover ++ c))]
    rw [hstep]
    have hassoc : leftover ++ (c :: cs).flatten = (leftover ++ c) ++ cs.flatten := by
      simp
    rw [hassoc, drainDatagrams_append (leftover ++ c) cs.flatten]
    simp

/-- C6: encoding each datagram (all shorter than `2^16`) with the 2-byte
big-endian length prefix of `makeReadableUDPStream` and feeding the
concatenated bytes to `makeWritableUDPStream` — split into write chunks in
any way whatsoever — reconstructs exactly the original datagram sequence,
with no leftover bytes. -/
theorem udp_framing_roundtrip (datagrams chunks : List (List Nat))
    (hlen : ∀ d ∈ datagrams, d.length < 65536)
    (hsplit : chunks.flatten = (makeReadableUDPStreamChunks datagrams).flatten) :
    makeWritableUDPStreamRun chunks = (datagrams, []) := by
  unfold makeWritableUDPStreamRun
  rw [makeWritableUDPStreamRun_foldFrom chunks [] [] drainDatagrams_nil]
  simp only [List.nil_append, hsplit]
  rw [drainDatagrams_encode datagrams hlen]

/-- C6 witness: two datagrams, delivered to the decoder in four chunks cut
across both the header and the payload of the frames. -/
theorem udp_framing_roundtrip_witness :
    makeWritableUDPStreamRun [[0], [2, 5], [6, 0], [1, 7]] = ([[5, 6], [7]], []) :=
  udp_framing_roundtrip [[5, 6], [7]] [[0], [2, 5], [6, 0], [1, 7]]
    (by decide) (by decide)

/-! ## C2: `isTrojanProtocol` characterisation -/

/-- `Char.ofNat` on a valid scalar keeps its code. -/
theorem char_toNat_ofNat_valid (n : Nat) (h : n.isValidChar) :
    (Char.ofNat n).toNat = n := by
  unfold Char.ofNat
  rw [dif_pos h]
  rfl

/-- Scalar range of a decoded 2-byte UTF-8 sequence. -/
theorem utf8_two_byte_range (b c1 : Nat) (hb : ¬b < 194) (hb2 : b < 224)
    (hc : utf8Cont c1 = true) :
    128 ≤ (b - 192) * 64 + (c1 - 128) ∧
    ((b - 192) * 64 + (c1 - 128)).isValidChar := by
  simp only [utf8Cont, Bool.and_eq_true, decide_eq_true_eq] at hc
  unfold Nat.isValidChar
  omega

/-- Scalar range of a decoded 3-byte UTF-8 sequence (overlongs and
surrogates excluded by the decoder's checks). -/
theorem utf8_three_byte_range (b c1 c2 : Nat) (hb : ¬b < 224) (hb2 : b < 240)
    (hcond : (utf8Cont c1 && utf8Cont c2 && !(b == 224 && decide (c1 < 160)) &&
      !(b == 237 && decide (160 ≤ c1))) = true) :
    128 ≤ (b - 224) * 4096 + (c1 - 128) * 64 + (c2 - 128) ∧
    ((b - 224) * 4096 + (c1 - 128) * 64 + (c2 - 128)).isValidChar := by
  simp only [utf8Cont, Bool.and_eq_true, Bool.not_eq_true', Bool.and_eq_false_iff,
    beq_eq_false_iff_ne, ne_eq, decide_eq_true_eq, decide_eq_false_iff_not,
    Bool.and_eq_true_iff] at hcond
  unfold Nat.isValidChar
  rcases hcond with ⟨⟨⟨hc1, hc2⟩, h224⟩, h237⟩
  rcases h224 with h224 | h224 <;> rcases h237 with h237 | h237 <;> omega

/-- Scalar range of a decoded 4-byte UTF-8 sequence. -/
theorem utf8_four_byte_range (b c1 c2 c3 : Nat) (hb : ¬b < 240) (hb2 : b < 245)
    (hcond : (utf8Cont c1 && utf8Cont c2 && utf8Cont c3 &&
      !(b == 240 && decide (c1 < 144)) && !(b == 244 && decide (144 ≤ c1))) = true) :
    128 ≤ (b - 240) * 262144 + (c1 - 128) * 4096 + (c2 - 128) * 64 + (c3 - 128) ∧
    ((b - 240) * 262144 + (c1 - 128) * 4096 + (c2 - 128) * 64 + (c3 - 128)).isValidChar := by
  simp only [utf8Cont, Bool.and_eq_true, Bool.not_eq_true', Bool.and_eq_false_iff,
    beq_eq_false_iff_ne, ne_eq, decide_eq_true_eq, decide_eq_false_iff_not,
    Bool.and_eq_true_iff] at hcond
  unfold Nat.isValidChar
  rcases hcond with ⟨⟨⟨⟨hc1, hc2⟩, hc3⟩, h240⟩, h244⟩
  rcases h240 with h240 | h240 <;> rcases h244 with h244 | h244 <;> omega

/-- Decoding the ASCII codes of an ASCII string gives the string back. -/
theorem utf8DecodeChars_map_ascii (cs : List Char) (h : ∀ c ∈ cs, c.toNat < 128) :
    utf8DecodeChars (cs.map Char.toNat) = cs := by
  induction cs with
  | nil => rw [List.map_nil]; unfold utf8DecodeChars; rfl
  | cons c cs ih =>
    have hc := h c (List.mem_cons_self c cs)
    rw [List.map_cons]
    unfold utf8DecodeChars
    have hstep : utf8DecodeStep c.toNat (cs.map Char.toNat) =
        (Char.ofNat c.toNat, cs.map Char.toNat) := by
      unfold utf8DecodeStep
      rw [if_pos hc]
    rw [hstep]
    simp only [Char.ofNat_toNat]
    rw [ih (fun x hx => h x (List.mem_cons_of_mem c hx))]

/-- The replacement character is not ASCII. -/
theorem uRepl_toNat_ge : 128 ≤ uRepl.toNat := by decide

/-- When the lead byte is not ASCII, whatever character the step decodes
(including U+FFFD) has a code of at least 128. -/
theorem utf8DecodeStep_head_nonascii (b : Nat) (rest : List Nat)
    (hb : ¬b < 128) : 128 ≤ (utf8DecodeStep b rest).1.toNat := by
  unfold utf8DecodeStep
  rw [if_neg hb]
  by_cases h194 : b < 194
  · rw [if_pos h194]
    exact uRepl_toNat_ge
  · rw [if_neg h194]
    by_cases h224 : b < 224
    · rw [if_pos h224]
      rcases rest with _ | ⟨c1, rest2⟩
      · exact uRepl_toNat_ge
      · by_cases hc : utf8Cont c1 = true
        · simp only [hc, if_true, ite_true]
          have hr := utf8_two_byte_range b c1 h194 h224 hc
          rw [char_toNat_ofNat_valid _ hr.2]
          exact hr.1
        · simp only [hc, if_false, ite_false]
          exact uRepl_toNat_ge
    · rw [if_neg h224]
      by_cases h240 : b < 240
      · rw [if_pos h240]
        rcases rest with _ | ⟨c1, _ | ⟨c2, rest3⟩⟩
        · exact uRepl_toNat_ge
        · exact uRepl_toNat_ge
        · by_cases hc : (utf8Cont c1 && utf8Cont c2 && !(b == 224 && decide (c1 < 160)) &&
              !(b == 237 && decide (160 ≤ c1))) = true
          · simp only [hc, if_true, ite_true]
            have hr := utf8_three_byte_range b c1 c2 h224 h240 hc
            rw [char_toNat_ofNat_valid _ hr.2]
            exact hr.1
          · simp only [hc, if_false, ite_false]
            exact uRepl_toNat_ge
      · rw [if_neg h240]
        by_cases h245 : b < 245
        · rw [if_pos h245]
          rcases rest with _ | ⟨c1, _ | ⟨c2, _ | ⟨c3, rest4⟩⟩⟩
          · exact uRepl_toNat_ge
          · exact uRepl_toNat_ge
          · exact uRepl_toNat_ge
          · by_cases hc : (utf8Cont c1 && utf8Cont c2 && utf8Cont c3 &&
                !(b == 240 && decide (c1 < 144)) && !(b == 244 && decide (144 ≤ c1))) = true
            · simp only [hc, if_true, ite_true]
              have hr := utf8_four_byte_range b c1 c2 c3 h240 h245 hc
              rw [char_toNat_ofNat_valid _ hr.2]
              exact hr.1
            · simp only [hc, if_false, ite_false]
              exact uRepl_toNat_ge
        · rw [if_neg h245]
          exact uRepl_toNat_ge

/-- Only the ASCII encoding of an all-ASCII character list decodes to that
list: the decoder never produces an ASCII character from a non-ASCII lead
byte. -/
theorem utf8DecodeChars_ascii_inv :
    ∀ (bs : List Nat) (cs : List Char), (∀ c ∈ cs, c.toNat < 128) →
      utf8DecodeChars bs = cs → bs = cs.map Char.toNat := by
  intro bs
  induction bs using utf8DecodeChars.induct with
  | case1 =>
    intro cs _ hdecode
    rw [utf8DecodeChars] at hdecode
    rw [← hdecode]
    rfl
  | case2 b rest ih =>
    intro cs hall hdecode
    rw [utf8DecodeChars] at hdecode
    by_cases hb : b < 128
    · have hstep : utf8DecodeStep b rest = (Char.ofNat b, rest) := by
        unfold utf8DecodeStep
        rw [if_pos hb]
      rw [hstep] at hdecode ih
      rcases cs with _ | ⟨c, cs'⟩
      · exact absurd hdecode (by simp)
      · have hc : Char.ofNat b = c := (List.cons.injEq _ _ _ _ ▸ hdecode).1
        have hcs' : utf8DecodeChars rest = cs' := (List.cons.injEq _ _ _ _ ▸ hdecode).2
        have hrest := ih cs' (fun x hx => hall x (List.mem_cons_of_mem c hx)) hcs'
        rw [List.map_cons, ← hc, ← hrest]
        rw [char_toNat_ofNat_valid b (Or.inl (by omega))]
    · exfalso
      have hhead : 128 ≤ (utf8DecodeStep b rest).1.toNat :=
        utf8DecodeStep_head_nonascii b rest hb
      rcases cs with _ | ⟨c, cs'⟩
      · exact absurd hdecode (by simp)
      · have hc : (utf8DecodeStep b rest).1 = c := (List.cons.injEq _ _ _ _ ▸ hdecode).1
        have := hall c (List.mem_cons_self c cs')
        rw [← hc] at this
        omega

/-- Hex digits are ASCII. -/
theorem hexCharOfNibble_ascii : ∀ n < 16, (hexCharOfNibble n).toNat < 128 := by
  decide

/-- Every character of a rendered hash word is ASCII. -/
theorem sha224RenderWord_ascii (x : Nat) :
    ∀ c ∈ sha224RenderWord x, c.toNat < 128 := by
  intro c hc
  simp only [sha224RenderWord, List.mem_cons, List.not_mem_nil, or_false] at hc
  rcases hc with rfl | rfl | rfl | rfl | rfl | rfl | rfl | rfl <;>
    exact hexCharOfNibble_ascii _ (Nat.lt_succ_of_le Nat.and_le_right)

/-- A rendered hash word is 8 characters. -/
theorem sha224RenderWord_length (x : Nat) : (sha224RenderWord x).length = 8 := rfl

/-- Rendering words yields 8 characters per word. -/
theorem flatMap_renderWord_length (ws : List Nat) :
    (ws.flatMap sha224RenderWord).length = 8 * ws.length := by
  induction ws with
  | nil => rfl
  | cons w ws ih =>
    simp only [List.flatMap_cons, List.length_append, ih, sha224RenderWord_length,
      List.length_cons]
    omega

/-- Compressing a chunk keeps the eight hash words. -/
theorem sha2Chunk_length (hs c : List Nat) : (sha2Chunk hs c).length = 8 := by
  simp [sha2Chunk]

/-- The hash state stays eight words long across all chunks. -/
theorem sha224_foldl_length (chunks : List (List Nat)) :
    ∀ hs : List Nat, hs.length = 8 → (chunks.foldl sha2Chunk hs).length = 8 := by
  induction chunks with
  | nil => intro hs h; exact h
  | cons c cs ih =>
    intro hs _
    rw [List.foldl_cons]
    exact ih (sha2Chunk hs c) (sha2Chunk_length hs c)

/-- Every digest `sha224` produces has 56 characters, all ASCII. -/
theorem sha224_digest_spec (password digest : String)
    (h : sha224 password = some digest) :
    digest.data.length = 56 ∧ ∀ c ∈ digest.data, c.toNat < 128 := by
  unfold sha224 at h
  by_cases hall : (password.data.map Char.toNat).all (· < 256)
  · simp only [hall, if_true, ite_true, Option.some.injEq] at h
    subst h
    constructor
    · rw [flatMap_renderWord_length, List.length_take,
        sha224_foldl_length _ _ (by rfl)]
      norm_num
    · intro c hc
      rw [List.mem_flatMap] at hc
      obtain ⟨x, _, hcx⟩ := hc
      exact sha224RenderWord_ascii x c hcx
  · simp [hall] at h

/-- C2: `isTrojanProtocol(buffer, password)` is true iff the buffer has at
least 58 bytes, bytes 56–57 are CR LF, and bytes 0–55 ASCII-decode to the
56-hex-character SHA-224 digest of the password; any shorter buffer gives
false regardless of content; and exactly when it is false does the handler
parse the chunk as VLESS. -/
theorem isTrojanProtocol_characterisation (buffer : List Nat) (password : String) :
    (isTrojanProtocol buffer password = true ↔
      (58 ≤ buffer.length ∧ buffer.getD 56 0 = 13 ∧ buffer.getD 57 0 = 10 ∧
       ∃ digest, sha224 password = some digest ∧
         buffer.take 56 = asciiBytes digest)) ∧
    (buffer.length < 58 → isTrojanProtocol buffer password = false) ∧
    (detectProtocolType buffer password = "vless" ↔
      isTrojanProtocol buffer password = false) := by
  refine ⟨?_, ?_, ?_⟩
  · unfold isTrojanProtocol
    by_cases hlen : buffer.length < 58
    · rw [if_pos hlen]
      constructor
      · intro hfalse
        exact absurd hfalse (by simp)
      · rintro ⟨hge, _⟩
        omega
    · rw [if_neg hlen]
      by_cases hcrlf : (!(buffer.getD 56 0 == 13) || !(buffer.getD 57 0 == 10)) = true
      · rw [if_pos hcrlf]
        simp only [Bool.or_eq_true, Bool.not_eq_true', beq_eq_false_iff_ne, ne_eq] at hcrlf
        constructor
        · intro hfalse
          exact absurd hfalse (by simp)
        · rintro ⟨_, h56, h57, _⟩
          rcases hcrlf with hne | hne <;> exact absurd (by omega) hne
      · rw [if_neg hcrlf]
        simp only [Bool.or_eq_true, Bool.not_eq_true', beq_eq_false_iff_ne, ne_eq,
          not_or, not_not] at hcrlf
        obtain ⟨h56, h57⟩ := hcrlf
        have hslice : uaSlice buffer 0 56 = buffer.take 56 := by
          simp [uaSlice]
        rcases hsh : sha224 password with _ | expected
        · simp only []
          constructor
          · intro hfalse
            exact absurd hfalse (by simp)
          · rintro ⟨_, _, _, digest, hdg, _⟩
            exact absurd hdg (by simp)
        · obtain ⟨hdlen, hdascii⟩ := sha224_digest_spec password expected hsh
          simp only [hslice]
          constructor
          · intro htrue
            have hdec : textDecode (buffer.take 56) = expected := eq_of_beq htrue
            have hbytes : buffer.take 56 = expected.data.map Char.toNat := by
              apply utf8DecodeChars_ascii_inv (buffer.take 56) expected.data hdascii
              have : (textDecode (buffer.take 56)).data = expected.data := by
                rw [hdec]
              exact this
            refine ⟨by omega, h56, h57, expected, rfl, hbytes⟩
          · rintro ⟨_, _, _, digest, hdg, htake⟩
            have hdg2 : digest = expected := by
              injection hdg with hxy
              exact hxy.symm
            subst hdg2
            rw [htake]
            have : utf8DecodeChars (asciiBytes digest) = digest.data :=
              utf8DecodeChars_map_ascii digest.data hdascii
            unfold textDecode asciiBytes at *
            rw [this]
            simp [String.ext_iff]
  · intro h
    unfold isTrojanProtocol
    rw [if_pos h]
  · unfold detectProtocolType
    by_cases h : isTrojanProtocol buffer password = true
    · rw [if_pos h, h]
      constructor
      · intro hstr
        exact absurd hstr (by decide)
      · intro htf
        exact absurd htf (by simp)
    · rw [if_neg h]
      simp [Bool.not_eq_true] at h
      simp [h]

/-- C2 witness: the empty chunk is shorter than 58 bytes, is not Trojan,
and is routed to the VLESS parser. -/
theorem isTrojanProtocol_characterisation_witness :
    isTrojanProtocol [] "" = false ∧ detectProtocolType [] "" = "vless" :=
  ⟨(isTrojanProtocol_characterisation [] "").2.1 (by decide),
   ((isTrojanProtocol_characterisation [] "").2.2).mpr
     ((isTrojanProtocol_characterisation [] "").2.1 (by decide))⟩

/-! ## C8: error discipline of the header parsers -/

/-- An in-bounds big-endian 16-bit read succeeds. -/
theorem dvGetUint16_eq (b : List Nat) (i : Nat) (h : i + 1 < b.length) :
    dvGetUint16 b i = .ok (b.getD i 0 * 256 + b.getD (i + 1) 0) := by
  unfold dvGetUint16
  rcases hx : b.get? i with _ | x
  · rw [List.get?_eq_none] at hx
    omega
  · rcases hy : b.get? (i + 1) with _ | y
    · rw [List.get?_eq_none] at hy
      omega
    · have hgx : b.getD i 0 = x := by
        rw [List.getD_eq_get?, hx]
        rfl
      have hgy : b.getD (i + 1) 0 = y := by
        rw [List.getD_eq_get?, hy]
        rfl
      rw [hgx, hgy]

/-- `mapM` in `Except` succeeds when every element does. -/
theorem mapM_except_ok {α β : Type} (f : α → Except String β) :
    ∀ l : List α, (∀ a ∈ l, ∃ v, f a = .ok v) → ∃ vs, l.mapM f = .ok vs := by
  intro l
  induction l with
  | nil => exact fun _ => ⟨[], rfl⟩
  | cons a l ih =>
    intro h
    obtain ⟨v, hv⟩ := h a (List.mem_cons_self a l)
    obtain ⟨vs, hvs⟩ := ih (fun x hx => h x (List.mem_cons_of_mem a hx))
    refine ⟨v :: vs, ?_⟩
    rw [List.mapM_cons, hv, hvs]
    rfl

/-- The port/CRLF tail of the Trojan parser never throws. -/
theorem finishTrojanHeader_total (buffer : List Nat) (addressType : Nat)
    (addressValue : String) (portIndex : Nat) (isUDP : Bool) :
    ∃ res, finishTrojanHeader buffer addressType addressValue portIndex isUDP =
      .ok res := by
  unfold finishTrojanHeader
  by_cases h1 : buffer.length < portIndex + 2
  · exact ⟨_, by rw [if_pos h1]⟩
  · rw [if_neg h1, dvGetUint16_eq buffer portIndex (by omega)]
    show ∃ res,
      (if buffer.length < portIndex + 2 + 2 then
        Except.ok (TrojanResult.err "Invalid Trojan header: missing final CRLF")
      else if !(buffer.getD (portIndex + 2) 0 == 13) ||
          !(buffer.getD (portIndex + 2 + 1) 0 == 10) then
        Except.ok (TrojanResult.err "Invalid Trojan header: invalid final CRLF")
      else if addressValue == "" then
        Except.ok (TrojanResult.err s!"Address value is empty, address type is {addressType}")
      else
        Except.ok (TrojanResult.ok ⟨addressValue,
          if addressType == 3 then 2 else addressType,
          buffer.getD portIndex 0 * 256 + buffer.getD (portIndex + 1) 0,
          portIndex + 2 + 2, isUDP⟩)) = Except.ok res
    split_ifs <;> exact ⟨_, rfl⟩

/-- The Trojan header parser never throws: every input yields an `.ok`
result object. -/
theorem processTrojanHeader_total (buffer : List Nat) (password : String) :
    ∃ res, processTrojanHeader buffer password = .ok res := by
  rcases h : processTrojanHeader buffer password with e | r
  · exfalso
    unfold processTrojanHeader at h
    repeat' split at h
    all_goals try simp only [] at h
    all_goals repeat' split at h
    all_goals try exact Except.noConfusion h
    all_goals try (obtain ⟨res, hres⟩ := finishTrojanHeader_total buffer _ _ _ _; rw [hres] at h; exact Except.noConfusion h)
    all_goals rename_i hq hA hB
    all_goals (have hlen : 60 + 16 + 2 ≤ buffer.length := (by omega); obtain ⟨vs, hvs⟩ := mapM_except_ok (fun i => dvGetUint16 buffer (60 + i * 2)) (List.range 8) (fun i hi => ⟨_, dvGetUint16_eq buffer (60 + i * 2) (by have hb := List.mem_range.mp hi; omega)⟩); rw [hvs] at hq; exact Except.noConfusion hq)
  · exact ⟨r, rfl⟩

/-- C8 (amended): the Trojan header parser (`processTrojanHeader`) is total —
it returns an `.ok` result object (with `hasError` set on bad input) for
every buffer and password, never throwing or reading out of bounds; and the
VLESS parser (`processProtocolHeader`) returns the `hasError` object
`"invalid data"` for every buffer shorter than 24 bytes.  (The original
claim fails for the VLESS parser on longer buffers: see the counterexample,
where `stringify` throws a `TypeError`.) -/
theorem trojan_parser_total_and_vless_short_buffer_guarded
    (buffer : List Nat) (password userID : String) :
    (∃ res, processTrojanHeader buffer password = .ok res) ∧
    (buffer.length < 24 → processProtocolHeader buffer userID = .ok (.err "invalid data")) := by
  refine ⟨processTrojanHeader_total buffer password, fun hlen => ?_⟩
  unfold processProtocolHeader
  rw [if_pos hlen]

/-- C8 witness: the amended theorem applied at a concrete input. -/
theorem trojan_parser_total_and_vless_short_buffer_guarded_witness :
    (∃ res, processTrojanHeader [0, 1, 2] "pw" = .ok res) ∧
    ([0, 1, 2] : List Nat).length < 24 ∧
    processProtocolHeader [0, 1, 2] "user" = .ok (.err "invalid data") := by
  obtain ⟨h1, h2⟩ :=
    trojan_parser_total_and_vless_short_buffer_guarded [0, 1, 2] "pw" "user"
  exact ⟨h1, by decide, h2 (by decide)⟩

/-- C8 counterexample: on a 24-byte all-zero buffer the VLESS parser throws —
`stringify` raises `TypeError: Stringified UUID is invalid` because the
all-zero UUID fails the version/variant regex — instead of returning a
`hasError` result object, refuting the original claim for
`processProtocolHeader`. -/
theorem vless_parser_throws_counterexample :
    processProtocolHeader (List.replicate 24 0) "user" =
      .error "TypeError: Stringified UUID is invalid" := by rfl

/-! ## C10: the Trojan IPv4 end-to-end scenario and the type renumbering -/

/-- Decoding the byte image of an all-ASCII string gives the string back. -/
theorem textDecode_asciiBytes (s : String) (h : ∀ c ∈ s.data, c.toNat < 128) :
    textDecode (asciiBytes s) = s := by
  unfold textDecode asciiBytes
  rw [utf8DecodeChars_map_ascii s.data h]

/-- A successful `finishTrojanHeader` reports address type 2 in place of
Trojan's domain type 3 and leaves other types unchanged. -/
theorem finishTrojanHeader_ok_addressType (buffer : List Nat) (atype : Nat)
    (av : String) (pi : Nat) (u : Bool) (r : TrojanOk)
    (h : finishTrojanHeader buffer atype av pi u = .ok (.ok r)) :
    r.addressType = if atype == 3 then 2 else atype := by
  unfold finishTrojanHeader at h
  repeat' split at h
  all_goals try simp only [] at h
  all_goals repeat' split at h
  all_goals first
    | exact Except.noConfusion h
    | exact TrojanResult.noConfusion (Except.ok.inj h)
    | (have h2 := TrojanResult.ok.inj (Except.ok.inj h); rw [← h2]; simp_all)

/-- Parsing the canonical Trojan IPv4 request: digest, CRLF, command 1,
type 1, address 1.2.3.4, big-endian port 80, CRLF, then any payload. -/
theorem processTrojanHeader_ipv4_aux (password digest : String) (payload : List Nat)
    (hsh : sha224 password = some digest) :
    processTrojanHeader
        (asciiBytes digest ++ ([13, 10, 1, 1, 1, 2, 3, 4, 0, 80, 13, 10] ++ payload))
        password =
      .ok (.ok ⟨"1.2.3.4", 1, 80, 68, false⟩) := by
  obtain ⟨hdlen, hdascii⟩ := sha224_digest_spec password digest hsh
  have h56 : (asciiBytes digest).length = 56 := by
    unfold asciiBytes
    rw [List.length_map]
    exact hdlen
  set buffer := asciiBytes digest ++ ([13, 10, 1, 1, 1, 2, 3, 4, 0, 80, 13, 10] ++ payload) with hbuf
  have hlen : buffer.length = 68 + payload.length := by
    rw [hbuf]
    simp only [List.length_append, h56, List.length_cons, List.length_nil]
    omega
  have hgd : ∀ k d, 56 ≤ k → buffer.getD k d =
      ([13, 10, 1, 1, 1, 2, 3, 4, 0, 80, 13, 10] ++ payload).getD (k - 56) d := by
    intro k d hk
    rw [hbuf, List.getD_append_right _ _ _ _ (by omega), h56]
  have hb56 : buffer.getD 56 0 = 13 := by rw [hgd 56 0 (by omega)]; rfl
  have hb57 : buffer.getD 57 0 = 10 := by rw [hgd 57 0 (by omega)]; rfl
  have hb64 : buffer.getD 64 0 = 0 := by rw [hgd 64 0 (by omega)]; rfl
  have hb65 : buffer.getD 65 0 = 80 := by rw [hgd 65 0 (by omega)]; rfl
  have hb66 : buffer.getD 66 0 = 13 := by rw [hgd 66 0 (by omega)]; rfl
  have hb67 : buffer.getD 67 0 = 10 := by rw [hgd 67 0 (by omega)]; rfl
  have hj58 : jsIndex buffer 58 = some 1 := by
    unfold jsIndex
    rw [hbuf, List.get?_append_right (by omega), h56]
    rfl
  have hj59 : jsIndex buffer 59 = some 1 := by
    unfold jsIndex
    rw [hbuf, List.get?_append_right (by omega), h56]
    rfl
  have hslice : uaSlice buffer 60 64 = [1, 2, 3, 4] := by
    unfold uaSlice
    rw [hbuf, List.take_append_eq_append_take, List.take_of_length_le (by omega), h56,
      List.drop_append_eq_append_drop, List.drop_eq_nil_of_le (by omega), h56]
    rfl
  have hpass : textDecode (uaSlice buffer 0 56) = digest := by
    have ht : uaSlice buffer 0 56 = asciiBytes digest := by
      unfold uaSlice
      rw [hbuf, List.take_left' h56, List.drop_zero]
    rw [ht]
    exact textDecode_asciiBytes digest hdascii
  have hport : dvGetUint16 buffer 64 = .ok 80 := by
    rw [dvGetUint16_eq buffer 64 (by omega), hb64, hb65]
  have hjoin : jsJoin '.' (List.map renderDecNat [1, 2, 3, 4]) = "1.2.3.4" := by
    simp [jsJoin, joinWithChar, renderDecNat, decDigitsRev, decDigitsRevGo]
  have hne : ("1.2.3.4" == "") = false := by decide
  have hc1 : ¬ buffer.length < 58 := by omega
  have hc2 : ¬ buffer.length < 66 := by omega
  have hc3 : ¬ buffer.length < 68 := by omega
  have hb56g : buffer[56]?.getD 0 = 13 := by rw [← List.getD_eq_getElem?_getD]; exact hb56
  have hb57g : buffer[57]?.getD 0 = 10 := by rw [← List.getD_eq_getElem?_getD]; exact hb57
  have hb66g : buffer[66]?.getD 0 = 13 := by rw [← List.getD_eq_getElem?_getD]; exact hb66
  have hb67g : buffer[67]?.getD 0 = 10 := by rw [← List.getD_eq_getElem?_getD]; exact hb67
  have hjoin2 : jsJoin '.' [renderDecNat 1, renderDecNat 2, renderDecNat 3,
      renderDecNat 4] = "1.2.3.4" := hjoin
  unfold processTrojanHeader finishTrojanHeader
  simp only [hsh]
  simp [hpass, hb56, hb57, hb66, hb67, hb56g, hb57g, hb66g, hb67g, hj58, hj59,
    hslice, hjoin, hjoin2, hport, hne, hc1, hc2, hc3]

/-- C10: a Trojan buffer built from the password's SHA-224 digest, CRLF,
command 1 (TCP), address type 1 with IPv4 address 1.2.3.4, big-endian
port 80, CRLF and any payload parses with `hasError = false`,
`addressRemote = "1.2.3.4"`, `portRemote = 80`, `isUDP = false` and raw
data starting at offset 68; and every successful parse returns the
address type byte unchanged except Trojan's domain type 3, which is
renumbered to VLESS's domain constant 2. -/
theorem trojan_ipv4_scenario_and_type_renumbering :
    (∀ (password digest : String) (payload : List Nat),
      sha224 password = some digest →
      processTrojanHeader
          (asciiBytes digest ++ ([13, 10, 1, 1, 1, 2, 3, 4, 0, 80, 13, 10] ++ payload))
          password = .ok (.ok ⟨"1.2.3.4", 1, 80, 68, false⟩)) ∧
    (∀ (buffer : List Nat) (password : String) (r : TrojanOk) (t : Nat),
      processTrojanHeader buffer password = .ok (.ok r) →
      jsIndex buffer 59 = some t →
      r.addressType = if t = 3 then 2 else t) := by
  constructor
  · exact processTrojanHeader_ipv4_aux
  · intro buffer password r t h hj
    unfold processTrojanHeader at h
    rw [hj] at h
    repeat' split at h
    all_goals try simp only [] at h
    all_goals repeat' split at h
    all_goals try exact TrojanResult.noConfusion (Except.ok.inj h)
    all_goals try exact Except.noConfusion h
    all_goals (have hat := finishTrojanHeader_ok_addressType _ _ _ _ _ _ h; simp_all)

set_option maxRecDepth 8192 in
/-- C10 witness: with the empty password, whose SHA-224 digest is
`d14a028c2a3a2bc9476102bb288234c415a2b01f828ea62ac5b3e42f`, the canonical
IPv4 buffer parses to `1.2.3.4:80`, TCP, raw data at 68, and the type-1
address is returned unrenumbered. -/
theorem trojan_ipv4_scenario_and_type_renumbering_witness :
    sha224 "" = some "d14a028c2a3a2bc9476102bb288234c415a2b01f828ea62ac5b3e42f" ∧
    processTrojanHeader
        (asciiBytes "d14a028c2a3a2bc9476102bb288234c415a2b01f828ea62ac5b3e42f" ++
          ([13, 10, 1, 1, 1, 2, 3, 4, 0, 80, 13, 10] ++ []))
        "" = .ok (.ok ⟨"1.2.3.4", 1, 80, 68, false⟩) ∧
    (⟨"1.2.3.4", 1, 80, 68, false⟩ : TrojanOk).addressType = if 1 = 3 then 2 else 1 := by
  have hsh : sha224 "" =
      some "d14a028c2a3a2bc9476102bb288234c415a2b01f828ea62ac5b3e42f" := by decide
  have hpart := trojan_ipv4_scenario_and_type_renumbering.1 ""
    "d14a028c2a3a2bc9476102bb288234c415a2b01f828ea62ac5b3e42f" [] hsh
  refine ⟨hsh, hpart, ?_⟩
  exact trojan_ipv4_scenario_and_type_renumbering.2 _ "" _ 1 hpart (by decide)

/-! ## C7: the DNS fast path -/

/-- With a null header, `handleDNSQuery`'s pipe passes response chunks
through unmodified. -/
theorem dnsInjectSends_none (rs : List (List Nat)) : dnsInjectSends none rs = rs := by
  induction rs with
  | nil => rfl
  | cons c rest ih => simp [dnsInjectSends, ih]

set_option maxRecDepth 8192 in
/-- C7 (code bug): for a VLESS UDP session to port 53 with no UDP-capable
outbound, the handler sets `isDns` and returns without forwarding the
chunk — the DNS payload carried after the header is discarded, never
written to `8.8.4.4:53`; each subsequent chunk is passed whole to
`handleDNSQuery` with a `null` response header, so the VLESS response
header is never prepended to the resolver's response.  The spec's
description matches only the unreachable `isDns` branch after the parse
(websocket.js lines 121–123). -/
theorem dns_port53_first_payload_dropped_and_header_never_injected :
    (wsWrite ⟨"12345678-1234-4321-8765-123456789abc", "pw", "none", false⟩
        ⟨false, false⟩ ⟨false, false⟩
        [0, 18, 52, 86, 120, 18, 52, 67, 33, 135, 101, 18, 52, 86, 120, 154, 188,
         0, 2, 0, 53, 1, 1, 2, 3, 4, 9, 9] =
      (⟨true, false⟩, [])) ∧
    (∀ (next : List Nat) (hr : Bool),
      wsWrite ⟨"12345678-1234-4321-8765-123456789abc", "pw", "none", false⟩
          ⟨false, false⟩ ⟨true, hr⟩ next =
        (⟨true, hr⟩, [.dnsQuery next none])) ∧
    (∀ (payload : List Nat) (responses : List (List Nat)),
      handleDNSQuery payload none responses = ⟨("8.8.4.4", 53), [payload], responses⟩) := by
  refine ⟨by decide, fun next hr => rfl, fun payload responses => ?_⟩
  unfold handleDNSQuery
  rw [dnsInjectSends_none]

/-! ## C1: VLESS request round-trip — string and digit infrastructure -/

/-- Code points of the digit and hex-letter boundary characters. -/
theorem digit0_toNat : ('0' : Char).toNat = 48 := rfl

/-- Code point of `'9'`. -/
theorem digit9_toNat : ('9' : Char).toNat = 57 := rfl

/-- Code point of `'1'`. -/
theorem digit1_toNat : ('1' : Char).toNat = 49 := rfl

/-- Code point of `'5'`. -/
theorem digit5_toNat : ('5' : Char).toNat = 53 := rfl

/-- Code point of `'a'`. -/
theorem lowa_toNat : ('a' : Char).toNat = 97 := rfl

/-- Code point of `'f'`. -/
theorem lowf_toNat : ('f' : Char).toNat = 102 := rfl

/-- Code point of `'A'`. -/
theorem upA_toNat : ('A' : Char).toNat = 65 := rfl

/-- Code point of `'F'`. -/
theorem upF_toNat : ('F' : Char).toNat = 70 := rfl

/-- Character order is code-point order. -/
theorem char_le_iff_toNat (a b : Char) : a ≤ b ↔ a.toNat ≤ b.toNat := Iff.rfl

/-- A list without the separator splits to itself. -/
theorem splitOnCharList_no_sep (sep : Char) :
    ∀ l : List Char, sep ∉ l → splitOnCharList sep l = [l] := by
  intro l
  induction l with
  | nil => intro h; rfl
  | cons c cs ih =>
    intro h
    have hc : ¬(c = sep) := fun hc => h (hc ▸ List.mem_cons_self c cs)
    have hcs : sep ∉ cs := fun hm => h (List.mem_cons_of_mem c hm)
    simp only [splitOnCharList]
    rw [if_neg hc, ih hcs]

/-- Splitting a separator-free prefix, the separator, then anything. -/
theorem splitOnCharList_append_sep (sep : Char) :
    ∀ (x t : List Char), sep ∉ x →
      splitOnCharList sep (x ++ sep :: t) = x :: splitOnCharList sep t := by
  intro x
  induction x with
  | nil =>
    intro t _
    simp [splitOnCharList]
  | cons c cs ih =>
    intro t h
    have hc : ¬(c = sep) := fun hce => h (hce ▸ List.mem_cons_self c cs)
    have hcs : sep ∉ cs := fun hm => h (List.mem_cons_of_mem c hm)
    simp only [List.cons_append, splitOnCharList, List.append_eq]
    rw [ih t hcs, if_neg hc]

/-- `split` is a left inverse of `join` for non-empty part lists whose
parts are separator-free. -/
theorem splitOnCharList_join (sep : Char) :
    ∀ parts : List (List Char), parts ≠ [] → (∀ p ∈ parts, sep ∉ p) →
      splitOnCharList sep (joinWithChar sep parts) = parts := by
  intro parts
  induction parts with
  | nil => intro h _; exact absurd rfl h
  | cons x rest ih =>
    intro _ hall
    rcases rest with _ | ⟨y, ys⟩
    · exact splitOnCharList_no_sep sep x (hall x (List.mem_cons_self x []))
    · simp only [joinWithChar]
      rw [splitOnCharList_append_sep sep x _ (hall x (List.mem_cons_self x (y :: ys))),
        ih (by simp) (fun p hp => hall p (List.mem_cons_of_mem x hp))]

/-- `trim` leaves a whitespace-free string unchanged. -/
theorem jsTrim_id (s : String) (h : ∀ c ∈ s.data, isJsSpace c = false) :
    jsTrim s = s := by
  have hdw : ∀ l : List Char, (∀ c ∈ l, isJsSpace c = false) →
      l.dropWhile isJsSpace = l := by
    intro l hl
    cases l with
    | nil => rfl
    | cons c cs =>
      rw [List.dropWhile_cons, hl c (List.mem_cons_self c cs)]
      simp
  unfold jsTrim
  rw [hdw s.data h]
  rw [hdw s.data.reverse (fun c hc => h c (List.mem_reverse.mp hc))]
  rw [List.reverse_reverse]

/-- Decimal digit characters evaluate back to their value. -/
theorem decDigitVal_ofNat (d : Nat) (h : d < 10) :
    decDigitVal (Char.ofNat (48 + d)) = some d := by
  have ht : (Char.ofNat (48 + d)).toNat = 48 + d :=
    char_toNat_ofNat_valid _ (Or.inl (by omega))
  have h0 := digit0_toNat
  have h9 := digit9_toNat
  unfold decDigitVal
  rw [if_pos]
  · rw [ht]
    congr 1
    omega
  · simp only [Bool.and_eq_true, decide_eq_true_eq, char_le_iff_toNat, ht, h0, h9]
    omega

/-- Hex digit characters produced by `hexCharOfNibble` evaluate back. -/
theorem hexDigitVal_hexCharOfNibble (d : Nat) (h : d < 16) :
    hexDigitVal (hexCharOfNibble d) = some d := by
  have h0 := digit0_toNat
  have h9 := digit9_toNat
  have ha := lowa_toNat
  have hf := lowf_toNat
  unfold hexCharOfNibble
  by_cases hd : d < 10
  · rw [if_pos hd]
    have ht : (Char.ofNat (48 + d)).toNat = 48 + d :=
      char_toNat_ofNat_valid _ (Or.inl (by omega))
    unfold hexDigitVal
    rw [if_pos]
    · rw [ht]
      congr 1
      omega
    · simp only [Bool.and_eq_true, decide_eq_true_eq, char_le_iff_toNat, ht, h0, h9]
      omega
  · rw [if_neg hd]
    have ht : (Char.ofNat (87 + d)).toNat = 87 + d :=
      char_toNat_ofNat_valid _ (Or.inl (by omega))
    unfold hexDigitVal
    rw [if_neg, if_pos]
    · rw [ht]
      congr 1
      omega
    · simp only [Bool.and_eq_true, decide_eq_true_eq, char_le_iff_toNat, ht, ha, hf]
      omega
    · simp only [Bool.and_eq_true, decide_eq_true_eq, char_le_iff_toNat, ht, h0, h9]
      omega

/-- `parseDigitsAcc` processes an all-digit prefix first. -/
theorem parseDigitsAcc_all (digit : Char → Option Nat) (base : Nat) :
    ∀ (l1 l2 : List Char) (acc : Nat), (∀ c ∈ l1, (digit c).isSome) →
      parseDigitsAcc digit base acc (l1 ++ l2) =
        parseDigitsAcc digit base (parseDigitsAcc digit base acc l1) l2 := by
  intro l1
  induction l1 with
  | nil => intro l2 acc _; rfl
  | cons c cs ih =>
    intro l2 acc h
    obtain ⟨d, hd⟩ := Option.isSome_iff_exists.mp (h c (List.mem_cons_self c cs))
    simp only [List.cons_append, parseDigitsAcc, hd]
    exact ih l2 _ (fun x hx => h x (List.mem_cons_of_mem c hx))

/-- Every character the decimal renderer emits is a decimal digit. -/
theorem decGo_digits : ∀ (fuel n : Nat), ∀ c ∈ decDigitsRevGo fuel n,
    (decDigitVal c).isSome := by
  intro fuel
  induction fuel with
  | zero => intro n c hc; cases n <;> simp [decDigitsRevGo] at hc
  | succ fuel ih =>
    intro n c hc
    cases n with
    | zero => simp [decDigitsRevGo] at hc
    | succ m =>
      simp only [decDigitsRevGo, List.mem_cons] at hc
      rcases hc with rfl | hc
      · rw [decDigitVal_ofNat _ (by omega)]
        rfl
      · exact ih _ c hc

/-- Parsing the reversed decimal digits recovers the number. -/
theorem parseDigitsAcc_decGo (fuel : Nat) :
    ∀ n acc, 1 ≤ n → n ≤ fuel →
      parseDigitsAcc decDigitVal 10 acc ((decDigitsRevGo fuel n).reverse) =
        acc * 10 ^ (decDigitsRevGo fuel n).length + n := by
  induction fuel with
  | zero => intro n acc h1 h2; omega
  | succ fuel ih =>
    intro n acc h1 h2
    rcases n with _ | m
    · omega
    · rw [decDigitsRevGo, List.reverse_cons]
      by_cases hz : (m + 1) / 10 = 0
      · have hnil : decDigitsRevGo fuel ((m + 1) / 10) = [] := by
          rw [hz]; cases fuel <;> rfl
        rw [hnil]
        simp only [List.reverse_nil, List.nil_append, List.length_cons,
          List.length_nil, parseDigitsAcc, decDigitVal_ofNat _ (Nat.mod_lt _ (by omega))]
        rw [pow_one]
        omega
      · have h10 : 1 ≤ (m + 1) / 10 := Nat.pos_of_ne_zero hz
        have hlt : (m + 1) / 10 < m + 1 := Nat.div_lt_self (by omega) (by omega)
        rw [parseDigitsAcc_all decDigitVal 10 _ _ _
          (fun c hc => decGo_digits fuel _ c (List.mem_reverse.mp hc))]
        rw [ih ((m + 1) / 10) acc h10 (by omega)]
        simp only [parseDigitsAcc, decDigitVal_ofNat _ (Nat.mod_lt _ (by omega)),
          List.length_cons]
        rw [pow_succ]
        have hA : acc * (10 ^ (decDigitsRevGo fuel ((m + 1) / 10)).length * 10) =
            acc * 10 ^ (decDigitsRevGo fuel ((m + 1) / 10)).length * 10 := by
          rw [Nat.mul_assoc]
        rw [hA]
        omega

/-- A digit-led all-digit string parses as its digit fold. -/
theorem jsParseInt_digits (digit : Char → Option Nat) (base : Nat)
    (l : List Char) (hne : l ≠ []) (hall : ∀ c ∈ l, (digit c).isSome) :
    jsParseInt digit base ⟨l⟩ = some (parseDigitsAcc digit base 0 l) := by
  cases l with
  | nil => exact absurd rfl hne
  | cons c rest =>
    obtain ⟨d, hd⟩ := Option.isSome_iff_exists.mp (hall c (List.mem_cons_self c rest))
    unfold jsParseInt
    simp only [parseDigitsAcc, hd]
    rw [Nat.zero_mul, Nat.zero_add]

/-- `parseInt(10)` inverts the decimal rendering. -/
theorem jsParseIntDec_renderDecNat (n : Nat) :
    jsParseIntDec (renderDecNat n) = some n := by
  rcases Nat.eq_zero_or_pos n with rfl | hpos
  · decide
  · unfold renderDecNat
    rw [if_neg (by omega)]
    unfold decDigitsRev
    rcases n with _ | m
    · omega
    · have hcons : decDigitsRevGo (m + 1) (m + 1) =
          Char.ofNat (48 + (m + 1) % 10) :: decDigitsRevGo m ((m + 1) / 10) := by
        rw [decDigitsRevGo]
      unfold jsParseIntDec
      rw [jsParseInt_digits decDigitVal 10 _
        (by rw [hcons]; simp)
        (fun c hc => decGo_digits _ _ c (List.mem_reverse.mp hc))]
      rw [parseDigitsAcc_decGo (m + 1) (m + 1) 0 (by omega) (by omega)]
      rw [Nat.zero_mul, Nat.zero_add]

/-- Every character the hex renderer emits is a hex digit. -/
theorem hexGo_digits : ∀ (fuel n : Nat), ∀ c ∈ hexDigitsRevGo fuel n,
    (hexDigitVal c).isSome := by
  intro fuel
  induction fuel with
  | zero => intro n c hc; cases n <;> simp [hexDigitsRevGo] at hc
  | succ fuel ih =>
    intro n c hc
    cases n with
    | zero => simp [hexDigitsRevGo] at hc
    | succ m =>
      simp only [hexDigitsRevGo, List.mem_cons] at hc
      rcases hc with rfl | hc
      · rw [hexDigitVal_hexCharOfNibble _ (Nat.mod_lt _ (by omega))]
        rfl
      · exact ih _ c hc

/-- Parsing the reversed hex digits recovers the number. -/
theorem parseDigitsAcc_hexGo (fuel : Nat) :
    ∀ n acc, 1 ≤ n → n ≤ fuel →
      parseDigitsAcc hexDigitVal 16 acc ((hexDigitsRevGo fuel n).reverse) =
        acc * 16 ^ (hexDigitsRevGo fuel n).length + n := by
  induction fuel with
  | zero => intro n acc h1 h2; omega
  | succ fuel ih =>
    intro n acc h1 h2
    rcases n with _ | m
    · omega
    · rw [hexDigitsRevGo, List.reverse_cons]
      by_cases hz : (m + 1) / 16 = 0
      · have hnil : hexDigitsRevGo fuel ((m + 1) / 16) = [] := by
          rw [hz]; cases fuel <;> rfl
        rw [hnil]
        simp only [List.reverse_nil, List.nil_append, List.length_cons,
          List.length_nil, parseDigitsAcc,
          hexDigitVal_hexCharOfNibble _ (Nat.mod_lt _ (by omega))]
        rw [pow_one]
        omega
      · have h16 : 1 ≤ (m + 1) / 16 := Nat.pos_of_ne_zero hz
        have hlt : (m + 1) / 16 < m + 1 := Nat.div_lt_self (by omega) (by omega)
        rw [parseDigitsAcc_all hexDigitVal 16 _ _ _
          (fun c hc => hexGo_digits fuel _ c (List.mem_reverse.mp hc))]
        rw [ih ((m + 1) / 16) acc h16 (by omega)]
        simp only [parseDigitsAcc,
          hexDigitVal_hexCharOfNibble _ (Nat.mod_lt _ (by omega)), List.length_cons]
        rw [pow_succ]
        have hA : acc * (16 ^ (hexDigitsRevGo fuel ((m + 1) / 16)).length * 16) =
            acc * 16 ^ (hexDigitsRevGo fuel ((m + 1) / 16)).length * 16 := by
          rw [Nat.mul_assoc]
        rw [hA]
        omega

/-- `parseInt(16)` inverts the hex rendering. -/
theorem jsParseIntHex_renderHexNat (n : Nat) :
    jsParseIntHex (renderHexNat n) = some n := by
  rcases Nat.eq_zero_or_pos n with rfl | hpos
  · decide
  · unfold renderHexNat
    rw [if_neg (by omega)]
    unfold hexDigitsRev
    rcases n with _ | m
    · omega
    · have hcons : hexDigitsRevGo (m + 1) (m + 1) =
          hexCharOfNibble ((m + 1) % 16) :: hexDigitsRevGo m ((m + 1) / 16) := by
        rw [hexDigitsRevGo]
      unfold jsParseIntHex
      rw [jsParseInt_digits hexDigitVal 16 _
        (by rw [hcons]; simp)
        (fun c hc => hexGo_digits _ _ c (List.mem_reverse.mp hc))]
      rw [parseDigitsAcc_hexGo (m + 1) (m + 1) 0 (by omega) (by omega)]
      rw [Nat.zero_mul, Nat.zero_add]

/-- Leading zeros do not change a zero-accumulator hex parse. -/
theorem parse_zeros_lead (k : Nat) (rest : List Char) :
    parseDigitsAcc hexDigitVal 16 0 (List.replicate k '0' ++ rest) =
      parseDigitsAcc hexDigitVal 16 0 rest := by
  induction k with
  | zero => rfl
  | succ k ih =>
    simp only [List.replicate_succ, List.cons_append, parseDigitsAcc,
      show hexDigitVal '0' = some 0 from rfl]
    simpa using ih

/-- `parseInt(16)` inverts the hex rendering after `padStart(4, '0')`. -/
theorem jsParseIntHex_pad4 (n : Nat) :
    jsParseIntHex ⟨padStartChars 4 '0' (renderHexNat n).data⟩ = some n := by
  rcases Nat.eq_zero_or_pos n with rfl | hpos
  · decide
  have hdata : (renderHexNat n).data = (hexDigitsRev n).reverse := by
    unfold renderHexNat
    rw [if_neg (by omega)]
  have hne : (hexDigitsRev n).reverse ≠ [] := by
    unfold hexDigitsRev
    rcases n with _ | m
    · omega
    · rw [hexDigitsRevGo]
      simp
  unfold padStartChars jsParseIntHex
  rw [hdata]
  rw [jsParseInt_digits hexDigitVal 16 _
    (by
      intro hcontra
      rcases List.append_eq_nil.mp hcontra with ⟨_, h2⟩
      exact hne h2)
    (by
      intro c hc
      rcases List.mem_append.mp hc with hz | hr
      · rw [List.eq_of_mem_replicate hz]
        rfl
      · exact hexGo_digits _ _ c (List.mem_reverse.mp hr))]
  rw [parse_zeros_lead]
  unfold hexDigitsRev
  rcases n with _ | m
  · omega
  · rw [parseDigitsAcc_hexGo (m + 1) (m + 1) 0 (by omega) (by omega)]
    rw [Nat.zero_mul, Nat.zero_add]

/-- A lowercase hex digit (the alphabet `rawStringify` emits). -/
def isLowercaseHexChar (c : Char) : Bool :=
  ('0' ≤ c && c ≤ '9') || ('a' ≤ c && c ≤ 'f')

/-- The canonical textual form of a UUID: it passes the code's
`isValidUUID` regex and uses lowercase hex digits, i.e. it is exactly a
string `stringify` can produce.  This is the amended hypothesis for C1:
the original claim's "canonical UUID" admits strings (such as
`11111111-1111-1111-1111-111111111111`, whose variant nibble is `1`) that
the regex rejects, making `stringify` throw during parsing. -/
def isCanonicalUUID (s : String) : Bool :=
  isValidUUID s && s.data.all (fun c => c == '-' || isLowercaseHexChar c)

/-- A lowercase hex digit evaluates to a nibble that renders back to it. -/
theorem hexDigitVal_lower (c : Char) (h : isLowercaseHexChar c = true) :
    ∃ v, v < 16 ∧ hexDigitVal c = some v ∧ hexCharOfNibble v = c := by
  have h0 := digit0_toNat
  have h9 := digit9_toNat
  have ha := lowa_toNat
  have hf := lowf_toNat
  unfold isLowercaseHexChar at h
  simp only [Bool.or_eq_true, Bool.and_eq_true, decide_eq_true_eq,
    char_le_iff_toNat, h0, h9, ha, hf] at h
  rcases h with ⟨hn1, hn2⟩ | ⟨hn1, hn2⟩
  · refine ⟨c.toNat - 48, by omega, ?_, ?_⟩
    · unfold hexDigitVal
      rw [if_pos]
      simp only [Bool.and_eq_true, decide_eq_true_eq, char_le_iff_toNat, h0, h9]
      omega
    · unfold hexCharOfNibble
      rw [if_pos (by omega)]
      have : 48 + (c.toNat - 48) = c.toNat := by omega
      rw [this, Char.ofNat_toNat]
  · refine ⟨c.toNat - 87, by omega, ?_, ?_⟩
    · unfold hexDigitVal
      rw [if_neg, if_pos]
      · simp only [Bool.and_eq_true, decide_eq_true_eq, char_le_iff_toNat, ha, hf]
        omega
      · simp only [Bool.and_eq_true, decide_eq_true_eq, char_le_iff_toNat, h0, h9]
        omega
    · unfold hexCharOfNibble
      rw [if_neg (by omega)]
      have : 87 + (c.toNat - 87) = c.toNat := by omega
      rw [this, Char.ofNat_toNat]

/-- Lowercase hex digits are not the dash. -/
theorem lower_ne_dash (c : Char) (h : isLowercaseHexChar c = true) : ¬(c = '-') := by
  intro he
  subst he
  simp [isLowercaseHexChar] at h

/-- A hex digit (either case) that the lowercase discipline admits is a
lowercase hex digit. -/
theorem lower_of_hexCI (c : Char) (h1 : isHexDigitCI c = true)
    (h2 : (c == '-' || isLowercaseHexChar c) = true) :
    isLowercaseHexChar c = true := by
  rcases (show c = '-' ∨ isLowercaseHexChar c = true by simpa using h2) with hd | hl
  · exfalso
    subst hd
    simp [isHexDigitCI] at h1
  · exact hl

/-- The version nibble (`1`–`5`) is a lowercase hex digit. -/
theorem lower_of_version (c : Char) (ha : '1' ≤ c) (hb : c ≤ '5') :
    isLowercaseHexChar c = true := by
  have h1 := digit1_toNat
  have h5 := digit5_toNat
  rw [char_le_iff_toNat, h1] at ha
  rw [char_le_iff_toNat, h5] at hb
  simp only [isLowercaseHexChar, Bool.or_eq_true, Bool.and_eq_true,
    decide_eq_true_eq, char_le_iff_toNat]
  left
  constructor
  · show 48 ≤ c.toNat
    omega
  · show c.toNat ≤ 57
    omega

/-- The variant nibble under the lowercase discipline is a lowercase hex
digit. -/
theorem lower_of_variant (c : Char)
    (h1 : ((((c = '8' ∨ c = '9') ∨ c = 'a') ∨ c = 'b') ∨ c = 'A') ∨ c = 'B')
    (h2 : (c == '-' || isLowercaseHexChar c) = true) :
    isLowercaseHexChar c = true := by
  rcases h1 with ((((rfl | rfl) | rfl) | rfl) | rfl) | rfl
  all_goals first
    | rfl
    | (exfalso; simp [isLowercaseHexChar] at h2)

/-- `parseInt(16)` of a two-hex-digit string. -/
theorem jsParseIntHex_pair (a b : Char) (va vb : Nat)
    (ha : hexDigitVal a = some va) (hb : hexDigitVal b = some vb) :
    jsParseIntHex ⟨[a, b]⟩ = some (va * 16 + vb) := by
  unfold jsParseIntHex jsParseInt
  simp only [parseDigitsAcc, ha, hb]

/-- `byteToHex` of a two-nibble byte gives the two rendered nibbles. -/
theorem byteToHexStr_pair (va vb : Nat) (hva : va < 16) (hvb : vb < 16) :
    byteToHexStr (va * 16 + vb) = [hexCharOfNibble va, hexCharOfNibble vb] := by
  unfold byteToHexStr
  have h1 : (va * 16 + vb) / 16 % 16 = va := by omega
  have h2 : (va * 16 + vb) % 16 = vb := by omega
  rw [h1, h2]

/-- `uuidFieldBytes` of thirty-two characters is the sixteen parsed
pairs. -/
theorem uuidFieldBytes_pairs (a0 b0 a1 b1 a2 b2 a3 b3 a4 b4 a5 b5 a6 b6 a7 b7 a8 b8 a9 b9 a10 b10 a11 b11 a12 b12 a13 b13 a14 b14 a15 b15 : Char) :
    uuidFieldBytes [a0, b0, a1, b1, a2, b2, a3, b3, a4, b4, a5, b5, a6, b6, a7, b7, a8, b8, a9, b9, a10, b10, a11, b11, a12, b12, a13, b13, a14, b14, a15, b15] =
      [(jsParseIntHex (String.mk [a0, b0])).getD 0 % 256,
      (jsParseIntHex (String.mk [a1, b1])).getD 0 % 256,
      (jsParseIntHex (String.mk [a2, b2])).getD 0 % 256,
      (jsParseIntHex (String.mk [a3, b3])).getD 0 % 256,
      (jsParseIntHex (String.mk [a4, b4])).getD 0 % 256,
      (jsParseIntHex (String.mk [a5, b5])).getD 0 % 256,
      (jsParseIntHex (String.mk [a6, b6])).getD 0 % 256,
      (jsParseIntHex (String.mk [a7, b7])).getD 0 % 256,
      (jsParseIntHex (String.mk [a8, b8])).getD 0 % 256,
      (jsParseIntHex (String.mk [a9, b9])).getD 0 % 256,
      (jsParseIntHex (String.mk [a10, b10])).getD 0 % 256,
      (jsParseIntHex (String.mk [a11, b11])).getD 0 % 256,
      (jsParseIntHex (String.mk [a12, b12])).getD 0 % 256,
      (jsParseIntHex (String.mk [a13, b13])).getD 0 % 256,
      (jsParseIntHex (String.mk [a14, b14])).getD 0 % 256,
      (jsParseIntHex (String.mk [a15, b15])).getD 0 % 256] := rfl

/-- A canonical lowercase UUID survives the generator-then-parser UUID
field round-trip: stripping dashes, parsing the sixteen hex pairs, and
re-rendering with `stringify` yields the original string. -/
theorem stringify_uuidFieldBytes (uuid : String) (h : isCanonicalUUID uuid = true) :
    stringify (uuidFieldBytes (uuid.data.filter (fun c => c ≠ '-'))) 0 = .ok uuid := by
  have hsplit : isValidUUID uuid = true ∧
      uuid.data.all (fun c => c == '-' || isLowercaseHexChar c) = true := by
    simpa [isCanonicalUUID, Bool.and_eq_true] using h
  obtain ⟨hval, hall⟩ := hsplit
  have hlowerall := List.all_eq_true.mp hall
  have hvalKeep := hval
  simp only [isValidUUID, Bool.and_eq_true, beq_iff_eq] at hval
  obtain ⟨hlen, hpos⟩ := hval
  rcases hu : uuid.data with _|⟨c0, _|⟨c1, _|⟨c2, _|⟨c3, _|⟨c4, _|⟨c5, _|⟨c6, _|⟨c7, _|⟨c8, _|⟨c9, _|⟨c10, _|⟨c11, _|⟨c12, _|⟨c13, _|⟨c14, _|⟨c15, _|⟨c16, _|⟨c17, _|⟨c18, _|⟨c19, _|⟨c20, _|⟨c21, _|⟨c22, _|⟨c23, _|⟨c24, _|⟨c25, _|⟨c26, _|⟨c27, _|⟨c28, _|⟨c29, _|⟨c30, _|⟨c31, _|⟨c32, _|⟨c33, _|⟨c34, _|⟨c35, rest⟩⟩⟩⟩⟩⟩⟩⟩⟩⟩⟩⟩⟩⟩⟩⟩⟩⟩⟩⟩⟩⟩⟩⟩⟩⟩⟩⟩⟩⟩⟩⟩⟩⟩⟩⟩
  all_goals rw [hu] at hlen
  all_goals try (simp at hlen; done)
  simp at hlen
  subst hlen
  rw [hu] at hpos
  have hr36 : List.range 36 = [0, 1, 2, 3, 4, 5, 6, 7, 8, 9, 10, 11, 12, 13, 14, 15, 16, 17, 18, 19, 20, 21, 22, 23, 24, 25, 26, 27, 28, 29, 30, 31, 32, 33, 34, 35] := rfl
  rw [hr36] at hpos
  simp [List.getD_cons_zero, List.getD_cons_succ] at hpos
  obtain ⟨f0, f1, f2, f3, f4, f5, f6, f7, f8, f9, f10, f11, f12, f13, f14, f15, f16, f17, f18, f19, f20, f21, f22, f23, f24, f25, f26, f27, f28, f29, f30, f31, f32, f33, f34, f35⟩ := hpos
  subst f8
  subst f13
  subst f18
  subst f23
  have hlx0 := lower_of_hexCI c0 f0 (hlowerall c0 (by rw [hu]; simp))
  have hlx1 := lower_of_hexCI c1 f1 (hlowerall c1 (by rw [hu]; simp))
  have hlx2 := lower_of_hexCI c2 f2 (hlowerall c2 (by rw [hu]; simp))
  have hlx3 := lower_of_hexCI c3 f3 (hlowerall c3 (by rw [hu]; simp))
  have hlx4 := lower_of_hexCI c4 f4 (hlowerall c4 (by rw [hu]; simp))
  have hlx5 := lower_of_hexCI c5 f5 (hlowerall c5 (by rw [hu]; simp))
  have hlx6 := lower_of_hexCI c6 f6 (hlowerall c6 (by rw [hu]; simp))
  have hlx7 := lower_of_hexCI c7 f7 (hlowerall c7 (by rw [hu]; simp))
  have hlx9 := lower_of_hexCI c9 f9 (hlowerall c9 (by rw [hu]; simp))
  have hlx10 := lower_of_hexCI c10 f10 (hlowerall c10 (by rw [hu]; simp))
  have hlx11 := lower_of_hexCI c11 f11 (hlowerall c11 (by rw [hu]; simp))
  have hlx12 := lower_of_hexCI c12 f12 (hlowerall c12 (by rw [hu]; simp))
  have hlx14 := lower_of_version c14 f14.1 f14.2
  have hlx15 := lower_of_hexCI c15 f15 (hlowerall c15 (by rw [hu]; simp))
  have hlx16 := lower_of_hexCI c16 f16 (hlowerall c16 (by rw [hu]; simp))
  have hlx17 := lower_of_hexCI c17 f17 (hlowerall c17 (by rw [hu]; simp))
  have hlx19 := lower_of_variant c19 f19 (hlowerall c19 (by rw [hu]; simp))
  have hlx20 := lower_of_hexCI c20 f20 (hlowerall c20 (by rw [hu]; simp))
  have hlx21 := lower_of_hexCI c21 f21 (hlowerall c21 (by rw [hu]; simp))
  have hlx22 := lower_of_hexCI c22 f22 (hlowerall c22 (by rw [hu]; simp))
  have hlx24 := lower_of_hexCI c24 f24 (hlowerall c24 (by rw [hu]; simp))
  have hlx25 := lower_of_hexCI c25 f25 (hlowerall c25 (by rw [hu]; simp))
  have hlx26 := lower_of_hexCI c26 f26 (hlowerall c26 (by rw [hu]; simp))
  have hlx27 := lower_of_hexCI c27 f27 (hlowerall c27 (by rw [hu]; simp))
  have hlx28 := lower_of_hexCI c28 f28 (hlowerall c28 (by rw [hu]; simp))
  have hlx29 := lower_of_hexCI c29 f29 (hlowerall c29 (by rw [hu]; simp))
  have hlx30 := lower_of_hexCI c30 f30 (hlowerall c30 (by rw [hu]; simp))
  have hlx31 := lower_of_hexCI c31 f31 (hlowerall c31 (by rw [hu]; simp))
  have hlx32 := lower_of_hexCI c32 f32 (hlowerall c32 (by rw [hu]; simp))
  have hlx33 := lower_of_hexCI c33 f33 (hlowerall c33 (by rw [hu]; simp))
  have hlx34 := lower_of_hexCI c34 f34 (hlowerall c34 (by rw [hu]; simp))
  have hlx35 := lower_of_hexCI c35 f35 (hlowerall c35 (by rw [hu]; simp))
  obtain ⟨v0, hvlt0, hdv0, hcn0⟩ := hexDigitVal_lower c0 hlx0
  obtain ⟨v1, hvlt1, hdv1, hcn1⟩ := hexDigitVal_lower c1 hlx1
  obtain ⟨v2, hvlt2, hdv2, hcn2⟩ := hexDigitVal_lower c2 hlx2
  obtain ⟨v3, hvlt3, hdv3, hcn3⟩ := hexDigitVal_lower c3 hlx3
  obtain ⟨v4, hvlt4, hdv4, hcn4⟩ := hexDigitVal_lower c4 hlx4
  obtain ⟨v5, hvlt5, hdv5, hcn5⟩ := hexDigitVal_lower c5 hlx5
  obtain ⟨v6, hvlt6, hdv6, hcn6⟩ := hexDigitVal_lower c6 hlx6
  obtain ⟨v7, hvlt7, hdv7, hcn7⟩ := hexDigitVal_lower c7 hlx7
  obtain ⟨v9, hvlt9, hdv9, hcn9⟩ := hexDigitVal_lower c9 hlx9
  obtain ⟨v10, hvlt10, hdv10, hcn10⟩ := hexDigitVal_lower c10 hlx10
  obtain ⟨v11, hvlt11, hdv11, hcn11⟩ := hexDigitVal_lower c11 hlx11
  obtain ⟨v12, hvlt12, hdv12, hcn12⟩ := hexDigitVal_lower c12 hlx12
  obtain ⟨v14, hvlt14, hdv14, hcn14⟩ := hexDigitVal_lower c14 hlx14
  obtain ⟨v15, hvlt15, hdv15, hcn15⟩ := hexDigitVal_lower c15 hlx15
  obtain ⟨v16, hvlt16, hdv16, hcn16⟩ := hexDigitVal_lower c16 hlx16
  obtain ⟨v17, hvlt17, hdv17, hcn17⟩ := hexDigitVal_lower c17 hlx17
  obtain ⟨v19, hvlt19, hdv19, hcn19⟩ := hexDigitVal_lower c19 hlx19
  obtain ⟨v20, hvlt20, hdv20, hcn20⟩ := hexDigitVal_lower c20 hlx20
  obtain ⟨v21, hvlt21, hdv21, hcn21⟩ := hexDigitVal_lower c21 hlx21
  obtain ⟨v22, hvlt22, hdv22, hcn22⟩ := hexDigitVal_lower c22 hlx22
  obtain ⟨v24, hvlt24, hdv24, hcn24⟩ := hexDigitVal_lower c24 hlx24
  obtain ⟨v25, hvlt25, hdv25, hcn25⟩ := hexDigitVal_lower c25 hlx25
  obtain ⟨v26, hvlt26, hdv26, hcn26⟩ := hexDigitVal_lower c26 hlx26
  obtain ⟨v27, hvlt27, hdv27, hcn27⟩ := hexDigitVal_lower c27 hlx27
  obtain ⟨v28, hvlt28, hdv28, hcn28⟩ := hexDigitVal_lower c28 hlx28
  obtain ⟨v29, hvlt29, hdv29, hcn29⟩ := hexDigitVal_lower c29 hlx29
  obtain ⟨v30, hvlt30, hdv30, hcn30⟩ := hexDigitVal_lower c30 hlx30
  obtain ⟨v31, hvlt31, hdv31, hcn31⟩ := hexDigitVal_lower c31 hlx31
  obtain ⟨v32, hvlt32, hdv32, hcn32⟩ := hexDigitVal_lower c32 hlx32
  obtain ⟨v33, hvlt33, hdv33, hcn33⟩ := hexDigitVal_lower c33 hlx33
  obtain ⟨v34, hvlt34, hdv34, hcn34⟩ := hexDigitVal_lower c34 hlx34
  obtain ⟨v35, hvlt35, hdv35, hcn35⟩ := hexDigitVal_lower c35 hlx35
  have hne0 : ¬(c0 = '-') := lower_ne_dash c0 hlx0
  have hne1 : ¬(c1 = '-') := lower_ne_dash c1 hlx1
  have hne2 : ¬(c2 = '-') := lower_ne_dash c2 hlx2
  have hne3 : ¬(c3 = '-') := lower_ne_dash c3 hlx3
  have hne4 : ¬(c4 = '-') := lower_ne_dash c4 hlx4
  have hne5 : ¬(c5 = '-') := lower_ne_dash c5 hlx5
  have hne6 : ¬(c6 = '-') := lower_ne_dash c6 hlx6
  have hne7 : ¬(c7 = '-') := lower_ne_dash c7 hlx7
  have hne9 : ¬(c9 = '-') := lower_ne_dash c9 hlx9
  have hne10 : ¬(c10 = '-') := lower_ne_dash c10 hlx10
  have hne11 : ¬(c11 = '-') := lower_ne_dash c11 hlx11
  have hne12 : ¬(c12 = '-') := lower_ne_dash c12 hlx12
  have hne14 : ¬(c14 = '-') := lower_ne_dash c14 hlx14
  have hne15 : ¬(c15 = '-') := lower_ne_dash c15 hlx15
  have hne16 : ¬(c16 = '-') := lower_ne_dash c16 hlx16
  have hne17 : ¬(c17 = '-') := lower_ne_dash c17 hlx17
  have hne19 : ¬(c19 = '-') := lower_ne_dash c19 hlx19
  have hne20 : ¬(c20 = '-') := lower_ne_dash c20 hlx20
  have hne21 : ¬(c21 = '-') := lower_ne_dash c21 hlx21
  have hne22 : ¬(c22 = '-') := lower_ne_dash c22 hlx22
  have hne24 : ¬(c24 = '-') := lower_ne_dash c24 hlx24
  have hne25 : ¬(c25 = '-') := lower_ne_dash c25 hlx25
  have hne26 : ¬(c26 = '-') := lower_ne_dash c26 hlx26
  have hne27 : ¬(c27 = '-') := lower_ne_dash c27 hlx27
  have hne28 : ¬(c28 = '-') := lower_ne_dash c28 hlx28
  have hne29 : ¬(c29 = '-') := lower_ne_dash c29 hlx29
  have hne30 : ¬(c30 = '-') := lower_ne_dash c30 hlx30
  have hne31 : ¬(c31 = '-') := lower_ne_dash c31 hlx31
  have hne32 : ¬(c32 = '-') := lower_ne_dash c32 hlx32
  have hne33 : ¬(c33 = '-') := lower_ne_dash c33 hlx33
  have hne34 : ¬(c34 = '-') := lower_ne_dash c34 hlx34
  have hne35 : ¬(c35 = '-') := lower_ne_dash c35 hlx35
  have hfilter : List.filter (fun c => decide (c ≠ '-'))
      [c0, c1, c2, c3, c4, c5, c6, c7, '-', c9, c10, c11, c12, '-', c14, c15, c16, c17, '-', c19, c20, c21, c22, '-', c24, c25, c26, c27, c28, c29, c30, c31, c32, c33, c34, c35] = [c0, c1, c2, c3, c4, c5, c6, c7, c9, c10, c11, c12, c14, c15, c16, c17, c19, c20, c21, c22, c24, c25, c26, c27, c28, c29, c30, c31, c32, c33, c34, c35] := by
    simp [hne0, hne1, hne2, hne3, hne4, hne5, hne6, hne7, hne9, hne10, hne11, hne12, hne14, hne15, hne16, hne17, hne19, hne20, hne21, hne22, hne24, hne25, hne26, hne27, hne28, hne29, hne30, hne31, hne32, hne33, hne34, hne35]
  rw [hfilter, uuidFieldBytes_pairs]
  have hbyte0 : (jsParseIntHex (String.mk [c0, c1])).getD 0 % 256 = v0 * 16 + v1 := by
    rw [jsParseIntHex_pair c0 c1 v0 v1 hdv0 hdv1]
    simp only [Option.getD_some]
    exact Nat.mod_eq_of_lt (by omega)
  have hbyte1 : (jsParseIntHex (String.mk [c2, c3])).getD 0 % 256 = v2 * 16 + v3 := by
    rw [jsParseIntHex_pair c2 c3 v2 v3 hdv2 hdv3]
    simp only [Option.getD_some]
    exact Nat.mod_eq_of_lt (by omega)
  have hbyte2 : (jsParseIntHex (String.mk [c4, c5])).getD 0 % 256 = v4 * 16 + v5 := by
    rw [jsParseIntHex_pair c4 c5 v4 v5 hdv4 hdv5]
    simp only [Option.getD_some]
    exact Nat.mod_eq_of_lt (by omega)
  have hbyte3 : (jsParseIntHex (String.mk [c6, c7])).getD 0 % 256 = v6 * 16 + v7 := by
    rw [jsParseIntHex_pair c6 c7 v6 v7 hdv6 hdv7]
    simp only [Option.getD_some]
    exact Nat.mod_eq_of_lt (by omega)
  have hbyte4 : (jsParseIntHex (String.mk [c9, c10])).getD 0 % 256 = v9 * 16 + v10 := by
    rw [jsParseIntHex_pair c9 c10 v9 v10 hdv9 hdv10]
    simp only [Option.getD_some]
    exact Nat.mod_eq_of_lt (by omega)
  have hbyte5 : (jsParseIntHex (String.mk [c11, c12])).getD 0 % 256 = v11 * 16 + v12 := by
    rw [jsParseIntHex_pair c11 c12 v11 v12 hdv11 hdv12]
    simp only [Option.getD_some]
    exact Nat.mod_eq_of_lt (by omega)
  have hbyte6 : (jsParseIntHex (String.mk [c14, c15])).getD 0 % 256 = v14 * 16 + v15 := by
    rw [jsParseIntHex_pair c14 c15 v14 v15 hdv14 hdv15]
    simp only [Option.getD_some]
    exact Nat.mod_eq_of_lt (by omega)
  have hbyte7 : (jsParseIntHex (String.mk [c16, c17])).getD 0 % 256 = v16 * 16 + v17 := by
    rw [jsParseIntHex_pair c16 c17 v16 v17 hdv16 hdv17]
    simp only [Option.getD_some]
    exact Nat.mod_eq_of_lt (by omega)
  have hbyte8 : (jsParseIntHex (String.mk [c19, c20])).getD 0 % 256 = v19 * 16 + v20 := by
    rw [jsParseIntHex_pair c19 c20 v19 v20 hdv19 hdv20]
    simp only [Option.getD_some]
    exact Nat.mod_eq_of_lt (by omega)
  have hbyte9 : (jsParseIntHex (String.mk [c21, c22])).getD 0 % 256 = v21 * 16 + v22 := by
    rw [jsParseIntHex_pair c21 c22 v21 v22 hdv21 hdv22]
    simp only [Option.getD_some]
    exact Nat.mod_eq_of_lt (by omega)
  have hbyte10 : (jsParseIntHex (String.mk [c24, c25])).getD 0 % 256 = v24 * 16 + v25 := by
    rw [jsParseIntHex_pair c24 c25 v24 v25 hdv24 hdv25]
    simp only [Option.getD_some]
    exact Nat.mod_eq_of_lt (by omega)
  have hbyte11 : (jsParseIntHex (String.mk [c26, c27])).getD 0 % 256 = v26 * 16 + v27 := by
    rw [jsParseIntHex_pair c26 c27 v26 v27 hdv26 hdv27]
    simp only [Option.getD_some]
    exact Nat.mod_eq_of_lt (by omega)
  have hbyte12 : (jsParseIntHex (String.mk [c28, c29])).getD 0 % 256 = v28 * 16 + v29 := by
    rw [jsParseIntHex_pair c28 c29 v28 v29 hdv28 hdv29]
    simp only [Option.getD_some]
    exact Nat.mod_eq_of_lt (by omega)
  have hbyte13 : (jsParseIntHex (String.mk [c30, c31])).getD 0 % 256 = v30 * 16 + v31 := by
    rw [jsParseIntHex_pair c30 c31 v30 v31 hdv30 hdv31]
    simp only [Option.getD_some]
    exact Nat.mod_eq_of_lt (by omega)
  have hbyte14 : (jsParseIntHex (String.mk [c32, c33])).getD 0 % 256 = v32 * 16 + v33 := by
    rw [jsParseIntHex_pair c32 c33 v32 v33 hdv32 hdv33]
    simp only [Option.getD_some]
    exact Nat.mod_eq_of_lt (by omega)
  have hbyte15 : (jsParseIntHex (String.mk [c34, c35])).getD 0 % 256 = v34 * 16 + v35 := by
    rw [jsParseIntHex_pair c34 c35 v34 v35 hdv34 hdv35]
    simp only [Option.getD_some]
    exact Nat.mod_eq_of_lt (by omega)
  rw [hbyte0, hbyte1, hbyte2, hbyte3, hbyte4, hbyte5, hbyte6, hbyte7, hbyte8, hbyte9, hbyte10, hbyte11, hbyte12, hbyte13, hbyte14, hbyte15]
  have hrender : rawStringify [v0 * 16 + v1, v2 * 16 + v3, v4 * 16 + v5, v6 * 16 + v7, v9 * 16 + v10, v11 * 16 + v12, v14 * 16 + v15, v16 * 16 + v17, v19 * 16 + v20, v21 * 16 + v22, v24 * 16 + v25, v26 * 16 + v27, v28 * 16 + v29, v30 * 16 + v31, v32 * 16 + v33, v34 * 16 + v35] 0 = uuid := by
    unfold rawStringify
    simp only [List.getD_cons_zero, List.getD_cons_succ]
    rw [byteToHexStr_pair v0 v1 hvlt0 hvlt1, byteToHexStr_pair v2 v3 hvlt2 hvlt3, byteToHexStr_pair v4 v5 hvlt4 hvlt5, byteToHexStr_pair v6 v7 hvlt6 hvlt7, byteToHexStr_pair v9 v10 hvlt9 hvlt10, byteToHexStr_pair v11 v12 hvlt11 hvlt12, byteToHexStr_pair v14 v15 hvlt14 hvlt15, byteToHexStr_pair v16 v17 hvlt16 hvlt17, byteToHexStr_pair v19 v20 hvlt19 hvlt20, byteToHexStr_pair v21 v22 hvlt21 hvlt22, byteToHexStr_pair v24 v25 hvlt24 hvlt25, byteToHexStr_pair v26 v27 hvlt26 hvlt27, byteToHexStr_pair v28 v29 hvlt28 hvlt29, byteToHexStr_pair v30 v31 hvlt30 hvlt31, byteToHexStr_pair v32 v33 hvlt32 hvlt33, byteToHexStr_pair v34 v35 hvlt34 hvlt35]
    rw [hcn0, hcn1, hcn2, hcn3, hcn4, hcn5, hcn6, hcn7, hcn9, hcn10, hcn11, hcn12, hcn14, hcn15, hcn16, hcn17, hcn19, hcn20, hcn21, hcn22, hcn24, hcn25, hcn26, hcn27, hcn28, hcn29, hcn30, hcn31, hcn32, hcn33, hcn34, hcn35]
    simp only [List.cons_append, List.nil_append]
    rw [← hu]
  unfold stringify
  rw [hrender]
  rw [if_pos hvalKeep]

/-- Decoding an encoded scalar consumes exactly its bytes and yields the
scalar back (every `Char` is a Unicode scalar value, so the WHATWG
overlong/surrogate/range checks all pass). -/
theorem utf8DecodeChars_encodeChar (c : Char) (bs : List Nat) :
    utf8DecodeChars (utf8EncodeChar c ++ bs) = c :: utf8DecodeChars bs := by
  have hv : Nat.isValidChar c.toNat := c.valid
  unfold Nat.isValidChar at hv
  unfold utf8EncodeChar
  by_cases h1 : c.toNat < 128
  · rw [if_pos h1, List.singleton_append, utf8DecodeChars]
    have hstep : utf8DecodeStep c.toNat bs = (Char.ofNat c.toNat, bs) := by
      unfold utf8DecodeStep
      rw [if_pos h1]
    rw [hstep, Char.ofNat_toNat]
  · by_cases h2 : c.toNat < 2048
    · rw [if_neg h1, if_pos h2]
      simp only [List.cons_append, List.nil_append]
      rw [utf8DecodeChars]
      have hb1 : ¬(192 + c.toNat / 64 < 128) := by omega
      have hb2 : ¬(192 + c.toNat / 64 < 194) := by omega
      have hb3 : 192 + c.toNat / 64 < 224 := by omega
      have hcont : utf8Cont (128 + c.toNat % 64) = true := by
        unfold utf8Cont
        simp only [Bool.and_eq_true, decide_eq_true_eq]
        omega
      have hval : (192 + c.toNat / 64 - 192) * 64 + (128 + c.toNat % 64 - 128) =
          c.toNat := by omega
      have hstep : utf8DecodeStep (192 + c.toNat / 64) ((128 + c.toNat % 64) :: bs) =
          (Char.ofNat c.toNat, bs) := by
        simp only [utf8DecodeStep, hb1, hb2, hb3, if_false, if_true, hcont, hval,
          ite_true, ite_false]
      rw [hstep, Char.ofNat_toNat]
    · by_cases h3 : c.toNat < 65536
      · rw [if_neg h1, if_neg h2, if_pos h3]
        simp only [List.cons_append, List.nil_append]
        rw [utf8DecodeChars]
        have hb1 : ¬(224 + c.toNat / 4096 < 128) := by omega
        have hb2 : ¬(224 + c.toNat / 4096 < 194) := by omega
        have hb3 : ¬(224 + c.toNat / 4096 < 224) := by omega
        have hb4 : 224 + c.toNat / 4096 < 240 := by omega
        have hcond : (utf8Cont (128 + c.toNat / 64 % 64) &&
            utf8Cont (128 + c.toNat % 64) &&
            !(224 + c.toNat / 4096 == 224 && 128 + c.toNat / 64 % 64 < 160) &&
            !(224 + c.toNat / 4096 == 237 && 160 ≤ 128 + c.toNat / 64 % 64)) = true := by
          unfold utf8Cont
          simp only [Bool.and_eq_true, Bool.not_eq_true', Bool.and_eq_false_iff,
            decide_eq_true_eq, decide_eq_false_iff_not, beq_iff_eq, beq_eq_false_iff_ne,
            ne_eq, Nat.not_lt, Nat.not_le]
          omega
        have hval : (224 + c.toNat / 4096 - 224) * 4096 +
            (128 + c.toNat / 64 % 64 - 128) * 64 + (128 + c.toNat % 64 - 128) =
            c.toNat := by omega
        have hstep : utf8DecodeStep (224 + c.toNat / 4096)
            ((128 + c.toNat / 64 % 64) :: (128 + c.toNat % 64) :: bs) =
            (Char.ofNat c.toNat, bs) := by
          simp only [utf8DecodeStep, hb1, hb2, hb3, hb4, if_false, if_true,
            hcond, hval, ite_true, ite_false]
        rw [hstep, Char.ofNat_toNat]
      · rw [if_neg h1, if_neg h2, if_neg h3]
        simp only [List.cons_append, List.nil_append]
        rw [utf8DecodeChars]
        have hb1 : ¬(240 + c.toNat / 262144 < 128) := by omega
        have hb2 : ¬(240 + c.toNat / 262144 < 194) := by omega
        have hb3 : ¬(240 + c.toNat / 262144 < 224) := by omega
        have hb4 : ¬(240 + c.toNat / 262144 < 240) := by omega
        have hb5 : 240 + c.toNat / 262144 < 245 := by omega
        have hcond : (utf8Cont (128 + c.toNat / 4096 % 64) &&
            utf8Cont (128 + c.toNat / 64 % 64) &&
            utf8Cont (128 + c.toNat % 64) &&
            !(240 + c.toNat / 262144 == 240 && 128 + c.toNat / 4096 % 64 < 144) &&
            !(240 + c.toNat / 262144 == 244 && 144 ≤ 128 + c.toNat / 4096 % 64)) = true := by
          unfold utf8Cont
          simp only [Bool.and_eq_true, Bool.not_eq_true', Bool.and_eq_false_iff,
            decide_eq_true_eq, decide_eq_false_iff_not, beq_iff_eq, beq_eq_false_iff_ne,
            ne_eq, Nat.not_lt, Nat.not_le]
          omega
        have hval : (240 + c.toNat / 262144 - 240) * 262144 +
            (128 + c.toNat / 4096 % 64 - 128) * 4096 +
            (128 + c.toNat / 64 % 64 - 128) * 64 + (128 + c.toNat % 64 - 128) =
            c.toNat := by omega
        have hstep : utf8DecodeStep (240 + c.toNat / 262144)
            ((128 + c.toNat / 4096 % 64) :: (128 + c.toNat / 64 % 64) ::
              (128 + c.toNat % 64) :: bs) =
            (Char.ofNat c.toNat, bs) := by
          simp only [utf8DecodeStep, hb1, hb2, hb3, hb4, hb5, if_false, if_true,
            hcond, hval, ite_true, ite_false]
        rw [hstep, Char.ofNat_toNat]

/-- Decoding inverts encoding, character by character. -/
theorem utf8DecodeChars_flatMap (l : List Char) :
    utf8DecodeChars (l.flatMap utf8EncodeChar) = l := by
  induction l with
  | nil => simp [utf8DecodeChars]
  | cons c rest ih =>
    rw [List.flatMap_cons, utf8DecodeChars_encodeChar, ih]

/-- `TextDecoder` inverts `TextEncoder`. -/
theorem textDecode_utf8Encode (s : String) : textDecode (utf8Encode s) = s := by
  unfold textDecode utf8Encode
  rw [utf8DecodeChars_flatMap]

/-- Every character of a decimal rendering is a decimal digit. -/
theorem renderDec_chars (n : Nat) : ∀ c ∈ (renderDecNat n).data,
    (decDigitVal c).isSome := by
  unfold renderDecNat
  by_cases h : n = 0
  · rw [if_pos h]
    intro c hc
    have hc0 : c = '0' := by simpa using hc
    subst hc0
    rfl
  · rw [if_neg h]
    intro c hc
    exact decGo_digits n n c (List.mem_reverse.mp hc)

/-- Every character of a hex rendering is a hex digit. -/
theorem renderHex_chars (n : Nat) : ∀ c ∈ (renderHexNat n).data,
    (hexDigitVal c).isSome := by
  unfold renderHexNat
  by_cases h : n = 0
  · rw [if_pos h]
    intro c hc
    have hc0 : c = '0' := by simpa using hc
    subst hc0
    rfl
  · rw [if_neg h]
    intro c hc
    exact hexGo_digits n n c (List.mem_reverse.mp hc)

/-- A decimal rendering is never empty. -/
theorem renderDec_ne_nil (n : Nat) : (renderDecNat n).data ≠ [] := by
  unfold renderDecNat
  by_cases h : n = 0
  · rw [if_pos h]
    simp
  · rw [if_neg h]
    rcases n with _ | m
    · exact absurd rfl h
    · unfold decDigitsRev
      rw [decDigitsRevGo]
      simp

/-- A hex rendering is never empty. -/
theorem renderHex_ne_nil (n : Nat) : (renderHexNat n).data ≠ [] := by
  unfold renderHexNat
  by_cases h : n = 0
  · rw [if_pos h]
    simp
  · rw [if_neg h]
    rcases n with _ | m
    · exact absurd rfl h
    · unfold hexDigitsRev
      rw [hexDigitsRevGo]
      simp

/-- A decimal-digit character is none of the separator characters the
VLESS code splits on. -/
theorem decDigit_not_special (c : Char) (h : (decDigitVal c).isSome) :
    c ≠ '.' ∧ c ≠ ':' ∧ c ≠ ',' := by
  unfold decDigitVal at h
  by_cases hr : ('0' ≤ c && c ≤ '9') = true
  · simp only [Bool.and_eq_true, decide_eq_true_eq, char_le_iff_toNat] at hr
    have h0 := digit0_toNat
    have h9 := digit9_toNat
    rw [h0] at hr
    rw [h9] at hr
    refine ⟨?_, ?_, ?_⟩ <;> intro he <;> subst he <;> revert hr <;> decide
  · rw [if_neg hr] at h
    simp at h

/-- A hex-digit character is none of the separator or bracket characters
the VLESS code splits on. -/
theorem hexDigit_not_special (c : Char) (h : (hexDigitVal c).isSome) :
    c ≠ ':' ∧ c ≠ '[' ∧ c ≠ ']' ∧ c ≠ ',' := by
  unfold hexDigitVal at h
  have h0 := digit0_toNat
  have h9 := digit9_toNat
  have hla := lowa_toNat
  have hlf := lowf_toNat
  have hua := upA_toNat
  have huf := upF_toNat
  by_cases hr1 : ('0' ≤ c && c ≤ '9') = true
  · simp only [Bool.and_eq_true, decide_eq_true_eq, char_le_iff_toNat, h0, h9] at hr1
    refine ⟨?_, ?_, ?_, ?_⟩ <;> intro he <;> subst he <;> revert hr1 <;> decide
  · rw [if_neg hr1] at h
    by_cases hr2 : ('a' ≤ c && c ≤ 'f') = true
    · simp only [Bool.and_eq_true, decide_eq_true_eq, char_le_iff_toNat, hla, hlf] at hr2
      refine ⟨?_, ?_, ?_, ?_⟩ <;> intro he <;> subst he <;> revert hr2 <;> decide
    · rw [if_neg hr2] at h
      by_cases hr3 : ('A' ≤ c && c ≤ 'F') = true
      · simp only [Bool.and_eq_true, decide_eq_true_eq, char_le_iff_toNat, hua, huf] at hr3
        refine ⟨?_, ?_, ?_, ?_⟩ <;> intro he <;> subst he <;> revert hr3 <;> decide
      · rw [if_neg hr3] at h
        simp at h

/-- Joining at least two parts is never empty. -/
theorem joinWithChar_ne_nil (sep : Char) (x y : List Char) (ys : List (List Char)) :
    joinWithChar sep (x :: y :: ys) ≠ [] := by
  simp only [joinWithChar]
  intro h
  rcases List.append_eq_nil.mp h with ⟨_, h2⟩
  exact List.cons_ne_nil _ _ h2

/-- Every character of a join is the separator or from one of the parts. -/
theorem joinWithChar_mem (sep : Char) : ∀ (parts : List (List Char)) (c : Char),
    c ∈ joinWithChar sep parts → c = sep ∨ ∃ p ∈ parts, c ∈ p := by
  intro parts
  induction parts with
  | nil => intro c hc; simp [joinWithChar] at hc
  | cons x rest ih =>
    intro c hc
    rcases rest with _ | ⟨y, ys⟩
    · exact Or.inr ⟨x, List.mem_cons_self x [], hc⟩
    · simp only [joinWithChar] at hc
      rcases List.mem_append.mp hc with hx | hs
      · exact Or.inr ⟨x, List.mem_cons_self x (y :: ys), hx⟩
      · rcases List.mem_cons.mp hs with rfl | hj
        · exact Or.inl rfl
        · rcases ih c hj with hsep | ⟨p, hp, hcp⟩
          · exact Or.inl hsep
          · exact Or.inr ⟨p, List.mem_cons_of_mem x hp, hcp⟩

/-- One non-matching step of the substring search. -/
theorem splitFirstSub_cons_none (sep : List Char) (c : Char) (cs : List Char)
    (h1 : leadsWith sep (c :: cs) = false) (h2 : splitFirstSub sep cs = none) :
    splitFirstSub sep (c :: cs) = none := by
  simp only [splitFirstSub]
  rw [h1, h2]
  simp

/-- A double-colon search misses a colon-free prefix. -/
theorem splitFirstSub_dcolon_front : ∀ (x t : List Char), ':' ∉ x →
    splitFirstSub [':', ':'] t = none →
    splitFirstSub [':', ':'] (x ++ t) = none := by
  intro x
  induction x with
  | nil => intro t _ ht; exact ht
  | cons c cs ih =>
    intro t h ht
    have hc : ¬(c = ':') := fun hce => h (hce ▸ List.mem_cons_self c cs)
    have hcs : ':' ∉ cs := fun hm => h (List.mem_cons_of_mem c hm)
    rw [List.cons_append]
    apply splitFirstSub_cons_none
    · simp only [leadsWith, Bool.and_eq_false_iff]
      left
      simpa using fun he => hc he.symm
    · exact ih t hcs ht

/-- The join of non-empty colon-free parts contains no `::`. -/
theorem splitFirstSub_dcolon_join : ∀ (parts : List (List Char)),
    (∀ p ∈ parts, p ≠ [] ∧ ':' ∉ p) →
    splitFirstSub [':', ':'] (joinWithChar ':' parts) = none := by
  intro parts
  induction parts with
  | nil => intro _; rfl
  | cons x rest ih =>
    intro hall
    rcases rest with _ | ⟨y, ys⟩
    · have := splitFirstSub_dcolon_front x []
        (hall x (List.mem_cons_self x [])).2 rfl
      simpa [joinWithChar] using this
    · simp only [joinWithChar]
      apply splitFirstSub_dcolon_front x _ (hall x (List.mem_cons_self x (y :: ys))).2
      obtain ⟨hyne, hyc⟩ := hall y (List.mem_cons_of_mem x (List.mem_cons_self y ys))
      have hjoin : ∃ d ds, joinWithChar ':' (y :: ys) = d :: ds ∧ ¬(d = ':') := by
        rcases y with _ | ⟨hy, ty⟩
        · exact absurd rfl hyne
        · have hd : ¬(hy = ':') := fun he => hyc (he ▸ List.mem_cons_self hy ty)
          rcases ys with _ | ⟨z, zs⟩
          · exact ⟨hy, ty, rfl, hd⟩
          · exact ⟨hy, ty ++ ':' :: joinWithChar ':' (z :: zs), rfl, hd⟩
      obtain ⟨d, ds, hds, hd⟩ := hjoin
      rw [hds]
      apply splitFirstSub_cons_none
      · simp only [leadsWith, Bool.and_eq_false_iff]
        right
        left
        simpa using fun he => hd he.symm
      · exact hds ▸ ih (fun p hp => hall p (List.mem_cons_of_mem x hp))

/-- The UUID field is always sixteen bytes. -/
theorem uuidFieldBytes_length (s : List Char) : (uuidFieldBytes s).length = 16 := by
  simp [uuidFieldBytes]

/-- Reading past the 17-byte version-and-UUID prefix reads the tail. -/
theorem vlessBuf_get (ub tail : List Nat) (h : ub.length = 16) (k : Nat) :
    ((0 :: ub) ++ tail).get? (17 + k) = tail.get? k := by
  have hlen : (0 :: ub).length = 17 := by simp [h]
  rw [List.get?_append_right (by omega), hlen]
  congr 1
  omega

/-- Slicing bytes 1–16 recovers the UUID field. -/
theorem vlessBuf_slice (ub tail : List Nat) (h : ub.length = 16) :
    uaSlice ((0 :: ub) ++ tail) 1 17 = ub := by
  unfold uaSlice
  rw [List.take_left' (by simp [h])]
  rfl

theorem canonical_no_comma (uuid : String) (h : isCanonicalUUID uuid = true) :
    ',' ∉ uuid.data := by
  intro hm
  have hall : ∀ x ∈ uuid.data, x = '-' ∨ isLowercaseHexChar x = true :=
    (by simpa [isCanonicalUUID] using h :
      isValidUUID uuid = true ∧ ∀ x ∈ uuid.data, x = '-' ∨ isLowercaseHexChar x = true).2
  rcases hall ',' hm with hd | hl
  · exact absurd hd (by decide)
  · exact absurd hl (by decide)

theorem canonical_no_space (uuid : String) (h : isCanonicalUUID uuid = true) :
    ∀ c ∈ uuid.data, isJsSpace c = false := by
  intro c hm
  have hall : ∀ x ∈ uuid.data, x = '-' ∨ isLowercaseHexChar x = true :=
    (by simpa [isCanonicalUUID] using h :
      isValidUUID uuid = true ∧ ∀ x ∈ uuid.data, x = '-' ∨ isLowercaseHexChar x = true).2
  rcases hall c hm with rfl | hl
  · rfl
  · have h45 : 48 ≤ c.toNat := by
      have h0 := digit0_toNat
      have ha := lowa_toNat
      simp only [isLowercaseHexChar, Bool.or_eq_true, Bool.and_eq_true,
        decide_eq_true_eq, char_le_iff_toNat, h0, ha] at hl
      omega
    unfold isJsSpace
    simp only [Bool.or_eq_false_iff, beq_eq_false_iff_ne, ne_eq]
    refine ⟨⟨⟨⟨⟨?_, ?_⟩, ?_⟩, ?_⟩, ?_⟩, ?_⟩ <;> intro he <;> subst he <;> revert h45 <;> decide

theorem jsSplitChar_canonical (uuid : String) (h : isCanonicalUUID uuid = true) :
    jsSplitChar ',' uuid = [uuid] := by
  unfold jsSplitChar
  rw [splitOnCharList_no_sep ',' uuid.data (canonical_no_comma uuid h)]
  rfl

/-- C1 case IPv4: building a header for a canonical dotted-quad address and
parsing it back recovers every field. -/
theorem vless_roundtrip_ipv4 (uuid : String) (command port o0 o1 o2 o3 : Nat)
    (hcu : isCanonicalUUID uuid = true)
    (hcmd : command = 1 ∨ command = 2)
    (hport : port < 65536)
    (h0 : o0 < 256) (h1 : o1 < 256) (h2 : o2 < 256) (h3 : o3 < 256) :
    makeVlessRequestHeader command 1
        (jsJoin '.' (List.map renderDecNat [o0, o1, o2, o3])) port uuid =
      .ok ((0 :: uuidFieldBytes (uuid.data.filter (fun c => c ≠ '-'))) ++
        (0 :: command % 256 :: (port >>> 8) % 256 :: port % 256 :: 1 % 256 ::
          [o0, o1, o2, o3])) ∧
    processProtocolHeader
        ((0 :: uuidFieldBytes (uuid.data.filter (fun c => c ≠ '-'))) ++
          (0 :: command % 256 :: (port >>> 8) % 256 :: port % 256 :: 1 % 256 ::
            [o0, o1, o2, o3])) uuid =
      .ok (.ok ⟨jsJoin '.' (List.map renderDecNat [o0, o1, o2, o3]), 1, port, 26, [0],
        command == 2⟩) := by
  have hsplit4 : jsSplitChar '.' (jsJoin '.' (List.map renderDecNat [o0, o1, o2, o3])) =
      [renderDecNat o0, renderDecNat o1, renderDecNat o2, renderDecNat o3] := by
    unfold jsSplitChar jsJoin
    rw [splitOnCharList_join '.' _ (by simp) (by
      intro p hp
      simp only [List.map_map, List.mem_map] at hp
      obtain ⟨o, _, rfl⟩ := hp
      intro hdot
      have := decDigit_not_special '.' (renderDec_chars o '.' hdot)
      exact this.1 rfl)]
    have heta : ∀ s : String, String.mk s.data = s := fun s => rfl
    simp [List.map_map, heta]
  have hr4 : List.range 4 = [0, 1, 2, 3] := rfl
  have haddrBytes : (List.range 4).map (fun i =>
      (jsParseIntDec ((jsSplitChar '.'
        (jsJoin '.' (List.map renderDecNat [o0, o1, o2, o3]))).getD i "")).getD 0 % 256) =
      [o0, o1, o2, o3] := by
    rw [hsplit4, hr4]
    simp only [List.map_cons, List.map_nil, List.getD_cons_zero, List.getD_cons_succ]
    rw [jsParseIntDec_renderDecNat o0, jsParseIntDec_renderDecNat o1,
      jsParseIntDec_renderDecNat o2, jsParseIntDec_renderDecNat o3]
    simp only [Option.getD_some]
    rw [Nat.mod_eq_of_lt h0, Nat.mod_eq_of_lt h1, Nat.mod_eq_of_lt h2,
      Nat.mod_eq_of_lt h3]
  constructor
  · unfold makeVlessRequestHeader
    rw [haddrBytes]
    rfl
  · set ub := uuidFieldBytes (uuid.data.filter (fun c => c ≠ '-')) with hubdef
    set tail := 0 :: command % 256 :: (port >>> 8) % 256 :: port % 256 :: 1 % 256 ::
      [o0, o1, o2, o3] with htaildef
    have hub : ub.length = 16 := uuidFieldBytes_length _
    have hlen17 : (0 :: ub).length = 17 := by simp [hub]
    have hlen : (0 :: (ub ++ tail)).length = 26 := by
      rw [htaildef]
      simp [List.length_append, hub]
    have hv0 : dvGetUint8 (0 :: (ub ++ tail)) 0 = .ok 0 := rfl
    have hstr : stringify (uaSlice (0 :: (ub ++ tail)) 1 17) 0 = .ok uuid := by
      rw [← List.cons_append, vlessBuf_slice ub tail hub, hubdef]
      exact stringify_uuidFieldBytes uuid hcu
    have hsplitc := jsSplitChar_canonical uuid hcu
    have htrim : jsTrim uuid = uuid := jsTrim_id uuid (canonical_no_space uuid hcu)
    have h17 : dvGetUint8 (0 :: (ub ++ tail)) 17 = .ok 0 := by
      unfold dvGetUint8
      rw [← List.cons_append, show (17 : Nat) = 17 + 0 from rfl,
        vlessBuf_get ub tail hub, htaildef]
      rfl
    have hc256 : command % 256 = command := by rcases hcmd with rfl | rfl <;> rfl
    have h18 : dvGetUint8 (0 :: (ub ++ tail)) 18 = .ok command := by
      unfold dvGetUint8
      rw [← List.cons_append, show (18 : Nat) = 17 + 1 from rfl,
        vlessBuf_get ub tail hub, htaildef, hc256]
      rfl
    have hsh : (port >>> 8) % 256 * 256 + port % 256 = port := by
      rw [Nat.shiftRight_eq_div_pow]
      have h28 : (2 : Nat) ^ 8 = 256 := by norm_num
      rw [h28]
      omega
    have h19 : dvGetUint16 (0 :: (ub ++ tail)) 19 = .ok port := by
      unfold dvGetUint16
      rw [← List.cons_append, show (19 : Nat) = 17 + 2 from rfl,
        vlessBuf_get ub tail hub,
        show (17 + 2 + 1 : Nat) = 17 + 3 from rfl, vlessBuf_get ub tail hub, htaildef]
      show Except.ok ((port >>> 8) % 256 * 256 + port % 256) = Except.ok port
      rw [hsh]
    have h21 : dvGetUint8 (0 :: (ub ++ tail)) 21 = .ok 1 := by
      unfold dvGetUint8
      rw [← List.cons_append, show (21 : Nat) = 17 + 4 from rfl,
        vlessBuf_get ub tail hub, htaildef]
      rfl
    have hslice : uaSlice (0 :: (ub ++ tail)) 22 26 = [o0, o1, o2, o3] := by
      unfold uaSlice
      rw [← List.cons_append, List.take_of_length_le (by rw [List.cons_append]; omega),
        List.drop_append_eq_append_drop,
        List.drop_eq_nil_of_le (by omega), hlen17, htaildef]
      rfl
    have hcmdneg : ¬(¬command = 1 ∧ ¬command = 2) := by
      rintro ⟨ha, hb⟩
      rcases hcmd with rfl | rfl
      · exact ha rfl
      · exact hb rfl
    have haddrne : ¬(jsJoin '.' [renderDecNat o0, renderDecNat o1, renderDecNat o2,
        renderDecNat o3] = "") := by
      intro he
      have hd := congrArg String.data he
      simp only [jsJoin, List.map_cons, List.map_nil] at hd
      exact joinWithChar_ne_nil '.' _ _ _ hd
    have hc24 : ¬ ((0 :: (ub ++ tail)).length < 24) := by omega
    unfold processProtocolHeader
    rw [← List.cons_append] at hc24
    rw [if_neg hc24]
    simp [hv0, hstr, hsplitc, htrim, h17, h18, h19, h21, hslice, hcmdneg, haddrne,
      vlessFinish]

/-- Encoding a non-empty string yields at least one byte. -/
theorem utf8Encode_pos (s : String) (h : s ≠ "") : 1 ≤ (utf8Encode s).length := by
  rcases hd : s.data with _ | ⟨c, cs⟩
  · exact absurd (by
      have : s = ⟨[]⟩ := by
        cases s
        simp_all
      simpa using this) h
  · unfold utf8Encode
    rw [hd, List.flatMap_cons, List.length_append]
    have : 1 ≤ (utf8EncodeChar c).length := by
      unfold utf8EncodeChar
      simp only []
      split_ifs <;> simp
    omega

/-- C1 case Domain: building a header for a non-empty domain name of
encoded length below 256 and parsing it back recovers every field. -/
theorem vless_roundtrip_domain (uuid s : String) (command port : Nat)
    (hcu : isCanonicalUUID uuid = true)
    (hcmd : command = 1 ∨ command = 2)
    (hport : port < 65536)
    (hsne : s ≠ "")
    (hslen : (utf8Encode s).length < 256) :
    makeVlessRequestHeader command 2 s port uuid =
      .ok ((0 :: uuidFieldBytes (uuid.data.filter (fun c => c ≠ '-'))) ++
        (0 :: command % 256 :: (port >>> 8) % 256 :: port % 256 :: 2 % 256 ::
          ((utf8Encode s).length % 256 :: utf8Encode s))) ∧
    processProtocolHeader
        ((0 :: uuidFieldBytes (uuid.data.filter (fun c => c ≠ '-'))) ++
          (0 :: command % 256 :: (port >>> 8) % 256 :: port % 256 :: 2 % 256 ::
            ((utf8Encode s).length % 256 :: utf8Encode s))) uuid =
      .ok (.ok ⟨s, 2, port, 23 + (utf8Encode s).length, [0], command == 2⟩) := by
  constructor
  · unfold makeVlessRequestHeader
    rfl
  · set ub := uuidFieldBytes (uuid.data.filter (fun c => c ≠ '-')) with hubdef
    set tail := 0 :: command % 256 :: (port >>> 8) % 256 :: port % 256 :: 2 % 256 ::
      ((utf8Encode s).length % 256 :: utf8Encode s) with htaildef
    have hub : ub.length = 16 := uuidFieldBytes_length _
    have hlen17 : (0 :: ub).length = 17 := by simp [hub]
    have hn1 : 1 ≤ (utf8Encode s).length := utf8Encode_pos s hsne
    have hl256 : (utf8Encode s).length % 256 = (utf8Encode s).length :=
      Nat.mod_eq_of_lt hslen
    have hlen : (0 :: (ub ++ tail)).length = 23 + (utf8Encode s).length := by
      rw [htaildef]
      simp [List.length_append, hub]
      omega
    have hv0 : dvGetUint8 (0 :: (ub ++ tail)) 0 = .ok 0 := rfl
    have hstr : stringify (uaSlice (0 :: (ub ++ tail)) 1 17) 0 = .ok uuid := by
      rw [← List.cons_append, vlessBuf_slice ub tail hub, hubdef]
      exact stringify_uuidFieldBytes uuid hcu
    have hsplitc := jsSplitChar_canonical uuid hcu
    have htrim : jsTrim uuid = uuid := jsTrim_id uuid (canonical_no_space uuid hcu)
    have h17 : dvGetUint8 (0 :: (ub ++ tail)) 17 = .ok 0 := by
      unfold dvGetUint8
      rw [← List.cons_append, show (17 : Nat) = 17 + 0 from rfl,
        vlessBuf_get ub tail hub, htaildef]
      rfl
    have hc256 : command % 256 = command := by rcases hcmd with rfl | rfl <;> rfl
    have h18 : dvGetUint8 (0 :: (ub ++ tail)) 18 = .ok command := by
      unfold dvGetUint8
      rw [← List.cons_append, show (18 : Nat) = 17 + 1 from rfl,
        vlessBuf_get ub tail hub, htaildef, hc256]
      rfl
    have hsh : (port >>> 8) % 256 * 256 + port % 256 = port := by
      rw [Nat.shiftRight_eq_div_pow]
      have h28 : (2 : Nat) ^ 8 = 256 := by norm_num
      rw [h28]
      omega
    have h19 : dvGetUint16 (0 :: (ub ++ tail)) 19 = .ok port := by
      unfold dvGetUint16
      rw [← List.cons_append, show (19 : Nat) = 17 + 2 from rfl,
        vlessBuf_get ub tail hub,
        show (17 + 2 + 1 : Nat) = 17 + 3 from rfl, vlessBuf_get ub tail hub, htaildef]
      show Except.ok ((port >>> 8) % 256 * 256 + port % 256) = Except.ok port
      rw [hsh]
    have h21 : dvGetUint8 (0 :: (ub ++ tail)) 21 = .ok 2 := by
      unfold dvGetUint8
      rw [← List.cons_append, show (21 : Nat) = 17 + 4 from rfl,
        vlessBuf_get ub tail hub, htaildef]
      rfl
    have h22 : dvGetUint8 (0 :: (ub ++ tail)) 22 = .ok (utf8Encode s).length := by
      unfold dvGetUint8
      rw [← List.cons_append, show (22 : Nat) = 17 + 5 from rfl,
        vlessBuf_get ub tail hub, htaildef, hl256]
      rfl
    have hslice : uaSlice (0 :: (ub ++ tail)) 23 (23 + (utf8Encode s).length) =
        utf8Encode s := by
      unfold uaSlice
      rw [← List.cons_append, List.take_of_length_le (by rw [List.cons_append]; omega),
        List.drop_append_eq_append_drop,
        List.drop_eq_nil_of_le (by omega), hlen17, htaildef]
      rfl
    have hdec : textDecode (utf8Encode s) = s := textDecode_utf8Encode s
    have hcmdneg : ¬(¬command = 1 ∧ ¬command = 2) := by
      rintro ⟨ha, hb⟩
      rcases hcmd with rfl | rfl
      · exact ha rfl
      · exact hb rfl
    have hsne2 : ¬(s = "") := hsne
    have hc24 : ¬ ((0 :: (ub ++ tail)).length < 24) := by omega
    unfold processProtocolHeader
    rw [← List.cons_append] at hc24
    rw [if_neg hc24]
    simp [hv0, hstr, hsplitc, htrim, h17, h18, h19, h21, h22, hslice, hdec, hcmdneg,
      hsne2, vlessFinish]

/-- C1 case IPv6: building a header for a canonical colon-joined address
(lowercase hex groups, no leading zeros, no `::` compression) and parsing
it back recovers every field. -/
theorem vless_roundtrip_ipv6 (uuid : String) (command port : Nat)
    (g0 g1 g2 g3 g4 g5 g6 g7 : Nat)
    (hcu : isCanonicalUUID uuid = true)
    (hcmd : command = 1 ∨ command = 2)
    (hport : port < 65536)
    (hg0 : g0 < 65536) (hg1 : g1 < 65536) (hg2 : g2 < 65536) (hg3 : g3 < 65536)
    (hg4 : g4 < 65536) (hg5 : g5 < 65536) (hg6 : g6 < 65536) (hg7 : g7 < 65536) :
    makeVlessRequestHeader command 3 (jsJoin ':' (List.map renderHexNat [g0, g1, g2, g3, g4, g5, g6, g7])) port uuid =
      .ok ((0 :: uuidFieldBytes (uuid.data.filter (fun c => c ≠ '-'))) ++
        (0 :: command % 256 :: (port >>> 8) % 256 :: port % 256 :: 3 % 256 ::
          [g0 / 256 % 256, g0 % 256, g1 / 256 % 256, g1 % 256, g2 / 256 % 256, g2 % 256, g3 / 256 % 256, g3 % 256, g4 / 256 % 256, g4 % 256, g5 / 256 % 256, g5 % 256, g6 / 256 % 256, g6 % 256, g7 / 256 % 256, g7 % 256])) ∧
    processProtocolHeader
        ((0 :: uuidFieldBytes (uuid.data.filter (fun c => c ≠ '-'))) ++
          (0 :: command % 256 :: (port >>> 8) % 256 :: port % 256 :: 3 % 256 ::
            [g0 / 256 % 256, g0 % 256, g1 / 256 % 256, g1 % 256, g2 / 256 % 256, g2 % 256, g3 / 256 % 256, g3 % 256, g4 / 256 % 256, g4 % 256, g5 / 256 % 256, g5 % 256, g6 / 256 % 256, g6 % 256, g7 / 256 % 256, g7 % 256])) uuid =
      .ok (.ok ⟨jsJoin ':' (List.map renderHexNat [g0, g1, g2, g3, g4, g5, g6, g7]), 3, port, 38, [0], command == 2⟩) := by
  have hparts : ∀ p ∈ (List.map renderHexNat [g0, g1, g2, g3, g4, g5, g6, g7]).map String.data,
      p ≠ [] ∧ ':' ∉ p := by
    intro p hp
    simp only [List.map_map, List.mem_map] at hp
    obtain ⟨g, _, rfl⟩ := hp
    refine ⟨renderHex_ne_nil g, fun hc => ?_⟩
    exact (hexDigit_not_special ':' (renderHex_chars g ':' hc)).1 rfl
  have hsplit8 : jsSplitChar ':' (jsJoin ':' (List.map renderHexNat [g0, g1, g2, g3, g4, g5, g6, g7])) =
      [renderHexNat g0, renderHexNat g1, renderHexNat g2, renderHexNat g3, renderHexNat g4, renderHexNat g5, renderHexNat g6, renderHexNat g7] := by
    unfold jsSplitChar jsJoin
    rw [splitOnCharList_join ':' _ (by simp) (fun p hp => (hparts p hp).2)]
    have heta : ∀ s : String, String.mk s.data = s := fun s => rfl
    simp [List.map_map, heta]
  have haddrne : (jsJoin ':' (List.map renderHexNat [g0, g1, g2, g3, g4, g5, g6, g7])).data ≠ [] := by
    simp only [jsJoin, List.map_cons, List.map_nil]
    exact joinWithChar_ne_nil ':' _ _ _
  have hmemchar : ∀ c ∈ (jsJoin ':' (List.map renderHexNat [g0, g1, g2, g3, g4, g5, g6, g7])).data, ¬(c = '[') ∧ ¬(c = ']') := by
    intro c hc
    simp only [jsJoin] at hc
    rcases joinWithChar_mem ':' _ c hc with rfl | ⟨p, hp, hcp⟩
    · exact ⟨by decide, by decide⟩
    · simp only [List.map_map, List.mem_map] at hp
      obtain ⟨g, _, rfl⟩ := hp
      have hspec := hexDigit_not_special c (renderHex_chars g c hcp)
      exact ⟨hspec.2.1, hspec.2.2.1⟩
  have hstrip : stripBrackets (jsJoin ':' (List.map renderHexNat [g0, g1, g2, g3, g4, g5, g6, g7])) = jsJoin ':' (List.map renderHexNat [g0, g1, g2, g3, g4, g5, g6, g7]) := by
    unfold stripBrackets
    have hh : (jsJoin ':' (List.map renderHexNat [g0, g1, g2, g3, g4, g5, g6, g7])).data.headD ' ' ∈ (jsJoin ':' (List.map renderHexNat [g0, g1, g2, g3, g4, g5, g6, g7])).data := by
      rcases hd : (jsJoin ':' (List.map renderHexNat [g0, g1, g2, g3, g4, g5, g6, g7])).data with _ | ⟨c, cs⟩
      · exact absurd hd haddrne
      · simp
    rw [show ((jsJoin ':' (List.map renderHexNat [g0, g1, g2, g3, g4, g5, g6, g7])).data.headD ' ' == '[') = false from
      by rw [beq_eq_false_iff_ne]; exact (hmemchar _ hh).1]
    simp only [Bool.false_eq_true, if_false]
    rcases hgl : (jsJoin ':' (List.map renderHexNat [g0, g1, g2, g3, g4, g5, g6, g7])).data.getLast? with _ | c
    · rfl
    · rw [show (some c == some ']') = false from by
        rw [beq_eq_false_iff_ne]
        intro he
        injection he with he2
        exact (hmemchar c (List.mem_of_mem_getLast? hgl)).2 he2]
      rfl
  have hinc : jsIncludes "::" (jsJoin ':' (List.map renderHexNat [g0, g1, g2, g3, g4, g5, g6, g7])) = false := by
    unfold jsIncludes
    rw [show ("::" : String).data = [':', ':'] from rfl]
    rw [show (jsJoin ':' (List.map renderHexNat [g0, g1, g2, g3, g4, g5, g6, g7])).data = joinWithChar ':' ((List.map renderHexNat [g0, g1, g2, g3, g4, g5, g6, g7]).map String.data) from rfl]
    rw [splitFirstSub_dcolon_join _ (fun p hp => ⟨(hparts p hp).1, (hparts p hp).2⟩)]
    rfl
  have hexpand : expandIPv6 (jsJoin ':' (List.map renderHexNat [g0, g1, g2, g3, g4, g5, g6, g7])) =
      jsJoin ':' [(⟨padStartChars 4 '0' (renderHexNat g0).data⟩ : String), (⟨padStartChars 4 '0' (renderHexNat g1).data⟩ : String), (⟨padStartChars 4 '0' (renderHexNat g2).data⟩ : String), (⟨padStartChars 4 '0' (renderHexNat g3).data⟩ : String), (⟨padStartChars 4 '0' (renderHexNat g4).data⟩ : String), (⟨padStartChars 4 '0' (renderHexNat g5).data⟩ : String), (⟨padStartChars 4 '0' (renderHexNat g6).data⟩ : String), (⟨padStartChars 4 '0' (renderHexNat g7).data⟩ : String)] := by
    unfold expandIPv6
    simp only []
    rw [hstrip, hinc]
    simp only [Bool.false_eq_true, if_false]
    rw [hsplit8]
    rfl
  have hsplitPad : jsSplitChar ':' (jsJoin ':' [(⟨padStartChars 4 '0' (renderHexNat g0).data⟩ : String), (⟨padStartChars 4 '0' (renderHexNat g1).data⟩ : String), (⟨padStartChars 4 '0' (renderHexNat g2).data⟩ : String), (⟨padStartChars 4 '0' (renderHexNat g3).data⟩ : String), (⟨padStartChars 4 '0' (renderHexNat g4).data⟩ : String), (⟨padStartChars 4 '0' (renderHexNat g5).data⟩ : String), (⟨padStartChars 4 '0' (renderHexNat g6).data⟩ : String), (⟨padStartChars 4 '0' (renderHexNat g7).data⟩ : String)]) = [(⟨padStartChars 4 '0' (renderHexNat g0).data⟩ : String), (⟨padStartChars 4 '0' (renderHexNat g1).data⟩ : String), (⟨padStartChars 4 '0' (renderHexNat g2).data⟩ : String), (⟨padStartChars 4 '0' (renderHexNat g3).data⟩ : String), (⟨padStartChars 4 '0' (renderHexNat g4).data⟩ : String), (⟨padStartChars 4 '0' (renderHexNat g5).data⟩ : String), (⟨padStartChars 4 '0' (renderHexNat g6).data⟩ : String), (⟨padStartChars 4 '0' (renderHexNat g7).data⟩ : String)] := by
    unfold jsSplitChar jsJoin
    rw [splitOnCharList_join ':' _ (by simp) (by
      intro p hp
      simp only [List.map_cons, List.map_nil, List.mem_cons, List.not_mem_nil, or_false] at hp
      have hgen : ∀ g : Nat, p = padStartChars 4 '0' (renderHexNat g).data → ':' ∉ p := by
        intro g hpe hc
        subst hpe
        unfold padStartChars at hc
        rcases List.mem_append.mp hc with hz | hr
        · exact absurd (List.eq_of_mem_replicate hz) (by decide)
        · exact (hexDigit_not_special ':' (renderHex_chars g ':' hr)).1 rfl
      rcases hp with rfl | hp
      · exact hgen g0 rfl
      rcases hp with rfl | hp
      · exact hgen g1 rfl
      rcases hp with rfl | hp
      · exact hgen g2 rfl
      rcases hp with rfl | hp
      · exact hgen g3 rfl
      rcases hp with rfl | hp
      · exact hgen g4 rfl
      rcases hp with rfl | hp
      · exact hgen g5 rfl
      rcases hp with rfl | hp
      · exact hgen g6 rfl
      exact hgen g7 hp
      )]
    have heta : ∀ s : String, String.mk s.data = s := fun s => rfl
    simp [List.map_map, heta]
  have hr8 : List.range 8 = [0, 1, 2, 3, 4, 5, 6, 7] := rfl
  have hflat : ((List.range 8).flatMap (fun i =>
      let hexGroup := (jsParseIntHex ((jsSplitChar ':' (expandIPv6 (jsJoin ':' (List.map renderHexNat [g0, g1, g2, g3, g4, g5, g6, g7])))).getD i "")).getD 0
      [hexGroup / 256 % 256, hexGroup % 256])) = [g0 / 256 % 256, g0 % 256, g1 / 256 % 256, g1 % 256, g2 / 256 % 256, g2 % 256, g3 / 256 % 256, g3 % 256, g4 / 256 % 256, g4 % 256, g5 / 256 % 256, g5 % 256, g6 / 256 % 256, g6 % 256, g7 / 256 % 256, g7 % 256] := by
    rw [hexpand, hsplitPad, hr8]
    simp only [List.flatMap_cons, List.flatMap_nil, List.getD_cons_zero,
      List.getD_cons_succ]
    rw [jsParseIntHex_pad4 g0, jsParseIntHex_pad4 g1, jsParseIntHex_pad4 g2, jsParseIntHex_pad4 g3, jsParseIntHex_pad4 g4, jsParseIntHex_pad4 g5, jsParseIntHex_pad4 g6, jsParseIntHex_pad4 g7]
    simp only [Option.getD_some, List.append_nil]
    rfl
  constructor
  · unfold makeVlessRequestHeader
    rw [hflat]
    rfl
  · set ub := uuidFieldBytes (uuid.data.filter (fun c => c ≠ '-')) with hubdef
    set tail := 0 :: command % 256 :: (port >>> 8) % 256 :: port % 256 :: 3 % 256 ::
      [g0 / 256 % 256, g0 % 256, g1 / 256 % 256, g1 % 256, g2 / 256 % 256, g2 % 256, g3 / 256 % 256, g3 % 256, g4 / 256 % 256, g4 % 256, g5 / 256 % 256, g5 % 256, g6 / 256 % 256, g6 % 256, g7 / 256 % 256, g7 % 256] with htaildef
    have hub : ub.length = 16 := uuidFieldBytes_length _
    have hlen17 : (0 :: ub).length = 17 := by simp [hub]
    have hlen : (0 :: (ub ++ tail)).length = 38 := by
      rw [htaildef]
      simp [List.length_append, hub]
    have hv0 : dvGetUint8 (0 :: (ub ++ tail)) 0 = .ok 0 := rfl
    have hstr : stringify (uaSlice (0 :: (ub ++ tail)) 1 17) 0 = .ok uuid := by
      rw [← List.cons_append, vlessBuf_slice ub tail hub, hubdef]
      exact stringify_uuidFieldBytes uuid hcu
    have hsplitc := jsSplitChar_canonical uuid hcu
    have htrim : jsTrim uuid = uuid := jsTrim_id uuid (canonical_no_space uuid hcu)
    have h17 : dvGetUint8 (0 :: (ub ++ tail)) 17 = .ok 0 := by
      unfold dvGetUint8
      rw [← List.cons_append, show (17 : Nat) = 17 + 0 from rfl,
        vlessBuf_get ub tail hub, htaildef]
      rfl
    have hc256 : command % 256 = command := by rcases hcmd with rfl | rfl <;> rfl
    have h18 : dvGetUint8 (0 :: (ub ++ tail)) 18 = .ok command := by
      unfold dvGetUint8
      rw [← List.cons_append, show (18 : Nat) = 17 + 1 from rfl,
        vlessBuf_get ub tail hub, htaildef, hc256]
      rfl
    have hsh : (port >>> 8) % 256 * 256 + port % 256 = port := by
      rw [Nat.shiftRight_eq_div_pow]
      have h28 : (2 : Nat) ^ 8 = 256 := by norm_num
      rw [h28]
      omega
    have h19 : dvGetUint16 (0 :: (ub ++ tail)) 19 = .ok port := by
      unfold dvGetUint16
      rw [← List.cons_append, show (19 : Nat) = 17 + 2 from rfl,
        vlessBuf_get ub tail hub,
        show (17 + 2 + 1 : Nat) = 17 + 3 from rfl, vlessBuf_get ub tail hub, htaildef]
      show Except.ok ((port >>> 8) % 256 * 256 + port % 256) = Except.ok port
      rw [hsh]
    have h21 : dvGetUint8 (0 :: (ub ++ tail)) 21 = .ok 3 := by
      unfold dvGetUint8
      rw [← List.cons_append, show (21 : Nat) = 17 + 4 from rfl,
        vlessBuf_get ub tail hub, htaildef]
      rfl
    have hgu0 : dvGetUint16 (0 :: (ub ++ tail)) 22 = .ok g0 := by
      unfold dvGetUint16
      rw [← List.cons_append, show (22 : Nat) = 17 + 5 from rfl,
        vlessBuf_get ub tail hub,
        show (17 + 5 + 1 : Nat) = 17 + 6 from rfl,
        vlessBuf_get ub tail hub, htaildef]
      show Except.ok (g0 / 256 % 256 * 256 + g0 % 256) = Except.ok g0
      rw [show g0 / 256 % 256 * 256 + g0 % 256 = g0 from by omega]
    have hgu1 : dvGetUint16 (0 :: (ub ++ tail)) 24 = .ok g1 := by
      unfold dvGetUint16
      rw [← List.cons_append, show (24 : Nat) = 17 + 7 from rfl,
        vlessBuf_get ub tail hub,
        show (17 + 7 + 1 : Nat) = 17 + 8 from rfl,
        vlessBuf_get ub tail hub, htaildef]
      show Except.ok (g1 / 256 % 256 * 256 + g1 % 256) = Except.ok g1
      rw [show g1 / 256 % 256 * 256 + g1 % 256 = g1 from by omega]
    have hgu2 : dvGetUint16 (0 :: (ub ++ tail)) 26 = .ok g2 := by
      unfold dvGetUint16
      rw [← List.cons_append, show (26 : Nat) = 17 + 9 from rfl,
        vlessBuf_get ub tail hub,
        show (17 + 9 + 1 : Nat) = 17 + 10 from rfl,
        vlessBuf_get ub tail hub, htaildef]
      show Except.ok (g2 / 256 % 256 * 256 + g2 % 256) = Except.ok g2
      rw [show g2 / 256 % 256 * 256 + g2 % 256 = g2 from by omega]
    have hgu3 : dvGetUint16 (0 :: (ub ++ tail)) 28 = .ok g3 := by
      unfold dvGetUint16
      rw [← List.cons_append, show (28 : Nat) = 17 + 11 from rfl,
        vlessBuf_get ub tail hub,
        show (17 + 11 + 1 : Nat) = 17 + 12 from rfl,
        vlessBuf_get ub tail hub, htaildef]
      show Except.ok (g3 / 256 % 256 * 256 + g3 % 256) = Except.ok g3
      rw [show g3 / 256 % 256 * 256 + g3 % 256 = g3 from by omega]
    have hgu4 : dvGetUint16 (0 :: (ub ++ tail)) 30 = .ok g4 := by
      unfold dvGetUint16
      rw [← List.cons_append, show (30 : Nat) = 17 + 13 from rfl,
        vlessBuf_get ub tail hub,
        show (17 + 13 + 1 : Nat) = 17 + 14 from rfl,
        vlessBuf_get ub tail hub, htaildef]
      show Except.ok (g4 / 256 % 256 * 256 + g4 % 256) = Except.ok g4
      rw [show g4 / 256 % 256 * 256 + g4 % 256 = g4 from by omega]
    have hgu5 : dvGetUint16 (0 :: (ub ++ tail)) 32 = .ok g5 := by
      unfold dvGetUint16
      rw [← List.cons_append, show (32 : Nat) = 17 + 15 from rfl,
        vlessBuf_get ub tail hub,
        show (17 + 15 + 1 : Nat) = 17 + 16 from rfl,
        vlessBuf_get ub tail hub, htaildef]
      show Except.ok (g5 / 256 % 256 * 256 + g5 % 256) = Except.ok g5
      rw [show g5 / 256 % 256 * 256 + g5 % 256 = g5 from by omega]
    have hgu6 : dvGetUint16 (0 :: (ub ++ tail)) 34 = .ok g6 := by
      unfold dvGetUint16
      rw [← List.cons_append, show (34 : Nat) = 17 + 17 from rfl,
        vlessBuf_get ub tail hub,
        show (17 + 17 + 1 : Nat) = 17 + 18 from rfl,
        vlessBuf_get ub tail hub, htaildef]
      show Except.ok (g6 / 256 % 256 * 256 + g6 % 256) = Except.ok g6
      rw [show g6 / 256 % 256 * 256 + g6 % 256 = g6 from by omega]
    have hgu7 : dvGetUint16 (0 :: (ub ++ tail)) 36 = .ok g7 := by
      unfold dvGetUint16
      rw [← List.cons_append, show (36 : Nat) = 17 + 19 from rfl,
        vlessBuf_get ub tail hub,
        show (17 + 19 + 1 : Nat) = 17 + 20 from rfl,
        vlessBuf_get ub tail hub, htaildef]
      show Except.ok (g7 / 256 % 256 * 256 + g7 % 256) = Except.ok g7
      rw [show g7 / 256 % 256 * 256 + g7 % 256 = g7 from by omega]
    have hr8 : List.range 8 = [0, 1, 2, 3, 4, 5, 6, 7] := rfl
    have hbind : ∀ (a : Nat) (f : Nat → Except String (List Nat)),
        ((Except.ok a : Except String Nat) >>= f) = f a := fun _ _ => rfl
    have hpure : ∀ l : List Nat, (pure l : Except String (List Nat)) = Except.ok l :=
      fun _ => rfl
    have hcmdneg : ¬(¬command = 1 ∧ ¬command = 2) := by
      rintro ⟨ha, hb⟩
      rcases hcmd with rfl | rfl
      · exact ha rfl
      · exact hb rfl
    have haddrne : ¬(jsJoin ':' [renderHexNat g0, renderHexNat g1, renderHexNat g2, renderHexNat g3, renderHexNat g4, renderHexNat g5, renderHexNat g6, renderHexNat g7] = "") := by
      intro he
      have hd := congrArg String.data he
      simp only [jsJoin, List.map_cons, List.map_nil] at hd
      exact joinWithChar_ne_nil ':' _ _ _ hd
    have hc24 : ¬ ((0 :: (ub ++ tail)).length < 24) := by omega
    unfold processProtocolHeader
    rw [← List.cons_append] at hc24
    rw [if_neg hc24]
    simp [hv0, hstr, hsplitc, htrim, h17, h18, h19, h21, hgu0, hgu1, hgu2, hgu3, hgu4, hgu5, hgu6, hgu7,
      hr8, hbind, hpure, hcmdneg, haddrne, List.mapM_cons, List.mapM_nil,
      List.mapM.loop, vlessFinish]

/-- C1 (amended): building a VLESS request header and parsing it back
recovers the UUID (the parser's user check accepts the credential),
command (`isUDP` iff command = 2), address, and port, for canonical
inputs: a lowercase UUID that passes the code's version/variant regex
(`isCanonicalUUID`), command 1 or 2, port below 2^16, and a canonical
textual address — dotted-decimal IPv4, a non-empty domain whose UTF-8
encoding is shorter than 256 bytes, or a lowercase-hex colon-joined
IPv6 with no `::` compression.  (The original claim fails for UUIDs the
regex rejects — see the counterexample — and for non-canonical address
spellings, which parse back in canonical form.) -/
theorem vless_header_roundtrip_canonical :
    (∀ (uuid : String) (command port o0 o1 o2 o3 : Nat),
      isCanonicalUUID uuid = true → (command = 1 ∨ command = 2) → port < 65536 →
      o0 < 256 → o1 < 256 → o2 < 256 → o3 < 256 →
      ∃ buf, makeVlessRequestHeader command 1
          (jsJoin '.' (List.map renderDecNat [o0, o1, o2, o3])) port uuid = .ok buf ∧
        processProtocolHeader buf uuid =
          .ok (.ok ⟨jsJoin '.' (List.map renderDecNat [o0, o1, o2, o3]), 1, port, 26,
            [0], command == 2⟩)) ∧
    (∀ (uuid s : String) (command port : Nat),
      isCanonicalUUID uuid = true → (command = 1 ∨ command = 2) → port < 65536 →
      s ≠ "" → (utf8Encode s).length < 256 →
      ∃ buf, makeVlessRequestHeader command 2 s port uuid = .ok buf ∧
        processProtocolHeader buf uuid =
          .ok (.ok ⟨s, 2, port, 23 + (utf8Encode s).length, [0], command == 2⟩)) ∧
    (∀ (uuid : String) (command port g0 g1 g2 g3 g4 g5 g6 g7 : Nat),
      isCanonicalUUID uuid = true → (command = 1 ∨ command = 2) → port < 65536 →
      g0 < 65536 → g1 < 65536 → g2 < 65536 → g3 < 65536 →
      g4 < 65536 → g5 < 65536 → g6 < 65536 → g7 < 65536 →
      ∃ buf, makeVlessRequestHeader command 3
          (jsJoin ':' (List.map renderHexNat [g0, g1, g2, g3, g4, g5, g6, g7]))
          port uuid = .ok buf ∧
        processProtocolHeader buf uuid =
          .ok (.ok ⟨jsJoin ':' (List.map renderHexNat [g0, g1, g2, g3, g4, g5, g6, g7]),
            3, port, 38, [0], command == 2⟩)) := by
  refine ⟨?_, ?_, ?_⟩
  · intro uuid command port o0 o1 o2 o3 hcu hcmd hport h0 h1 h2 h3
    obtain ⟨hmake, hparse⟩ :=
      vless_roundtrip_ipv4 uuid command port o0 o1 o2 o3 hcu hcmd hport h0 h1 h2 h3
    exact ⟨_, hmake, hparse⟩
  · intro uuid s command port hcu hcmd hport hsne hslen
    obtain ⟨hmake, hparse⟩ :=
      vless_roundtrip_domain uuid s command port hcu hcmd hport hsne hslen
    exact ⟨_, hmake, hparse⟩
  · intro uuid command port g0 g1 g2 g3 g4 g5 g6 g7 hcu hcmd hport
      hg0 hg1 hg2 hg3 hg4 hg5 hg6 hg7
    obtain ⟨hmake, hparse⟩ :=
      vless_roundtrip_ipv6 uuid command port g0 g1 g2 g3 g4 g5 g6 g7 hcu hcmd hport
        hg0 hg1 hg2 hg3 hg4 hg5 hg6 hg7
    exact ⟨_, hmake, hparse⟩

set_option maxRecDepth 8192 in
/-- C1 counterexample: the canonically formatted UUID
`11111111-1111-1111-1111-111111111111` — the spec's own example of a
credential — fails the version/variant regex inside `stringify`, so
parsing the header the generator builds for it throws a `TypeError`
instead of round-tripping. -/
theorem vless_header_roundtrip_counterexample :
    makeVlessRequestHeader 1 1 "1.2.3.4" 80 "11111111-1111-1111-1111-111111111111" =
      .ok [0, 17, 17, 17, 17, 17, 17, 17, 17, 17, 17, 17, 17, 17, 17, 17, 17,
        0, 1, 0, 80, 1, 1, 2, 3, 4] ∧
    processProtocolHeader
        [0, 17, 17, 17, 17, 17, 17, 17, 17, 17, 17, 17, 17, 17, 17, 17, 17,
          0, 1, 0, 80, 1, 1, 2, 3, 4]
        "11111111-1111-1111-1111-111111111111" =
      .error "TypeError: Stringified UUID is invalid" := by
  constructor
  · rfl
  · rfl

set_option maxRecDepth 8192 in
/-- C1 witness: the amended round-trip applied to a concrete canonical
credential and the IPv4 address 10.0.0.1 on port 443 with the UDP
command. -/
theorem vless_header_roundtrip_canonical_witness :
    isCanonicalUUID "aaaaaaaa-aaaa-4aaa-8aaa-aaaaaaaaaaaa" = true ∧
    ∃ buf, makeVlessRequestHeader 2 1
        (jsJoin '.' (List.map renderDecNat [10, 0, 0, 1])) 443
        "aaaaaaaa-aaaa-4aaa-8aaa-aaaaaaaaaaaa" = .ok buf ∧
      processProtocolHeader buf "aaaaaaaa-aaaa-4aaa-8aaa-aaaaaaaaaaaa" =
        .ok (.ok ⟨jsJoin '.' (List.map renderDecNat [10, 0, 0, 1]), 1, 443, 26,
          [0], 2 == 2⟩) := by
  refine ⟨by decide, ?_⟩
  exact vless_header_roundtrip_canonical.1 "aaaaaaaa-aaaa-4aaa-8aaa-aaaaaaaaaaaa"
    2 443 10 0 0 1 (by decide) (Or.inr rfl) (by decide) (by decide) (by decide)
    (by decide) (by decide)
